import Mathlib

/-!
# Orthoism resampling engine: embedding of `OrthoTileSource`

Shallow embedding of `src/OrthoTileSource.cpp` / `src/OrthoTileSource.h`.

Conventions of the embedding.

* `double` values are exact rationals (`ℚ`); `0.1` and `0.6` are `1/10` and `3/5`.
  Every concrete value that enters a computation evaluated below is a dyadic rational,
  so the evaluation shown is also what IEEE doubles compute.
* `ossim_int32` values are `Int`; the one place where the source mixes `int` with
  `uint32_t` (`loadImageTile`) is wrapped explicitly modulo `2^32`.
* The object `OrthoTileSource` is a record holding the members of the C++ class;
  methods take the record and return the updated record.
* Collaborators that live outside the repository (the OSSIM library and libm) are
  parameters: the coordinate transform `m_transform`, the pixel source
  `m_inputSource`, the pixel accessor of a tile, the conversion `ossimIpt(ossimDpt)`
  (`toIpt`) and `sqrt`.
* The field `trace` is a ghost log of the calls made to the collaborators and of the
  scanline-buffer indices used; it has no influence on any computed value.
-/

namespace Orthoism

/-! ## Data model -/

/-- Image-space point with real coordinates (`ossimDpt`). -/
structure Dpt where
  x : ℚ
  y : ℚ
deriving DecidableEq

/-- Integer point (`ossimIpt`); the members `u`, `v` of the source alias `x`, `y`. -/
structure Ipt where
  x : Int
  y : Int
deriving DecidableEq

/-- Alias `u` of `x` in `ossimIpt`. -/
abbrev Ipt.u (p : Ipt) : Int := p.x

/-- Alias `v` of `y` in `ossimIpt`. -/
abbrev Ipt.v (p : Ipt) : Int := p.y

/-- Integer rectangle given by its upper-left and lower-right corners (`ossimIrect`). -/
structure Irect where
  ul : Ipt
  lr : Ipt
deriving DecidableEq

/-- Upper-right corner of a rectangle. -/
def Irect.ur (r : Irect) : Ipt := ⟨r.lr.x, r.ul.y⟩

/-- Lower-left corner of a rectangle. -/
def Irect.ll (r : Irect) : Ipt := ⟨r.ul.x, r.lr.y⟩

/-- Membership of an integer point in a rectangle (both corners included). -/
def Irect.contains (r : Irect) (p : Ipt) : Prop :=
  r.ul.x ≤ p.x ∧ p.x ≤ r.lr.x ∧ r.ul.y ≤ p.y ∧ p.y ≤ r.lr.y

instance (r : Irect) (p : Ipt) : Decidable (r.contains p) := by
  unfold Irect.contains
  infer_instance

/-- Conversion of an integer point to a real point (`ossimDpt(const ossimIpt&)`). -/
def Ipt.toDpt (p : Ipt) : Dpt := ⟨(p.x : ℚ), (p.y : ℚ)⟩

/-- Availability status of a tile (`ossimDataObjectStatus`, the part used here). -/
inductive DataObjectStatus
  | OSSIM_EMPTY
  | OSSIM_FULL
deriving DecidableEq

/-- Input tile (`ossimImageData` as returned by the pixel source): a status and the
pixel accessor `getPix(position, band)`. -/
structure ImageData where
  status : DataObjectStatus
  getPix : Ipt → Nat → ℚ

/-- Output tile buffer (`m_mapTile`): its rectangle and the values stored by
`setValue`; a cell that was never written since `makeBlank` holds `none`. -/
structure MapTile where
  rect : Option Irect
  val : Int → Int → Nat → Option ℚ

/-- Blank output tile (`makeBlank`). -/
def MapTile.makeBlank (t : MapTile) : MapTile := { t with val := fun _ _ _ => none }

/-- Rectangle assignment of the output tile (`setImageRectangle`). -/
def MapTile.setImageRectangle (t : MapTile) (r : Irect) : MapTile := { t with rect := some r }

/-- Store of one band value (`setValue(x, y, value, band)`). -/
def MapTile.setValue (t : MapTile) (x y : Int) (value : ℚ) (band : Nat) : MapTile :=
  { t with val := fun x1 y1 b1 => if x1 = x ∧ y1 = y ∧ b1 = band then some value else t.val x1 y1 b1 }

/-- Resampler kinds, in the order of the enum in `OrthoTileSource.h`. -/
inductive ResamplerType
  | NN
  | LWM
  | DWM
  | BI
deriving DecidableEq

/-- Nine kernel weights, `m_kernel[0]` to `m_kernel[8]`. -/
structure Kernel where
  k0 : ℚ
  k1 : ℚ
  k2 : ℚ
  k3 : ℚ
  k4 : ℚ
  k5 : ℚ
  k6 : ℚ
  k7 : ℚ
  k8 : ℚ
deriving DecidableEq

/-- Ghost events: calls to the collaborators and scanline-buffer accesses. -/
inductive Event
  | mapToImage (p : Ipt)
  | getTile (r : Irect)
  | getPix (p : Ipt) (band : Nat)
  | centerPts (i : Nat)
  | southPts (i : Nat)
deriving DecidableEq

/-- Members of the class `OrthoTileSource` (names as in the header) and the ghost log. -/
structure OrthoTileSource where
  m_inputSource : Irect → ImageData
  m_mapTile : MapTile
  m_imageTile : ImageData
  m_radius : ℚ
  m_safetyMargin : Nat
  m_numBands : Nat
  m_transform : Dpt → Dpt
  m_southPts : Nat → Dpt
  m_centerPts : Nat → Dpt
  m_resamplerType : ResamplerType
  m_nullPix : ℚ
  m_kernel : Kernel
  trace : List Event

/-- Default radius of influence, `0.6`. -/
def RADIUS_OF_INFLUENCE_DEFAULT : ℚ := 3 / 5

/-- Default safety margin. -/
def SAFETY_MARGIN_DEFAULT : Nat := 2

/-- Default resampler kind. -/
def RESAMPLER_TYPE_DEFAULT : ResamplerType := ResamplerType.BI

/-! ## Configuration -/

/-- Method `setResamplerType`: selection of the kind from its name; any other string
throws. -/
def setResamplerType (s : OrthoTileSource) (value : String) : Except String OrthoTileSource :=
  if value = "" then
    .ok { s with m_resamplerType := RESAMPLER_TYPE_DEFAULT }
  else if value = "NN" then
    .ok { s with m_resamplerType := ResamplerType.NN }
  else if value = "LWM" then
    .ok { s with m_resamplerType := ResamplerType.LWM }
  else if value = "DWM" then
    .ok { s with m_resamplerType := ResamplerType.DWM }
  else if value = "BI" then
    .ok { s with m_resamplerType := ResamplerType.BI }
  else
    .error "ERROR OrthoTileSource::OrthoTileSource() -- Bad resampler type specified in preferences."

/-- Settings read from the OSSIM preferences by the constructor. `none` stands for a
preference that is absent (`findPreference` returns the empty string); `some r` holds
the number parsed from a present one (`toDouble`, `toUInt32`). -/
structure Preferences where
  radiusOfInfluence : Option ℚ
  safetyMargin : Option Nat
  resamplerType : String

/-- Constructor `OrthoTileSource::OrthoTileSource()`. The argument `raw` stands for the
members the constructor leaves without a meaningful value. -/
def construct (prefs : Preferences) (raw : OrthoTileSource) : Except String OrthoTileSource :=
  let s : OrthoTileSource :=
    { raw with
      m_radius := RADIUS_OF_INFLUENCE_DEFAULT
      m_safetyMargin := SAFETY_MARGIN_DEFAULT
      m_resamplerType := RESAMPLER_TYPE_DEFAULT }
  let s : OrthoTileSource :=
    match prefs.radiusOfInfluence with
    | none => s
    | some r =>
      let s1 : OrthoTileSource := { s with m_radius := r }
      if s1.m_radius < 1 / 10 then { s1 with m_radius := RADIUS_OF_INFLUENCE_DEFAULT } else s1
  let s : OrthoTileSource :=
    match prefs.safetyMargin with
    | none => s
    | some m =>
      let s1 : OrthoTileSource := { s with m_safetyMargin := m % 2 ^ 32 }
      if s1.m_safetyMargin < 1 then { s1 with m_radius := (SAFETY_MARGIN_DEFAULT : ℚ) } else s1
  setResamplerType s prefs.resamplerType

/-! ## Footprint -/

/-- Largest and smallest `ossim_int32`. -/
def INT32_MAX : Int := 2147483647

/-- Smallest `ossim_int32`. -/
def INT32_MIN : Int := -2147483648

/-- Value of `int - uint32_t` stored back into an `ossim_int32`: the difference is
formed modulo `2^32` and read as a two's-complement number. -/
def wrapInt32 (z : Int) : Int := (z + 2 ^ 31) % 2 ^ 32 - 2 ^ 31

/-- Lines 462-492 of `loadImageTile`: the rectangle `imgTileRect` requested from the
pixel source for the four corners, with `m` the safety margin. -/
def imgTileRect (m : Nat) (corner1 corner2 corner3 corner4 : Ipt) : Irect :=
  let ulx : Int := INT32_MAX
  let uly : Int := INT32_MAX
  let lrx : Int := INT32_MIN
  let lry : Int := INT32_MIN
  let ulx := if corner1.x < ulx then wrapInt32 (corner1.x - m) else ulx
  let ulx := if corner2.x < ulx then wrapInt32 (corner2.x - m) else ulx
  let ulx := if corner3.x < ulx then wrapInt32 (corner3.x - m) else ulx
  let ulx := if corner4.x < ulx then wrapInt32 (corner4.x - m) else ulx
  let uly := if corner1.y < uly then wrapInt32 (corner1.y - m) else uly
  let uly := if corner2.y < uly then wrapInt32 (corner2.y - m) else uly
  let uly := if corner3.y < uly then wrapInt32 (corner3.y - m) else uly
  let uly := if corner4.y < uly then wrapInt32 (corner4.y - m) else uly
  let lrx := if corner1.x > lrx then wrapInt32 (corner1.x + m) else lrx
  let lrx := if corner2.x > lrx then wrapInt32 (corner2.x + m) else lrx
  let lrx := if corner3.x > lrx then wrapInt32 (corner3.x + m) else lrx
  let lrx := if corner4.x > lrx then wrapInt32 (corner4.x + m) else lrx
  let lry := if corner1.y > lry then wrapInt32 (corner1.y + m) else lry
  let lry := if corner2.y > lry then wrapInt32 (corner2.y + m) else lry
  let lry := if corner3.y > lry then wrapInt32 (corner3.y + m) else lry
  let lry := if corner4.y > lry then wrapInt32 (corner4.y + m) else lry
  let ulx := if ulx < 0 then 0 else ulx
  let uly := if uly < 0 then 0 else uly
  ⟨⟨ulx, uly⟩, ⟨lrx, lry⟩⟩

/-- Method `loadImageTile`: fetch of the input block covering the footprint. -/
def loadImageTile (s : OrthoTileSource) (corner1 corner2 corner3 corner4 : Ipt) : OrthoTileSource :=
  let r := imgTileRect s.m_safetyMargin corner1 corner2 corner3 corner4
  { s with m_imageTile := s.m_inputSource r, trace := s.trace ++ [Event.getTile r] }

/-! ## Loops and conversions -/

/-- Counted loop: `forUpTo body n s` runs `body 0`, `body 1`, ..., `body (n-1)` in this
order, starting from `s`. Every `for` loop of the source is an instance of it. -/
def forUpTo {σ : Type} (body : Nat → σ → σ) : Nat → σ → σ
  | 0, s => s
  | n + 1, s => body n (forUpTo body n s)

/-- C cast `(int)` of a double: truncation toward zero. -/
def truncToInt (q : ℚ) : Int := if 0 ≤ q then ⌊q⌋ else ⌈q⌉

/-- Modelled from the spec: the OSSIM conversion `ossimIpt(const ossimDpt&)` is not in
the repository; the spec says the mapped coordinate is truncated to the enclosing
integer pixel. The resamplers below take the conversion as the parameter `toIpt`;
this is the instance used for concrete evaluations. -/
def truncIpt (P : Dpt) : Ipt := ⟨truncToInt P.x, truncToInt P.y⟩

/-- Method `mapToImage`: the map pixel is converted to a real point and sent through
the transform. -/
def mapToImage (s : OrthoTileSource) (mapPt : Ipt) : Dpt := s.m_transform mapPt.toDpt

/-! ## Resamplers -/

/-- Body of the band loop of `resampleNN`. -/
def resampleNNBand (mapPt Pnn : Ipt) (band : Nat) (s : OrthoTileSource) : OrthoTileSource :=
  let B := s.m_imageTile.getPix Pnn band
  { s with
    m_mapTile := s.m_mapTile.setValue mapPt.u mapPt.v B band
    trace := s.trace ++ [Event.getPix Pnn band] }

/-- Method `resampleNN`. -/
def resampleNN (toIpt : Dpt → Ipt) (s : OrthoTileSource) (mapPt : Ipt) (P : Dpt) : OrthoTileSource :=
  let Pnn := toIpt P
  forUpTo (resampleNNBand mapPt Pnn) s.m_numBands s

/-- Blend computed by `resampleBI` for one band from the four taps (null substitution,
weights, clamp at zero). -/
def blendBI (nullPix dx dy p11 p12 p21 p22 : ℚ) : ℚ :=
  let dxc := 1 - dx
  let dyc := 1 - dy
  let p11 := if p11 = nullPix then 0 else p11
  let p12 := if p12 = nullPix then 0 else p12
  let p21 := if p21 = nullPix then 0 else p21
  let p22 := if p22 = nullPix then 0 else p22
  let B := dxc * dyc * p11 + dx * dyc * p12 + dx * dy * p22 + dxc * dy * p21
  if B < 0 then 0 else B

/-- Body of the band loop of `resampleBI`. -/
def resampleBIBand (mapPt Pul : Ipt) (dx dy : ℚ) (band : Nat) (s : OrthoTileSource) :
    OrthoTileSource :=
  let Pur : Ipt := ⟨Pul.x + 1, Pul.y⟩
  let Plr : Ipt := ⟨Pul.x + 1, Pul.y + 1⟩
  let Pll : Ipt := ⟨Pul.x, Pul.y + 1⟩
  let p11 := s.m_imageTile.getPix Pul band
  let p12 := s.m_imageTile.getPix Pur band
  let p21 := s.m_imageTile.getPix Pll band
  let p22 := s.m_imageTile.getPix Plr band
  let B := blendBI s.m_nullPix dx dy p11 p12 p21 p22
  { s with
    m_mapTile := s.m_mapTile.setValue mapPt.u mapPt.v B band
    trace := s.trace ++
      [Event.getPix Pul band, Event.getPix Pur band, Event.getPix Pll band, Event.getPix Plr band] }

/-- Method `resampleBI`. -/
def resampleBI (s : OrthoTileSource) (mapPt : Ipt) (P : Dpt) : OrthoTileSource :=
  let Pul : Ipt := ⟨truncToInt P.x, truncToInt P.y⟩
  let dx := P.x - Pul.x
  let dy := P.y - Pul.y
  forUpTo (resampleBIBand mapPt Pul dx dy) s.m_numBands s

/-- Method `computeLWM`: product weights. -/
def computeLWM (s : OrthoTileSource) (dx1 dx2 dx3 dy1 dy2 dy3 : ℚ) : OrthoTileSource :=
  { s with m_kernel :=
      { k0 := dx1 * dy1, k1 := dx1 * dy2, k2 := dx1 * dy3
        k3 := dx2 * dy1, k4 := dx2 * dy2, k5 := dx2 * dy3
        k6 := dx3 * dy1, k7 := dx3 * dy2, k8 := dx3 * dy3 } }

/-- Method `computeDWM`: Euclidean-norm weights; `sqrt` is the library square root. -/
def computeDWM (sqrt : ℚ → ℚ) (s : OrthoTileSource) (dx1 dx2 dx3 dy1 dy2 dy3 : ℚ) :
    OrthoTileSource :=
  { s with m_kernel :=
      { k0 := sqrt (dx1 * dx1 + dy1 * dy1), k1 := sqrt (dx1 * dx1 + dy2 * dy2)
        k2 := sqrt (dx1 * dx1 + dy3 * dy3), k3 := sqrt (dx2 * dx2 + dy1 * dy1)
        k4 := sqrt (dx2 * dx2 + dy2 * dy2), k5 := sqrt (dx2 * dx2 + dy3 * dy3)
        k6 := sqrt (dx3 * dx3 + dy1 * dy1), k7 := sqrt (dx3 * dx3 + dy2 * dy2)
        k8 := sqrt (dx3 * dx3 + dy3 * dy3) } }

/-- Nine tap values `p11 .. p33` of one band. -/
structure Taps where
  p11 : ℚ
  p12 : ℚ
  p13 : ℚ
  p21 : ℚ
  p22 : ℚ
  p23 : ℚ
  p31 : ℚ
  p32 : ℚ
  p33 : ℚ

/-- Positions of the nine taps around `Pnn`, in the order the source reads them. -/
def tapPositions (Pnn : Ipt) : List Ipt :=
  [⟨Pnn.x - 1, Pnn.y - 1⟩, ⟨Pnn.x - 1, Pnn.y⟩, ⟨Pnn.x - 1, Pnn.y + 1⟩,
   ⟨Pnn.x, Pnn.y - 1⟩, Pnn, ⟨Pnn.x, Pnn.y + 1⟩,
   ⟨Pnn.x + 1, Pnn.y - 1⟩, ⟨Pnn.x + 1, Pnn.y⟩, ⟨Pnn.x + 1, Pnn.y + 1⟩]

/-- Nine `getPix` calls of the band loop of `resample`. -/
def fetchTaps (tile : ImageData) (Pnn : Ipt) (band : Nat) : Taps :=
  { p11 := tile.getPix ⟨Pnn.x - 1, Pnn.y - 1⟩ band
    p12 := tile.getPix ⟨Pnn.x - 1, Pnn.y⟩ band
    p13 := tile.getPix ⟨Pnn.x - 1, Pnn.y + 1⟩ band
    p21 := tile.getPix ⟨Pnn.x, Pnn.y - 1⟩ band
    p22 := tile.getPix Pnn band
    p23 := tile.getPix ⟨Pnn.x, Pnn.y + 1⟩ band
    p31 := tile.getPix ⟨Pnn.x + 1, Pnn.y - 1⟩ band
    p32 := tile.getPix ⟨Pnn.x + 1, Pnn.y⟩ band
    p33 := tile.getPix ⟨Pnn.x + 1, Pnn.y + 1⟩ band }

/-- Null exclusion of the band loop of `resample`: the weight of every tap that equals
the null sentinel is overwritten with 0 in the kernel buffer. -/
def maskNull (nullPix : ℚ) (t : Taps) (k : Kernel) : Kernel :=
  let k := if t.p11 = nullPix then { k with k0 := 0 } else k
  let k := if t.p12 = nullPix then { k with k1 := 0 } else k
  let k := if t.p13 = nullPix then { k with k2 := 0 } else k
  let k := if t.p21 = nullPix then { k with k3 := 0 } else k
  let k := if t.p22 = nullPix then { k with k4 := 0 } else k
  let k := if t.p23 = nullPix then { k with k5 := 0 } else k
  let k := if t.p31 = nullPix then { k with k6 := 0 } else k
  let k := if t.p32 = nullPix then { k with k7 := 0 } else k
  let k := if t.p33 = nullPix then { k with k8 := 0 } else k
  k

/-- Sum `W` of the nine kernel weights. -/
def Kernel.sum (k : Kernel) : ℚ :=
  k.k0 + k.k1 + k.k2 + k.k3 + k.k4 + k.k5 + k.k6 + k.k7 + k.k8

/-- Weighted sum of the nine taps with the kernel weights. -/
def Kernel.dot (k : Kernel) (t : Taps) : ℚ :=
  k.k0 * t.p11 + k.k1 * t.p12 + k.k2 * t.p13 + k.k3 * t.p21 + k.k4 * t.p22 + k.k5 * t.p23 +
    k.k6 * t.p31 + k.k7 * t.p32 + k.k8 * t.p33

/-- Value `B` of one band: the weighted mean when `W > 0`, the null sentinel otherwise. -/
def weightedMean (nullPix : ℚ) (k : Kernel) (t : Taps) : ℚ :=
  let W := k.sum
  if W > 0 then k.dot t / W else nullPix

/-- Body of the band loop of `resample`. -/
def resampleBand (mapPt Pnn : Ipt) (band : Nat) (s : OrthoTileSource) : OrthoTileSource :=
  let t := fetchTaps s.m_imageTile Pnn band
  let k := maskNull s.m_nullPix t s.m_kernel
  let B := weightedMean s.m_nullPix k t
  { s with
    m_kernel := k
    m_mapTile := s.m_mapTile.setValue mapPt.u mapPt.v B band
    trace := s.trace ++ (tapPositions Pnn).map (fun p => Event.getPix p band) }

/-- Half-weight `m_radius + R - |offset|` clamped at zero. -/
def halfWeight (radius R offset : ℚ) : ℚ :=
  let d := radius + R - |offset|
  if d < 0 then 0 else d

/-- First part of `resample` (lines 294-323): pixel extents, half-weights and kernel. -/
def resampleKernel (toIpt : Dpt → Ipt) (sqrt : ℚ → ℚ) (s : OrthoTileSource) (P E S : Dpt) :
    OrthoTileSource :=
  let Pnn := toIpt P
  let x1 := |P.x - E.x + P.y - E.y|
  let y1 := |P.x - S.x + P.y - S.y|
  let x2 := |E.x - P.x + P.y - E.y|
  let y2 := |S.x - P.x + P.y - S.y|
  let Rx := (1 / 2) * max x1 x2
  let Ry := (1 / 2) * max y1 y2
  let dx1 := halfWeight s.m_radius Rx (((Pnn.x - 1 : Int) : ℚ) - P.x)
  let dx2 := halfWeight s.m_radius Rx ((Pnn.x : ℚ) - P.x)
  let dx3 := halfWeight s.m_radius Rx (((Pnn.x + 1 : Int) : ℚ) - P.x)
  let dy1 := halfWeight s.m_radius Ry (((Pnn.y - 1 : Int) : ℚ) - P.y)
  let dy2 := halfWeight s.m_radius Ry ((Pnn.y : ℚ) - P.y)
  let dy3 := halfWeight s.m_radius Ry (((Pnn.y + 1 : Int) : ℚ) - P.y)
  if s.m_resamplerType = ResamplerType.LWM then
    computeLWM s dx1 dx2 dx3 dy1 dy2 dy3
  else
    computeDWM sqrt s dx1 dx2 dx3 dy1 dy2 dy3

/-- Method `resample` (LWM and DWM), with the parameters named as in its definition:
centre `P`, then `E`, then `S`. -/
def resample (toIpt : Dpt → Ipt) (sqrt : ℚ → ℚ) (s : OrthoTileSource) (mapPt : Ipt)
    (P E S : Dpt) : OrthoTileSource :=
  let s1 := resampleKernel toIpt sqrt s P E S
  forUpTo (resampleBand mapPt (toIpt P)) s1.m_numBands s1

/-! ## Tile production -/

/-- Priming loop of `getTile` (lines 237-242): iteration `i` stores the image of map
pixel `(ul.u + i, ul.v)` in `m_centerPts[i]`. -/
def primeBody (ulMap : Ipt) (i : Nat) (s : OrthoTileSource) : OrthoTileSource :=
  let mapPt : Ipt := ⟨ulMap.u + i, ulMap.v⟩
  { s with
    m_centerPts := Function.update s.m_centerPts i (mapToImage s mapPt)
    trace := s.trace ++ [Event.mapToImage mapPt, Event.centerPts i] }

/-- Per-pixel switch of `getTile` (lines 251-265). -/
def dispatch (toIpt : Dpt → Ipt) (sqrt : ℚ → ℚ) (s : OrthoTileSource) (mapPt : Ipt) (i : Nat) :
    OrthoTileSource :=
  match s.m_resamplerType with
  | ResamplerType.NN =>
    resampleNN toIpt { s with trace := s.trace ++ [Event.centerPts i] } mapPt (s.m_centerPts i)
  | ResamplerType.BI =>
    resampleBI { s with trace := s.trace ++ [Event.centerPts i] } mapPt (s.m_centerPts i)
  | ResamplerType.LWM | ResamplerType.DWM =>
    resample toIpt sqrt
      { s with trace := s.trace ++ [Event.centerPts i, Event.southPts i, Event.centerPts (i + 1)] }
      mapPt (s.m_centerPts i) (s.m_southPts i) (s.m_centerPts (i + 1))

/-- Body of the column loop of `getTile` (lines 250-270) for row `v`; `i` is the column
index, `mapPt.u = ul.u + i`. -/
def colBody (toIpt : Dpt → Ipt) (sqrt : ℚ → ℚ) (ulMap : Ipt) (v : Int) (i : Nat)
    (s : OrthoTileSource) : OrthoTileSource :=
  let mapPt : Ipt := ⟨ulMap.u + i, v⟩
  let south : Ipt := ⟨mapPt.u, mapPt.v + 1⟩
  let s1 : OrthoTileSource :=
    { s with
      m_southPts := Function.update s.m_southPts i (mapToImage s south)
      trace := s.trace ++ [Event.mapToImage south, Event.southPts i] }
  let s2 := dispatch toIpt sqrt s1 mapPt i
  { s2 with
    m_centerPts := Function.update s2.m_centerPts i (s2.m_southPts i)
    trace := s2.trace ++ [Event.southPts i, Event.centerPts i] }

/-- Body of the row loop of `getTile` (lines 246-274); `j` is the row index,
`mapPt.v = ul.v + j`, and `w` is the number of columns of the rectangle. After the
column loop `mapPt.u = ul.u + w` and `i = w`. -/
def rowBody (toIpt : Dpt → Ipt) (sqrt : ℚ → ℚ) (ulMap : Ipt) (w : Nat) (j : Nat)
    (s : OrthoTileSource) : OrthoTileSource :=
  let v : Int := ulMap.v + j
  let s1 := forUpTo (colBody toIpt sqrt ulMap v) w s
  let east : Ipt := ⟨ulMap.u + w, v⟩
  { s1 with
    m_centerPts := Function.update s1.m_centerPts w (mapToImage s1 east)
    trace := s1.trace ++ [Event.mapToImage east, Event.centerPts w] }

/-- First part of `getTile` (lines 213-228): the output tile is blanked and given its
rectangle, the four corners of the map rectangle are sent to image space and converted to
integer points, and the input block of their footprint is loaded. -/
def loadFootprint (toIpt : Dpt → Ipt) (s : OrthoTileSource) (mapRect : Irect) : OrthoTileSource :=
  let s : OrthoTileSource :=
    { s with m_mapTile := (s.m_mapTile.makeBlank).setImageRectangle mapRect }
  let ulMap := mapRect.ul
  let urMap := mapRect.ur
  let lrMap := mapRect.lr
  let llMap := mapRect.ll
  let cornerUl := toIpt (mapToImage s ulMap)
  let cornerUr := toIpt (mapToImage s urMap)
  let cornerLr := toIpt (mapToImage s lrMap)
  let cornerLl := toIpt (mapToImage s llMap)
  let s : OrthoTileSource :=
    { s with trace := s.trace ++ [Event.mapToImage ulMap, Event.mapToImage urMap,
        Event.mapToImage lrMap, Event.mapToImage llMap] }
  loadImageTile s cornerUl cornerUr cornerLr cornerLl

/-- Method `getTile`. The number of iterations of `for (x = a; x <= b; ++x)` is
`(b + 1 - a).toNat`. The closing call `validate()` recomputes the status flag of the output
tile, which is not part of `MapTile`, and leaves the stored values unchanged. -/
def getTile (toIpt : Dpt → Ipt) (sqrt : ℚ → ℚ) (s : OrthoTileSource) (mapRect : Irect) :
    OrthoTileSource :=
  let s := loadFootprint toIpt s mapRect
  let ulMap := mapRect.ul
  let lrMap := mapRect.lr
  if s.m_imageTile.status = DataObjectStatus.OSSIM_EMPTY then
    s
  else
    let s := forUpTo (primeBody ulMap) (lrMap.u + 1 + 1 - ulMap.u).toNat s
    forUpTo (rowBody toIpt sqrt ulMap (lrMap.u + 1 - ulMap.u).toNat) (lrMap.v + 1 - ulMap.v).toNat s

/-! ## Quantities named by the statements -/

/-- Weight sum `W` that `resample` forms in the iteration of band `band`: the sum of the
kernel buffer once the null exclusions of the bands `0 .. band` have been applied. -/
def bandWeightSum (toIpt : Dpt → Ipt) (sqrt : ℚ → ℚ) (s : OrthoTileSource) (mapPt : Ipt)
    (P E S : Dpt) (band : Nat) : ℚ :=
  (forUpTo (resampleBand mapPt (toIpt P)) (band + 1) (resampleKernel toIpt sqrt s P E S)).m_kernel.sum

/-- Smallest of nine tap values. -/
def Taps.min (t : Taps) : ℚ :=
  Min.min t.p11 (Min.min t.p12 (Min.min t.p13 (Min.min t.p21 (Min.min t.p22
    (Min.min t.p23 (Min.min t.p31 (Min.min t.p32 t.p33)))))))

/-- Largest of nine tap values. -/
def Taps.max (t : Taps) : ℚ :=
  Max.max t.p11 (Max.max t.p12 (Max.max t.p13 (Max.max t.p21 (Max.max t.p22
    (Max.max t.p23 (Max.max t.p31 (Max.max t.p32 t.p33)))))))

/-- All nine weights are non-negative. -/
def Kernel.Nonneg (k : Kernel) : Prop :=
  0 ≤ k.k0 ∧ 0 ≤ k.k1 ∧ 0 ≤ k.k2 ∧ 0 ≤ k.k3 ∧ 0 ≤ k.k4 ∧ 0 ≤ k.k5 ∧ 0 ≤ k.k6 ∧ 0 ≤ k.k7 ∧
    0 ≤ k.k8

/-- Input tile holding the value `v` at every position and band. -/
def uniformTile (v : ℚ) : ImageData := ⟨DataObjectStatus.OSSIM_FULL, fun _ _ => v⟩

/-- Engine used for concrete evaluations: identity transform, a pixel source that
returns `tile` for every rectangle, empty buffers and log. -/
def engine (kind : ResamplerType) (radius : ℚ) (margin bands : Nat) (nullPix : ℚ)
    (tile : ImageData) : OrthoTileSource :=
  { m_inputSource := fun _ => tile
    m_mapTile := ⟨none, fun _ _ _ => none⟩
    m_imageTile := tile
    m_radius := radius
    m_safetyMargin := margin
    m_numBands := bands
    m_transform := fun p => p
    m_southPts := fun _ => ⟨0, 0⟩
    m_centerPts := fun _ => ⟨0, 0⟩
    m_resamplerType := kind
    m_nullPix := nullPix
    m_kernel := ⟨0, 0, 0, 0, 0, 0, 0, 0, 0⟩
    trace := [] }

/-- Stand-in for the library square root on the rationals, used for concrete
evaluations only: the integer square root of the numerator over that of the
denominator (exact on squares of rationals, never negative). -/
def sqrtQ (q : ℚ) : ℚ := (Nat.sqrt q.num.toNat : ℚ) / (Nat.sqrt q.den : ℚ)

/-- Input tile whose value at `(x, y)` is `x + 2 y` in every band. -/
def rampTile : ImageData := ⟨DataObjectStatus.OSSIM_FULL, fun p _ => (p.x : ℚ) + 2 * p.y⟩

/-- Input tile holding `a` at the position `q` and `b` everywhere else, in every band. -/
def spotTile (q : Ipt) (a b : ℚ) : ImageData :=
  ⟨DataObjectStatus.OSSIM_FULL, fun p _ => if p = q then a else b⟩

/-- The members that are fixed while a tile is resampled agree in two states. -/
structure SameConfig (s t : OrthoTileSource) : Prop where
  inputSource : t.m_inputSource = s.m_inputSource
  imageTile : t.m_imageTile = s.m_imageTile
  radius : t.m_radius = s.m_radius
  safetyMargin : t.m_safetyMargin = s.m_safetyMargin
  numBands : t.m_numBands = s.m_numBands
  transform : t.m_transform = s.m_transform
  resamplerType : t.m_resamplerType = s.m_resamplerType
  nullPix : t.m_nullPix = s.m_nullPix

/-- State `t` differs from `s` at most in the kernel buffer, the log and the output
values of the map pixel `mapPt`. -/
structure WritesOnlyAt (mapPt : Ipt) (s t : OrthoTileSource) : Prop where
  config : SameConfig s t
  centerPts : t.m_centerPts = s.m_centerPts
  southPts : t.m_southPts = s.m_southPts
  rect : t.m_mapTile.rect = s.m_mapTile.rect
  val : ∀ x y b, ¬ (x = mapPt.u ∧ y = mapPt.v) → t.m_mapTile.val x y b = s.m_mapTile.val x y b

/-- Value the resampler of the engine's kind writes for `band` when it is called with
the points `P`, `E`, `S` (NN and BI use `P` only). -/
def writtenValue (toIpt : Dpt → Ipt) (sqrt : ℚ → ℚ) (s : OrthoTileSource) (P E S : Dpt)
    (band : Nat) : Option ℚ :=
  match s.m_resamplerType with
  | ResamplerType.NN => (resampleNN toIpt s ⟨0, 0⟩ P).m_mapTile.val 0 0 band
  | ResamplerType.BI => (resampleBI s ⟨0, 0⟩ P).m_mapTile.val 0 0 band
  | ResamplerType.LWM | ResamplerType.DWM =>
    (resample toIpt sqrt s ⟨0, 0⟩ P E S).m_mapTile.val 0 0 band

/-- Contents of `m_centerPts` when the row loop of `getTile` starts its iteration `j`,
in terms of the buffer `c0` left by the priming loop: during the first row it is `c0`;
afterwards entry `k < w` holds the image of `(ul.u + k, ul.v + j)` and entry `w` holds the
image of `(ul.u + w, ul.v + j - 1)`. -/
def rowCenters (s : OrthoTileSource) (ulMap : Ipt) (w : Nat) (c0 : Nat → Dpt) : Nat → Nat → Dpt
  | 0 => c0
  | j + 1 => fun k =>
    if k < w then mapToImage s ⟨ulMap.u + k, ulMap.v + j + 1⟩
    else if k = w then mapToImage s ⟨ulMap.u + w, ulMap.v + j⟩
    else c0 k

/-- Point that `getTile` hands to `resample` as its last argument for the pixel in column
`k` and row `j` of a rectangle with `w` columns, namely the content of
`m_centerPts[k + 1]` at that moment: the image of the right-hand neighbour
`(ul.u + k + 1, ul.v + j)`, except in the last column of every row after the first, where
the entry still holds the image of `(ul.u + w, ul.v + j - 1)` of the row above. -/
def bufferedEast (s : OrthoTileSource) (ulMap : Ipt) (w k j : Nat) : Dpt :=
  if k + 1 < w ∨ j = 0 then mapToImage s ⟨ulMap.u + k + 1, ulMap.v + j⟩
  else mapToImage s ⟨ulMap.u + k + 1, ulMap.v + j - 1⟩

/-- Reference of the cache-equivalence claim, in the claim's words: the value obtained for
the output pixel `mapPt = (u, v)` and band `band` when the pixel is resampled with
center `mapToImage(u, v)`, east `mapToImage(u + 1, v)` and south `mapToImage(u, v + 1)`,
each recomputed from the transform; `s` is the engine with the input block loaded. -/
def independentValue (toIpt : Dpt → Ipt) (sqrt : ℚ → ℚ) (s : OrthoTileSource) (mapPt : Ipt)
    (band : Nat) : Option ℚ :=
  let center := mapToImage s mapPt
  let east := mapToImage s ⟨mapPt.u + 1, mapPt.v⟩
  let south := mapToImage s ⟨mapPt.u, mapPt.v + 1⟩
  match s.m_resamplerType with
  | ResamplerType.NN => (resampleNN toIpt s mapPt center).m_mapTile.val mapPt.u mapPt.v band
  | ResamplerType.BI => (resampleBI s mapPt center).m_mapTile.val mapPt.u mapPt.v band
  | ResamplerType.LWM | ResamplerType.DWM =>
    (resample toIpt sqrt s mapPt center east south).m_mapTile.val mapPt.u mapPt.v band

/-- Rectangle `loadImageTile` requests on behalf of `getTile` for the map rectangle: the
one computed from the four mapped corners and the safety margin. -/
def footprintRect (toIpt : Dpt → Ipt) (s : OrthoTileSource) (mapRect : Irect) : Irect :=
  imgTileRect s.m_safetyMargin (toIpt (mapToImage s mapRect.ul)) (toIpt (mapToImage s mapRect.ur))
    (toIpt (mapToImage s mapRect.lr)) (toIpt (mapToImage s mapRect.ll))

/-- Integer pixel a resampler of kind `kind` starts from for the mapped point `P`: the
C cast of both coordinates for BI, the conversion `toIpt` for the other kinds. -/
def basePixel (toIpt : Dpt → Ipt) (kind : ResamplerType) (P : Dpt) : Ipt :=
  match kind with
  | ResamplerType.BI => ⟨truncToInt P.x, truncToInt P.y⟩
  | _ => toIpt P

/-- Positions a resampler of kind `kind` reads for the mapped point `P`: the base pixel
(NN), the base pixel and its right, lower and lower-right neighbours (BI), the 3x3 block
around the base pixel (LWM, DWM). -/
def NearTap (toIpt : Dpt → Ipt) (kind : ResamplerType) (P : Dpt) (p : Ipt) : Prop :=
  match kind with
  | ResamplerType.NN => p = toIpt P
  | ResamplerType.BI =>
    (p.x = truncToInt P.x ∨ p.x = truncToInt P.x + 1) ∧
    (p.y = truncToInt P.y ∨ p.y = truncToInt P.y + 1)
  | _ => p ∈ tapPositions (toIpt P)

/-- Number of pixels by which the positions a resampler of kind `kind` reads extend to
the left of and above its base pixel: 0 for NN and BI, 1 for the 3x3 block of LWM and
DWM. -/
def tapReachBefore (kind : ResamplerType) : Int :=
  match kind with
  | ResamplerType.NN => 0
  | ResamplerType.BI => 0
  | _ => 1

/-- Number of pixels by which the positions a resampler of kind `kind` reads extend to
the right of and below its base pixel: 0 for NN, 1 for BI, LWM and DWM. -/
def tapReachAfter (kind : ResamplerType) : Int :=
  match kind with
  | ResamplerType.NN => 0
  | _ => 1

/-- Conditions on the transform, the map rectangle and the safety margin `m` under which
the rectangle of `loadImageTile` covers the taps of the tile. With `cUl`, `cUr`, `cLr`,
`cLl` the converted images of the four map corners that `getTile` hands to
`loadImageTile`:
* the footprint is axis-aligned: `cUr = (cLr.x, cUl.y)` and `cLl = (cUl.x, cLr.y)`;
* the base pixel of the image of every output pixel lies between `cUl` and `cLr`;
* the margin is at least the reach of the resampler to the right and below;
* the taps have non-negative coordinates: `cUl` is at least the reach of the resampler to
  the left and above;
* unless that reach is 0, the footprint is larger than the margin in both directions
  (`cUl + m < cLr`), so that the lower-right bound is taken from `cLr`;
* `cLr + m` does not exceed the largest `ossim_int32`. -/
def CoveredFootprint (toIpt : Dpt → Ipt) (s : OrthoTileSource) (mapRect : Irect) : Prop :=
  (toIpt (mapToImage s mapRect.ur) =
    ⟨(toIpt (mapToImage s mapRect.lr)).x, (toIpt (mapToImage s mapRect.ul)).y⟩) ∧
  (toIpt (mapToImage s mapRect.ll) =
    ⟨(toIpt (mapToImage s mapRect.ul)).x, (toIpt (mapToImage s mapRect.lr)).y⟩) ∧
  (∀ k j : Nat, k < (mapRect.lr.u + 1 - mapRect.ul.u).toNat →
    j < (mapRect.lr.v + 1 - mapRect.ul.v).toNat →
    (toIpt (mapToImage s mapRect.ul)).x ≤
      (basePixel toIpt s.m_resamplerType
        (mapToImage s ⟨mapRect.ul.u + k, mapRect.ul.v + j⟩)).x ∧
    (basePixel toIpt s.m_resamplerType
        (mapToImage s ⟨mapRect.ul.u + k, mapRect.ul.v + j⟩)).x ≤
      (toIpt (mapToImage s mapRect.lr)).x ∧
    (toIpt (mapToImage s mapRect.ul)).y ≤
      (basePixel toIpt s.m_resamplerType
        (mapToImage s ⟨mapRect.ul.u + k, mapRect.ul.v + j⟩)).y ∧
    (basePixel toIpt s.m_resamplerType
        (mapToImage s ⟨mapRect.ul.u + k, mapRect.ul.v + j⟩)).y ≤
      (toIpt (mapToImage s mapRect.lr)).y) ∧
  tapReachAfter s.m_resamplerType ≤ (s.m_safetyMargin : Int) ∧
  tapReachBefore s.m_resamplerType ≤ (toIpt (mapToImage s mapRect.ul)).x ∧
  tapReachBefore s.m_resamplerType ≤ (toIpt (mapToImage s mapRect.ul)).y ∧
  (tapReachAfter s.m_resamplerType = 0 ∨
    ((toIpt (mapToImage s mapRect.ul)).x + (s.m_safetyMargin : Int) <
        (toIpt (mapToImage s mapRect.lr)).x ∧
      (toIpt (mapToImage s mapRect.ul)).y + (s.m_safetyMargin : Int) <
        (toIpt (mapToImage s mapRect.lr)).y)) ∧
  (toIpt (mapToImage s mapRect.lr)).x + (s.m_safetyMargin : Int) ≤ INT32_MAX ∧
  (toIpt (mapToImage s mapRect.lr)).y + (s.m_safetyMargin : Int) ≤ INT32_MAX

/-- State `t` extends the log of `s`, and every position read through `getPix` in the
extension satisfies `Q`. -/
def ReadsWithin (Q : Ipt → Prop) (s t : OrthoTileSource) : Prop :=
  ∃ l, t.trace = s.trace ++ l ∧ ∀ p b, Event.getPix p b ∈ l → Q p

/-- Tap value as `resampleBI` uses it: the null sentinel is replaced by 0. -/
def nullToZero (nullPix p : ℚ) : ℚ := if p = nullPix then 0 else p

/-- Offset `dx` (resp. `dy`) that `resampleBI` computes for the coordinate `q`: the
coordinate less its C cast to `int`. -/
def offsetBI (q : ℚ) : ℚ := q - (truncToInt q : ℚ)

/-- Input tile with the status "empty". -/
def emptyTile : ImageData := ⟨DataObjectStatus.OSSIM_EMPTY, fun _ _ => 0⟩

/-- Test for the log entries that record a call of `mapToImage`. -/
def Event.isMapToImage : Event → Bool
  | Event.mapToImage _ => true
  | _ => false

/-- Number of `mapToImage` calls recorded in a piece of the log. -/
def mapCalls (l : List Event) : Nat := l.countP Event.isMapToImage

/-- State `t` extends the log of `s` by entries that record exactly `c` calls of
`mapToImage`. -/
def MapCallsBetween (c : Nat) (s t : OrthoTileSource) : Prop :=
  ∃ l, t.trace = s.trace ++ l ∧ mapCalls l = c

/-- Input tile with two kinds of band: band 0 holds `f0`, every other band holds `f1`. -/
def twoBandTile (f0 f1 : Ipt → ℚ) : ImageData :=
  ⟨DataObjectStatus.OSSIM_FULL, fun p band => if band = 0 then f0 p else f1 p⟩

/-- Value of the per-band null exclusion as the specification words it: the weighted mean
of the nine taps of band `band` with the kernel weights computed for this pixel, the
weight of every tap that is null in band `band` (and of no other tap) set to 0; the null
sentinel when that weight sum is not positive. -/
def perBandValue (toIpt : Dpt → Ipt) (sqrt : ℚ → ℚ) (s : OrthoTileSource) (P E S : Dpt)
    (band : Nat) : ℚ :=
  weightedMean s.m_nullPix
    (maskNull s.m_nullPix (fetchTaps s.m_imageTile (toIpt P) band)
      (resampleKernel toIpt sqrt s P E S).m_kernel)
    (fetchTaps s.m_imageTile (toIpt P) band)

/-- Engine for concrete evaluations whose transform doubles the `x` coordinate: LWM,
radius of influence 1/2, safety margin 2, one band, null sentinel 1000. -/
def stretchEngine (tile : ImageData) : OrthoTileSource :=
  { engine ResamplerType.LWM (1 / 2) 2 1 1000 tile with m_transform := fun p => ⟨2 * p.x, p.y⟩ }

/-- Pixel source over an image: the tile returned for a rectangle holds the image inside
the rectangle and `outside` elsewhere. -/
def clippedSource (img : Ipt → Nat → ℚ) (outside : ℚ) : Irect → ImageData :=
  fun r => ⟨DataObjectStatus.OSSIM_FULL, fun p b => if r.contains p then img p b else outside⟩

/-- Engine of the end-to-end scenario: single band, 4x4 input image with all 16 pixels equal
to 100 (null sentinel `-1` outside the image), identity transform, bilinear resampler,
default radius and safety margin. -/
def scenarioEngine : OrthoTileSource :=
  { engine ResamplerType.BI RADIUS_OF_INFLUENCE_DEFAULT SAFETY_MARGIN_DEFAULT 1 (-1)
      (uniformTile 100) with
    m_inputSource := clippedSource
      (fun p _ => if 0 ≤ p.x ∧ p.x ≤ 3 ∧ 0 ≤ p.y ∧ p.y ≤ 3 then 100 else -1) (-1) }

/-- Kernel weight of the tap in row `i` and column `j` of the 3x3 block, that is
`m_kernel[3 * i + j]`, the weight built from the half-weights `dx(i+1)` and `dy(j+1)`. -/
def Kernel.entry (k : Kernel) (i j : Fin 3) : ℚ :=
  match i, j with
  | 0, 0 => k.k0
  | 0, 1 => k.k1
  | 0, 2 => k.k2
  | 1, 0 => k.k3
  | 1, 1 => k.k4
  | 1, 2 => k.k5
  | 2, 0 => k.k6
  | 2, 1 => k.k7
  | 2, 2 => k.k8

/-- Bound on a scanline-buffer access for a rectangle with `w` columns: an index into
`m_centerPts` is at most `w`, an index into `m_southPts` is below `w`; other log entries
are not constrained. -/
def IndexWithin (w : Nat) : Event → Prop
  | Event.centerPts i => i ≤ w
  | Event.southPts i => i < w
  | _ => True

/-- State `t` extends the log of `s` by entries that all satisfy `Φ`. -/
def LogAll (Φ : Event → Prop) (s t : OrthoTileSource) : Prop :=
  ∃ l, t.trace = s.trace ++ l ∧ ∀ e, e ∈ l → Φ e

/-- Every tap either equals the null sentinel or has kernel weight 0. -/
def NullOrWeightless (nullPix : ℚ) (t : Taps) (k : Kernel) : Prop :=
  (t.p11 = nullPix ∨ k.k0 = 0) ∧ (t.p12 = nullPix ∨ k.k1 = 0) ∧ (t.p13 = nullPix ∨ k.k2 = 0) ∧
  (t.p21 = nullPix ∨ k.k3 = 0) ∧ (t.p22 = nullPix ∨ k.k4 = 0) ∧ (t.p23 = nullPix ∨ k.k5 = 0) ∧
  (t.p31 = nullPix ∨ k.k6 = 0) ∧ (t.p32 = nullPix ∨ k.k7 = 0) ∧ (t.p33 = nullPix ∨ k.k8 = 0)

/-! # Theorems -/

/-! ## Helper lemmas: loops and the band loop of `resample` -/

theorem forUpTo_succ {σ : Type} (body : Nat → σ → σ) (n : Nat) (s : σ) :
    forUpTo body (n + 1) s = body n (forUpTo body n s) := rfl

theorem forUpTo_zero {σ : Type} (body : Nat → σ → σ) (s : σ) : forUpTo body 0 s = s := rfl

theorem forUpTo_invariant {σ : Type} (I : σ → Prop) (body : Nat → σ → σ)
    (hbody : ∀ i s, I s → I (body i s)) (n : Nat) (s : σ) (hs : I s) : I (forUpTo body n s) := by
  induction n with
  | zero => exact hs
  | succ n ih => exact hbody n _ ih

theorem maskNull_proj (nullPix : ℚ) (t : Taps) (k : Kernel) :
    (maskNull nullPix t k).k0 = (if t.p11 = nullPix then 0 else k.k0) ∧
    (maskNull nullPix t k).k1 = (if t.p12 = nullPix then 0 else k.k1) ∧
    (maskNull nullPix t k).k2 = (if t.p13 = nullPix then 0 else k.k2) ∧
    (maskNull nullPix t k).k3 = (if t.p21 = nullPix then 0 else k.k3) ∧
    (maskNull nullPix t k).k4 = (if t.p22 = nullPix then 0 else k.k4) ∧
    (maskNull nullPix t k).k5 = (if t.p23 = nullPix then 0 else k.k5) ∧
    (maskNull nullPix t k).k6 = (if t.p31 = nullPix then 0 else k.k6) ∧
    (maskNull nullPix t k).k7 = (if t.p32 = nullPix then 0 else k.k7) ∧
    (maskNull nullPix t k).k8 = (if t.p33 = nullPix then 0 else k.k8) := by
  unfold maskNull
  refine ⟨?_, ?_, ?_, ?_, ?_, ?_, ?_, ?_, ?_⟩
  · simp only [apply_ite Kernel.k0, ite_self]
  · simp only [apply_ite Kernel.k1, ite_self]
  · simp only [apply_ite Kernel.k2, ite_self]
  · simp only [apply_ite Kernel.k3, ite_self]
  · simp only [apply_ite Kernel.k4, ite_self]
  · simp only [apply_ite Kernel.k5, ite_self]
  · simp only [apply_ite Kernel.k6, ite_self]
  · simp only [apply_ite Kernel.k7, ite_self]
  · simp only [apply_ite Kernel.k8, ite_self]

theorem maskNull_eq (nullPix : ℚ) (t : Taps) (k : Kernel) :
    maskNull nullPix t k =
      { k0 := if t.p11 = nullPix then 0 else k.k0
        k1 := if t.p12 = nullPix then 0 else k.k1
        k2 := if t.p13 = nullPix then 0 else k.k2
        k3 := if t.p21 = nullPix then 0 else k.k3
        k4 := if t.p22 = nullPix then 0 else k.k4
        k5 := if t.p23 = nullPix then 0 else k.k5
        k6 := if t.p31 = nullPix then 0 else k.k6
        k7 := if t.p32 = nullPix then 0 else k.k7
        k8 := if t.p33 = nullPix then 0 else k.k8 } := by
  obtain ⟨h0, h1, h2, h3, h4, h5, h6, h7, h8⟩ := maskNull_proj nullPix t k
  rw [← h0, ← h1, ← h2, ← h3, ← h4, ← h5, ← h6, ← h7, ← h8]

theorem maskNull_nonneg (nullPix : ℚ) (t : Taps) (k : Kernel) (hk : k.Nonneg) :
    (maskNull nullPix t k).Nonneg := by
  obtain ⟨h0, h1, h2, h3, h4, h5, h6, h7, h8⟩ := hk
  rw [maskNull_eq]
  refine ⟨?_, ?_, ?_, ?_, ?_, ?_, ?_, ?_, ?_⟩ <;> dsimp only <;> split_ifs <;>
    first | exact le_refl _ | assumption

/-- Fields the band loop of `resample` never changes. -/
theorem forUpTo_resampleBand_frame (mapPt Pnn : Ipt) (n : Nat) (s : OrthoTileSource) :
    (forUpTo (resampleBand mapPt Pnn) n s).m_imageTile = s.m_imageTile ∧
    (forUpTo (resampleBand mapPt Pnn) n s).m_nullPix = s.m_nullPix ∧
    (forUpTo (resampleBand mapPt Pnn) n s).m_numBands = s.m_numBands := by
  induction n with
  | zero => exact ⟨rfl, rfl, rfl⟩
  | succ n ih => exact ih

/-- Kernel buffer after the iteration of band `b`: the null exclusion of band `b` applied
to the buffer left by the earlier bands. -/
theorem forUpTo_resampleBand_kernel (mapPt Pnn : Ipt) (b : Nat) (s : OrthoTileSource) :
    (forUpTo (resampleBand mapPt Pnn) (b + 1) s).m_kernel =
      maskNull s.m_nullPix (fetchTaps s.m_imageTile Pnn b)
        (forUpTo (resampleBand mapPt Pnn) b s).m_kernel := by
  obtain ⟨h1, h2, _⟩ := forUpTo_resampleBand_frame mapPt Pnn b s
  rw [forUpTo_succ]
  simp only [resampleBand, h1, h2]

/-- Value the band loop of `resample` leaves for band `b`. -/
theorem forUpTo_resampleBand_val (mapPt Pnn : Ipt) (s : OrthoTileSource) (n b : Nat)
    (hb : b < n) :
    (forUpTo (resampleBand mapPt Pnn) n s).m_mapTile.val mapPt.u mapPt.v b =
      some (weightedMean s.m_nullPix (forUpTo (resampleBand mapPt Pnn) (b + 1) s).m_kernel
        (fetchTaps s.m_imageTile Pnn b)) := by
  induction n with
  | zero => omega
  | succ n ih =>
    rcases Nat.lt_succ_iff_lt_or_eq.mp hb with h | h
    · rw [forUpTo_succ, ← ih h]
      have hne : b ≠ n := by omega
      simp [resampleBand, MapTile.setValue, hne]
    · subst h
      obtain ⟨h1, h2, _⟩ := forUpTo_resampleBand_frame mapPt Pnn b s
      rw [forUpTo_succ]
      simp [resampleBand, MapTile.setValue, h1, h2]

theorem forUpTo_resampleBand_kernel_nonneg (mapPt Pnn : Ipt) (n : Nat) (s : OrthoTileSource)
    (hs : s.m_kernel.Nonneg) : (forUpTo (resampleBand mapPt Pnn) n s).m_kernel.Nonneg := by
  induction n with
  | zero => exact hs
  | succ n ih =>
    rw [forUpTo_resampleBand_kernel]
    exact maskNull_nonneg _ _ _ ih

theorem resampleKernel_frame (toIpt : Dpt → Ipt) (sqrt : ℚ → ℚ) (s : OrthoTileSource)
    (P E S : Dpt) :
    (resampleKernel toIpt sqrt s P E S).m_imageTile = s.m_imageTile ∧
    (resampleKernel toIpt sqrt s P E S).m_nullPix = s.m_nullPix ∧
    (resampleKernel toIpt sqrt s P E S).m_numBands = s.m_numBands := by
  simp only [resampleKernel]
  split_ifs <;> exact ⟨rfl, rfl, rfl⟩

theorem halfWeight_nonneg (radius R offset : ℚ) : 0 ≤ halfWeight radius R offset := by
  unfold halfWeight
  dsimp only
  split_ifs with h
  · exact le_refl _
  · exact not_lt.mp h

theorem resampleKernel_nonneg (toIpt : Dpt → Ipt) (sqrt : ℚ → ℚ) (hsqrt : ∀ x, 0 ≤ sqrt x)
    (s : OrthoTileSource) (P E S : Dpt) : (resampleKernel toIpt sqrt s P E S).m_kernel.Nonneg := by
  simp only [resampleKernel]
  split_ifs
  · simp only [computeLWM, Kernel.Nonneg]
    refine ⟨?_, ?_, ?_, ?_, ?_, ?_, ?_, ?_, ?_⟩ <;>
      exact mul_nonneg (halfWeight_nonneg _ _ _) (halfWeight_nonneg _ _ _)
  · simp only [computeDWM, Kernel.Nonneg]
    exact ⟨hsqrt _, hsqrt _, hsqrt _, hsqrt _, hsqrt _, hsqrt _, hsqrt _, hsqrt _, hsqrt _⟩

/-- Value `resample` writes for band `band`: the weighted mean of the nine taps of that
band with the kernel buffer as it stands after the null exclusions of bands
`0 .. band`. -/
theorem resample_val (toIpt : Dpt → Ipt) (sqrt : ℚ → ℚ) (s : OrthoTileSource) (mapPt : Ipt)
    (P E S : Dpt) (band : Nat) (hb : band < s.m_numBands) :
    (resample toIpt sqrt s mapPt P E S).m_mapTile.val mapPt.u mapPt.v band =
      some (weightedMean s.m_nullPix
        (forUpTo (resampleBand mapPt (toIpt P)) (band + 1)
          (resampleKernel toIpt sqrt s P E S)).m_kernel
        (fetchTaps s.m_imageTile (toIpt P) band)) := by
  obtain ⟨h1, h2, h3⟩ := resampleKernel_frame toIpt sqrt s P E S
  unfold resample
  dsimp only
  rw [forUpTo_resampleBand_val _ _ _ _ _ (by rw [h3]; exact hb), h1, h2]

theorem taps_min_le (t : Taps) :
    t.min ≤ t.p11 ∧ t.min ≤ t.p12 ∧ t.min ≤ t.p13 ∧ t.min ≤ t.p21 ∧ t.min ≤ t.p22 ∧
    t.min ≤ t.p23 ∧ t.min ≤ t.p31 ∧ t.min ≤ t.p32 ∧ t.min ≤ t.p33 := by
  unfold Taps.min
  refine ⟨?_, ?_, ?_, ?_, ?_, ?_, ?_, ?_, ?_⟩ <;> simp [min_le_iff]

theorem taps_le_max (t : Taps) :
    t.p11 ≤ t.max ∧ t.p12 ≤ t.max ∧ t.p13 ≤ t.max ∧ t.p21 ≤ t.max ∧ t.p22 ≤ t.max ∧
    t.p23 ≤ t.max ∧ t.p31 ≤ t.max ∧ t.p32 ≤ t.max ∧ t.p33 ≤ t.max := by
  unfold Taps.max
  refine ⟨?_, ?_, ?_, ?_, ?_, ?_, ?_, ?_, ?_⟩ <;> simp [le_max_iff]

/-- A weighted mean with non-negative weights of positive sum lies between the smallest
and the largest tap. -/
theorem weightedMean_range (nullPix : ℚ) (k : Kernel) (t : Taps) (hk : k.Nonneg)
    (hW : 0 < k.sum) :
    t.min ≤ weightedMean nullPix k t ∧ weightedMean nullPix k t ≤ t.max := by
  obtain ⟨h0, h1, h2, h3, h4, h5, h6, h7, h8⟩ := hk
  obtain ⟨a0, a1, a2, a3, a4, a5, a6, a7, a8⟩ := taps_min_le t
  obtain ⟨b0, b1, b2, b3, b4, b5, b6, b7, b8⟩ := taps_le_max t
  have hlow : t.min * k.sum ≤ k.dot t := by
    have e0 := mul_le_mul_of_nonneg_left a0 h0
    have e1 := mul_le_mul_of_nonneg_left a1 h1
    have e2 := mul_le_mul_of_nonneg_left a2 h2
    have e3 := mul_le_mul_of_nonneg_left a3 h3
    have e4 := mul_le_mul_of_nonneg_left a4 h4
    have e5 := mul_le_mul_of_nonneg_left a5 h5
    have e6 := mul_le_mul_of_nonneg_left a6 h6
    have e7 := mul_le_mul_of_nonneg_left a7 h7
    have e8 := mul_le_mul_of_nonneg_left a8 h8
    unfold Kernel.sum Kernel.dot
    linarith
  have hhigh : k.dot t ≤ t.max * k.sum := by
    have e0 := mul_le_mul_of_nonneg_left b0 h0
    have e1 := mul_le_mul_of_nonneg_left b1 h1
    have e2 := mul_le_mul_of_nonneg_left b2 h2
    have e3 := mul_le_mul_of_nonneg_left b3 h3
    have e4 := mul_le_mul_of_nonneg_left b4 h4
    have e5 := mul_le_mul_of_nonneg_left b5 h5
    have e6 := mul_le_mul_of_nonneg_left b6 h6
    have e7 := mul_le_mul_of_nonneg_left b7 h7
    have e8 := mul_le_mul_of_nonneg_left b8 h8
    unfold Kernel.sum Kernel.dot
    linarith
  unfold weightedMean
  dsimp only
  rw [if_pos hW]
  exact ⟨(le_div_iff₀ hW).mpr hlow, (div_le_iff₀ hW).mpr hhigh⟩

theorem sqrtQ_nonneg (q : ℚ) : 0 ≤ sqrtQ q := by
  unfold sqrtQ
  positivity

theorem truncToInt_intCast (n : Int) : truncToInt (n : ℚ) = n := by
  unfold truncToInt
  split_ifs <;> simp

theorem truncToInt_zero : truncToInt 0 = 0 := by
  simpa using truncToInt_intCast 0

theorem truncToInt_one : truncToInt 1 = 1 := by
  simpa using truncToInt_intCast 1

theorem truncToInt_half : truncToInt (1 / 2) = 0 := by
  norm_num [truncToInt, Int.floor_eq_iff]

/-- Fields the band loop of `resampleNN` never changes. -/
theorem forUpTo_resampleNNBand_frame (mapPt Pnn : Ipt) (n : Nat) (s : OrthoTileSource) :
    (forUpTo (resampleNNBand mapPt Pnn) n s).m_imageTile = s.m_imageTile := by
  induction n with
  | zero => rfl
  | succ n ih => exact ih

/-- Value `resampleNN` writes for band `band`: the input pixel at `toIpt P`. -/
theorem resampleNN_val (toIpt : Dpt → Ipt) (s : OrthoTileSource) (mapPt : Ipt) (P : Dpt)
    (band : Nat) (hb : band < s.m_numBands) :
    (resampleNN toIpt s mapPt P).m_mapTile.val mapPt.u mapPt.v band =
      some (s.m_imageTile.getPix (toIpt P) band) := by
  unfold resampleNN
  dsimp only
  generalize s.m_numBands = n at hb
  induction n with
  | zero => omega
  | succ n ih =>
    rcases Nat.lt_succ_iff_lt_or_eq.mp hb with h | h
    · rw [forUpTo_succ, ← ih h]
      have hne : band ≠ n := by omega
      simp [resampleNNBand, MapTile.setValue, hne]
    · subst h
      rw [forUpTo_succ]
      simp [resampleNNBand, MapTile.setValue, forUpTo_resampleNNBand_frame]

/-- Fields the band loop of `resampleBI` never changes. -/
theorem forUpTo_resampleBIBand_frame (mapPt Pul : Ipt) (dx dy : ℚ) (n : Nat)
    (s : OrthoTileSource) :
    (forUpTo (resampleBIBand mapPt Pul dx dy) n s).m_imageTile = s.m_imageTile ∧
    (forUpTo (resampleBIBand mapPt Pul dx dy) n s).m_nullPix = s.m_nullPix := by
  induction n with
  | zero => exact ⟨rfl, rfl⟩
  | succ n ih => exact ih

/-- Value `resampleBI` writes for band `band`: the blend of the four taps around the
truncated point. -/
theorem resampleBI_val (s : OrthoTileSource) (mapPt : Ipt) (P : Dpt) (band : Nat)
    (hb : band < s.m_numBands) :
    (resampleBI s mapPt P).m_mapTile.val mapPt.u mapPt.v band =
      some (blendBI s.m_nullPix (P.x - truncToInt P.x) (P.y - truncToInt P.y)
        (s.m_imageTile.getPix ⟨truncToInt P.x, truncToInt P.y⟩ band)
        (s.m_imageTile.getPix ⟨truncToInt P.x + 1, truncToInt P.y⟩ band)
        (s.m_imageTile.getPix ⟨truncToInt P.x, truncToInt P.y + 1⟩ band)
        (s.m_imageTile.getPix ⟨truncToInt P.x + 1, truncToInt P.y + 1⟩ band)) := by
  unfold resampleBI
  dsimp only
  generalize s.m_numBands = n at hb
  induction n with
  | zero => omega
  | succ n ih =>
    rcases Nat.lt_succ_iff_lt_or_eq.mp hb with h | h
    · rw [forUpTo_succ, ← ih h]
      have hne : band ≠ n := by omega
      simp [resampleBIBand, MapTile.setValue, hne]
    · subst h
      obtain ⟨h1, h2⟩ := forUpTo_resampleBIBand_frame mapPt ⟨truncToInt P.x, truncToInt P.y⟩
        (P.x - truncToInt P.x) (P.y - truncToInt P.y) band s
      rw [forUpTo_succ]
      simp [resampleBIBand, MapTile.setValue, h1, h2]

/-- Over a tile without null pixels the band loop of `resample` leaves the kernel buffer
as `computeLWM` / `computeDWM` filled it. -/
theorem forUpTo_resampleBand_kernel_of_no_null (mapPt Pnn : Ipt) (n : Nat)
    (s : OrthoTileSource) (hno : ∀ p b, s.m_imageTile.getPix p b ≠ s.m_nullPix) :
    (forUpTo (resampleBand mapPt Pnn) n s).m_kernel = s.m_kernel := by
  induction n with
  | zero => rfl
  | succ n ih =>
    rw [forUpTo_resampleBand_kernel, ih, maskNull_eq]
    simp [fetchTaps, hno]

/-! ## Helper lemmas: what a resampler call changes -/

theorem sameConfig_refl (s : OrthoTileSource) : SameConfig s s :=
  ⟨rfl, rfl, rfl, rfl, rfl, rfl, rfl, rfl⟩

theorem sameConfig_trans {s t r : OrthoTileSource} (h1 : SameConfig s t) (h2 : SameConfig t r) :
    SameConfig s r :=
  ⟨h2.inputSource.trans h1.inputSource, h2.imageTile.trans h1.imageTile,
    h2.radius.trans h1.radius, h2.safetyMargin.trans h1.safetyMargin,
    h2.numBands.trans h1.numBands, h2.transform.trans h1.transform,
    h2.resamplerType.trans h1.resamplerType, h2.nullPix.trans h1.nullPix⟩

theorem sameConfig_symm {s t : OrthoTileSource} (h : SameConfig s t) : SameConfig t s :=
  ⟨h.inputSource.symm, h.imageTile.symm, h.radius.symm, h.safetyMargin.symm, h.numBands.symm,
    h.transform.symm, h.resamplerType.symm, h.nullPix.symm⟩

theorem sameConfig_mapToImage {s t : OrthoTileSource} (h : SameConfig s t) (p : Ipt) :
    mapToImage t p = mapToImage s p := by
  unfold mapToImage
  rw [h.transform]

theorem writesOnlyAt_refl (mapPt : Ipt) (s : OrthoTileSource) : WritesOnlyAt mapPt s s :=
  ⟨sameConfig_refl s, rfl, rfl, rfl, fun _ _ _ _ => rfl⟩

theorem writesOnlyAt_trans {mapPt : Ipt} {s t r : OrthoTileSource} (h1 : WritesOnlyAt mapPt s t)
    (h2 : WritesOnlyAt mapPt t r) : WritesOnlyAt mapPt s r :=
  ⟨sameConfig_trans h1.config h2.config, h2.centerPts.trans h1.centerPts, h2.southPts.trans h1.southPts,
    h2.rect.trans h1.rect, fun x y b h => (h2.val x y b h).trans (h1.val x y b h)⟩

theorem setValue_val_of_ne (t : MapTile) (u v : Int) (B : ℚ) (band : Nat) (x y : Int) (b : Nat)
    (h : ¬ (x = u ∧ y = v)) : (t.setValue u v B band).val x y b = t.val x y b := by
  unfold MapTile.setValue
  dsimp only
  rw [if_neg]
  intro hc
  exact h ⟨hc.1, hc.2.1⟩

theorem resampleNNBand_writesOnlyAt (mapPt Pnn : Ipt) (band : Nat) (s : OrthoTileSource) :
    WritesOnlyAt mapPt s (resampleNNBand mapPt Pnn band s) :=
  ⟨⟨rfl, rfl, rfl, rfl, rfl, rfl, rfl, rfl⟩, rfl, rfl, rfl,
    fun x y b h => setValue_val_of_ne _ _ _ _ _ x y b h⟩

theorem resampleBIBand_writesOnlyAt (mapPt Pul : Ipt) (dx dy : ℚ) (band : Nat)
    (s : OrthoTileSource) : WritesOnlyAt mapPt s (resampleBIBand mapPt Pul dx dy band s) :=
  ⟨⟨rfl, rfl, rfl, rfl, rfl, rfl, rfl, rfl⟩, rfl, rfl, rfl,
    fun x y b h => setValue_val_of_ne _ _ _ _ _ x y b h⟩

theorem resampleBand_writesOnlyAt (mapPt Pnn : Ipt) (band : Nat) (s : OrthoTileSource) :
    WritesOnlyAt mapPt s (resampleBand mapPt Pnn band s) :=
  ⟨⟨rfl, rfl, rfl, rfl, rfl, rfl, rfl, rfl⟩, rfl, rfl, rfl,
    fun x y b h => setValue_val_of_ne _ _ _ _ _ x y b h⟩

theorem resampleKernel_writesOnlyAt (toIpt : Dpt → Ipt) (sqrt : ℚ → ℚ) (mapPt : Ipt)
    (s : OrthoTileSource) (P E S : Dpt) :
    WritesOnlyAt mapPt s (resampleKernel toIpt sqrt s P E S) := by
  simp only [resampleKernel]
  split_ifs <;> exact ⟨⟨rfl, rfl, rfl, rfl, rfl, rfl, rfl, rfl⟩, rfl, rfl, rfl, fun _ _ _ _ => rfl⟩

theorem resampleNN_writesOnlyAt (toIpt : Dpt → Ipt) (s : OrthoTileSource) (mapPt : Ipt)
    (P : Dpt) : WritesOnlyAt mapPt s (resampleNN toIpt s mapPt P) :=
  forUpTo_invariant (WritesOnlyAt mapPt s) _
    (fun i _ h => writesOnlyAt_trans h (resampleNNBand_writesOnlyAt mapPt (toIpt P) i _)) _ s
    (writesOnlyAt_refl mapPt s)

theorem resampleBI_writesOnlyAt (s : OrthoTileSource) (mapPt : Ipt) (P : Dpt) :
    WritesOnlyAt mapPt s (resampleBI s mapPt P) :=
  forUpTo_invariant (WritesOnlyAt mapPt s) _
    (fun i _ h => writesOnlyAt_trans h (resampleBIBand_writesOnlyAt mapPt _ _ _ i _)) _ s
    (writesOnlyAt_refl mapPt s)

theorem resample_writesOnlyAt (toIpt : Dpt → Ipt) (sqrt : ℚ → ℚ) (s : OrthoTileSource)
    (mapPt : Ipt) (P E S : Dpt) : WritesOnlyAt mapPt s (resample toIpt sqrt s mapPt P E S) :=
  forUpTo_invariant (WritesOnlyAt mapPt s) _
    (fun i _ h => writesOnlyAt_trans h (resampleBand_writesOnlyAt mapPt (toIpt P) i _)) _ _
    (resampleKernel_writesOnlyAt toIpt sqrt mapPt s P E S)

/-- The kernel buffer left by the band loop of `resample` depends only on the null
sentinel, the input tile and the buffer it starts from. -/
theorem forUpTo_resampleBand_kernel_congr (mapPt mapPt2 Pnn : Ipt) (n : Nat)
    (s t : OrthoTileSource) (h1 : t.m_nullPix = s.m_nullPix) (h2 : t.m_imageTile = s.m_imageTile)
    (h3 : t.m_kernel = s.m_kernel) :
    (forUpTo (resampleBand mapPt2 Pnn) n t).m_kernel =
      (forUpTo (resampleBand mapPt Pnn) n s).m_kernel := by
  induction n with
  | zero => exact h3
  | succ n ih => rw [forUpTo_resampleBand_kernel, forUpTo_resampleBand_kernel, ih, h1, h2]

theorem resampleKernel_kernel_congr (toIpt : Dpt → Ipt) (sqrt : ℚ → ℚ) (s t : OrthoTileSource)
    (h : SameConfig s t) (P E S : Dpt) :
    (resampleKernel toIpt sqrt t P E S).m_kernel = (resampleKernel toIpt sqrt s P E S).m_kernel := by
  simp only [resampleKernel, h.radius, h.resamplerType]
  split_ifs <;> rfl

/-- The value `resample` writes depends neither on the map pixel, nor on the buffers, nor
on what the kernel buffer held before the call. -/
theorem resample_val_congr (toIpt : Dpt → Ipt) (sqrt : ℚ → ℚ) (s t : OrthoTileSource)
    (h : SameConfig s t) (mapPt mapPt2 : Ipt) (P E S : Dpt) (band : Nat)
    (hb : band < s.m_numBands) :
    (resample toIpt sqrt t mapPt2 P E S).m_mapTile.val mapPt2.u mapPt2.v band =
      (resample toIpt sqrt s mapPt P E S).m_mapTile.val mapPt.u mapPt.v band := by
  obtain ⟨a1, a2, _⟩ := resampleKernel_frame toIpt sqrt s P E S
  obtain ⟨b1, b2, _⟩ := resampleKernel_frame toIpt sqrt t P E S
  rw [resample_val toIpt sqrt t mapPt2 P E S band (by rw [h.numBands]; exact hb),
    resample_val toIpt sqrt s mapPt P E S band hb, h.nullPix, h.imageTile,
    forUpTo_resampleBand_kernel_congr mapPt mapPt2 (toIpt P) (band + 1) _ _
      (by rw [b2, a2, h.nullPix]) (by rw [b1, a1, h.imageTile])
      (resampleKernel_kernel_congr toIpt sqrt s t h P E S)]

/-- The value `resampleNN` writes depends on the fixed members only. -/
theorem resampleNN_val_congr (toIpt : Dpt → Ipt) (s t : OrthoTileSource) (h : SameConfig s t)
    (mapPt mapPt2 : Ipt) (P : Dpt) (band : Nat) (hb : band < s.m_numBands) :
    (resampleNN toIpt t mapPt2 P).m_mapTile.val mapPt2.u mapPt2.v band =
      (resampleNN toIpt s mapPt P).m_mapTile.val mapPt.u mapPt.v band := by
  rw [resampleNN_val toIpt t mapPt2 P band (by rw [h.numBands]; exact hb),
    resampleNN_val toIpt s mapPt P band hb, h.imageTile]

/-- The value `resampleBI` writes depends on the fixed members only. -/
theorem resampleBI_val_congr (s t : OrthoTileSource) (h : SameConfig s t)
    (mapPt mapPt2 : Ipt) (P : Dpt) (band : Nat) (hb : band < s.m_numBands) :
    (resampleBI t mapPt2 P).m_mapTile.val mapPt2.u mapPt2.v band =
      (resampleBI s mapPt P).m_mapTile.val mapPt.u mapPt.v band := by
  rw [resampleBI_val t mapPt2 P band (by rw [h.numBands]; exact hb),
    resampleBI_val s mapPt P band hb, h.imageTile, h.nullPix]

/-- The value of `writtenValue` depends on the fixed members only. -/
theorem writtenValue_congr (toIpt : Dpt → Ipt) (sqrt : ℚ → ℚ) (s t : OrthoTileSource)
    (h : SameConfig s t) (P E S : Dpt) (band : Nat) (hb : band < s.m_numBands) :
    writtenValue toIpt sqrt t P E S band = writtenValue toIpt sqrt s P E S band := by
  unfold writtenValue
  rw [h.resamplerType]
  split
  · exact resampleNN_val_congr toIpt s t h ⟨0, 0⟩ ⟨0, 0⟩ P band hb
  · exact resampleBI_val_congr s t h ⟨0, 0⟩ ⟨0, 0⟩ P band hb
  · exact resample_val_congr toIpt sqrt s t h ⟨0, 0⟩ ⟨0, 0⟩ P E S band hb
  · exact resample_val_congr toIpt sqrt s t h ⟨0, 0⟩ ⟨0, 0⟩ P E S band hb

/-- Value the per-pixel switch of `getTile` leaves at the map pixel it is called for. -/
theorem dispatch_val (toIpt : Dpt → Ipt) (sqrt : ℚ → ℚ) (s : OrthoTileSource) (mapPt : Ipt)
    (i : Nat) (band : Nat) (hb : band < s.m_numBands) :
    (dispatch toIpt sqrt s mapPt i).m_mapTile.val mapPt.u mapPt.v band =
      writtenValue toIpt sqrt s (s.m_centerPts i) (s.m_southPts i) (s.m_centerPts (i + 1))
        band := by
  unfold dispatch writtenValue
  split
  · refine resampleNN_val_congr toIpt s _ ?_ ⟨0, 0⟩ mapPt _ band hb
    exact ⟨rfl, rfl, rfl, rfl, rfl, rfl, rfl, rfl⟩
  · refine resampleBI_val_congr s _ ?_ ⟨0, 0⟩ mapPt _ band hb
    exact ⟨rfl, rfl, rfl, rfl, rfl, rfl, rfl, rfl⟩
  · refine resample_val_congr toIpt sqrt s _ ?_ ⟨0, 0⟩ mapPt _ _ _ band hb
    exact ⟨rfl, rfl, rfl, rfl, rfl, rfl, rfl, rfl⟩
  · refine resample_val_congr toIpt sqrt s _ ?_ ⟨0, 0⟩ mapPt _ _ _ band hb
    exact ⟨rfl, rfl, rfl, rfl, rfl, rfl, rfl, rfl⟩

theorem dispatch_writesOnlyAt (toIpt : Dpt → Ipt) (sqrt : ℚ → ℚ) (s : OrthoTileSource)
    (mapPt : Ipt) (i : Nat) : WritesOnlyAt mapPt s (dispatch toIpt sqrt s mapPt i) := by
  unfold dispatch
  split
  · refine writesOnlyAt_trans ?_ (resampleNN_writesOnlyAt toIpt _ mapPt _)
    exact ⟨⟨rfl, rfl, rfl, rfl, rfl, rfl, rfl, rfl⟩, rfl, rfl, rfl, fun _ _ _ _ => rfl⟩
  · refine writesOnlyAt_trans ?_ (resampleBI_writesOnlyAt _ mapPt _)
    exact ⟨⟨rfl, rfl, rfl, rfl, rfl, rfl, rfl, rfl⟩, rfl, rfl, rfl, fun _ _ _ _ => rfl⟩
  · refine writesOnlyAt_trans ?_ (resample_writesOnlyAt toIpt sqrt _ mapPt _ _ _)
    exact ⟨⟨rfl, rfl, rfl, rfl, rfl, rfl, rfl, rfl⟩, rfl, rfl, rfl, fun _ _ _ _ => rfl⟩
  · refine writesOnlyAt_trans ?_ (resample_writesOnlyAt toIpt sqrt _ mapPt _ _ _)
    exact ⟨⟨rfl, rfl, rfl, rfl, rfl, rfl, rfl, rfl⟩, rfl, rfl, rfl, fun _ _ _ _ => rfl⟩

/-! ## Helper lemmas: the loops of `getTile` -/

/-- Effect of one iteration of the column loop. -/
theorem colBody_spec (toIpt : Dpt → Ipt) (sqrt : ℚ → ℚ) (ulMap : Ipt) (v : Int) (i : Nat)
    (s : OrthoTileSource) :
    SameConfig s (colBody toIpt sqrt ulMap v i s) ∧
    (colBody toIpt sqrt ulMap v i s).m_centerPts =
      Function.update s.m_centerPts i (mapToImage s ⟨ulMap.u + i, v + 1⟩) ∧
    (colBody toIpt sqrt ulMap v i s).m_southPts =
      Function.update s.m_southPts i (mapToImage s ⟨ulMap.u + i, v + 1⟩) ∧
    (colBody toIpt sqrt ulMap v i s).m_mapTile.rect = s.m_mapTile.rect ∧
    (∀ x y b, ¬ (x = ulMap.u + i ∧ y = v) →
      (colBody toIpt sqrt ulMap v i s).m_mapTile.val x y b = s.m_mapTile.val x y b) ∧
    (∀ band, band < s.m_numBands →
      (colBody toIpt sqrt ulMap v i s).m_mapTile.val (ulMap.u + i) v band =
        writtenValue toIpt sqrt s (s.m_centerPts i) (mapToImage s ⟨ulMap.u + i, v + 1⟩)
          (s.m_centerPts (i + 1)) band) := by
  have W := dispatch_writesOnlyAt toIpt sqrt
    { s with
      m_southPts := Function.update s.m_southPts i (mapToImage s ⟨ulMap.u + i, v + 1⟩)
      trace := s.trace ++ [Event.mapToImage ⟨ulMap.u + i, v + 1⟩, Event.southPts i] }
    ⟨ulMap.u + i, v⟩ i
  refine ⟨?_, ?_, ?_, ?_, ?_, ?_⟩
  · exact ⟨W.config.inputSource, W.config.imageTile, W.config.radius, W.config.safetyMargin,
      W.config.numBands, W.config.transform, W.config.resamplerType, W.config.nullPix⟩
  · show Function.update _ i _ = _
    rw [W.centerPts, W.southPts]
    simp only [Function.update_same]
  · exact W.southPts
  · exact W.rect
  · intro x y b h
    exact W.val x y b h
  · intro band hb
    have V := dispatch_val toIpt sqrt
      { s with
        m_southPts := Function.update s.m_southPts i (mapToImage s ⟨ulMap.u + i, v + 1⟩)
        trace := s.trace ++ [Event.mapToImage ⟨ulMap.u + i, v + 1⟩, Event.southPts i] }
      ⟨ulMap.u + i, v⟩ i band hb
    refine V.trans ?_
    simp only [Function.update_same]
    refine writtenValue_congr toIpt sqrt s _ ?_ _ _ _ band hb
    exact ⟨rfl, rfl, rfl, rfl, rfl, rfl, rfl, rfl⟩

/-- Effect of the first `n` iterations of the column loop of row `v`. -/
theorem colLoop_spec (toIpt : Dpt → Ipt) (sqrt : ℚ → ℚ) (ulMap : Ipt) (v : Int)
    (s : OrthoTileSource) (n : Nat) :
    SameConfig s (forUpTo (colBody toIpt sqrt ulMap v) n s) ∧
    (forUpTo (colBody toIpt sqrt ulMap v) n s).m_centerPts =
      (fun k => if k < n then mapToImage s ⟨ulMap.u + k, v + 1⟩ else s.m_centerPts k) ∧
    (forUpTo (colBody toIpt sqrt ulMap v) n s).m_mapTile.rect = s.m_mapTile.rect ∧
    (∀ x y b, ¬ (y = v ∧ ∃ k, k < n ∧ x = ulMap.u + k) →
      (forUpTo (colBody toIpt sqrt ulMap v) n s).m_mapTile.val x y b = s.m_mapTile.val x y b) ∧
    (∀ k band, k < n → band < s.m_numBands →
      (forUpTo (colBody toIpt sqrt ulMap v) n s).m_mapTile.val (ulMap.u + k) v band =
        writtenValue toIpt sqrt s (s.m_centerPts k) (mapToImage s ⟨ulMap.u + k, v + 1⟩)
          (s.m_centerPts (k + 1)) band) := by
  induction n with
  | zero =>
    refine ⟨sameConfig_refl s, ?_, rfl, fun _ _ _ _ => rfl, ?_⟩
    · funext k
      simp [forUpTo]
    · intro k band hk
      omega
  | succ n ih =>
    obtain ⟨hc, hcen, hrect, hun, hwr⟩ := ih
    obtain ⟨bc, bcen, _, brect, bun, bwr⟩ :=
      colBody_spec toIpt sqrt ulMap v n (forUpTo (colBody toIpt sqrt ulMap v) n s)
    rw [forUpTo_succ]
    refine ⟨sameConfig_trans hc bc, ?_, brect.trans hrect, ?_, ?_⟩
    · rw [bcen, hcen, sameConfig_mapToImage hc]
      funext k
      by_cases hk : k = n
      · subst hk
        simp
      · rw [Function.update_noteq hk]
        have e : (k < n + 1) = (k < n) := by
          apply propext
          constructor <;> intro h <;> omega
        simp only [e]
    · intro x y b h
      rw [bun x y b (fun hx => h ⟨hx.2, n, Nat.lt_succ_self n, hx.1⟩)]
      exact hun x y b (fun hx => h ⟨hx.1, hx.2.choose, Nat.lt_succ_of_lt hx.2.choose_spec.1,
        hx.2.choose_spec.2⟩)
    · intro k band hk hb
      rcases Nat.lt_succ_iff_lt_or_eq.mp hk with h | h
      · rw [bun _ _ _ (fun hx => by omega)]
        exact hwr k band h hb
      · subst h
        rw [bwr band (by rw [hc.numBands]; exact hb), hcen, sameConfig_mapToImage hc]
        simp only [lt_irrefl, if_false, Nat.not_succ_lt_self]
        exact writtenValue_congr toIpt sqrt s _ hc _ _ _ band hb

/-- Effect of one iteration of the row loop (row `v = ul.v + j`, `w` columns). -/
theorem rowBody_spec (toIpt : Dpt → Ipt) (sqrt : ℚ → ℚ) (ulMap : Ipt) (w j : Nat)
    (s : OrthoTileSource) :
    SameConfig s (rowBody toIpt sqrt ulMap w j s) ∧
    (rowBody toIpt sqrt ulMap w j s).m_centerPts =
      (fun k => if k < w then mapToImage s ⟨ulMap.u + k, ulMap.v + j + 1⟩
        else if k = w then mapToImage s ⟨ulMap.u + w, ulMap.v + j⟩ else s.m_centerPts k) ∧
    (rowBody toIpt sqrt ulMap w j s).m_mapTile.rect = s.m_mapTile.rect ∧
    (∀ x y b, ¬ (y = ulMap.v + j ∧ ∃ k, k < w ∧ x = ulMap.u + k) →
      (rowBody toIpt sqrt ulMap w j s).m_mapTile.val x y b = s.m_mapTile.val x y b) ∧
    (∀ k band, k < w → band < s.m_numBands →
      (rowBody toIpt sqrt ulMap w j s).m_mapTile.val (ulMap.u + k) (ulMap.v + j) band =
        writtenValue toIpt sqrt s (s.m_centerPts k) (mapToImage s ⟨ulMap.u + k, ulMap.v + j + 1⟩)
          (s.m_centerPts (k + 1)) band) := by
  obtain ⟨hc, hcen, hrect, hun, hwr⟩ := colLoop_spec toIpt sqrt ulMap (ulMap.v + j) s w
  refine ⟨?_, ?_, hrect, hun, hwr⟩
  · exact ⟨hc.inputSource, hc.imageTile, hc.radius, hc.safetyMargin, hc.numBands, hc.transform,
      hc.resamplerType, hc.nullPix⟩
  · show Function.update _ w _ = _
    rw [hcen, sameConfig_mapToImage hc]
    funext k
    by_cases hk : k = w
    · subst hk
      simp
    · rw [Function.update_noteq hk]
      simp only [hk, if_false]

theorem rowCenters_of_gt (s : OrthoTileSource) (ulMap : Ipt) (w : Nat) (c0 : Nat → Dpt)
    (j k : Nat) (hk : w < k) : rowCenters s ulMap w c0 j k = c0 k := by
  cases j with
  | zero => rfl
  | succ j =>
    have h1 : ¬ k < w := by omega
    have h2 : ¬ k = w := by omega
    simp only [rowCenters, h1, h2, if_false]

/-- Effect of the first `n` iterations of the row loop. -/
theorem rowLoop_spec (toIpt : Dpt → Ipt) (sqrt : ℚ → ℚ) (ulMap : Ipt) (w : Nat)
    (s : OrthoTileSource) (n : Nat) :
    SameConfig s (forUpTo (rowBody toIpt sqrt ulMap w) n s) ∧
    (forUpTo (rowBody toIpt sqrt ulMap w) n s).m_centerPts =
      rowCenters s ulMap w s.m_centerPts n ∧
    (forUpTo (rowBody toIpt sqrt ulMap w) n s).m_mapTile.rect = s.m_mapTile.rect ∧
    (∀ x y b, ¬ (∃ j, j < n ∧ y = ulMap.v + j ∧ ∃ k, k < w ∧ x = ulMap.u + k) →
      (forUpTo (rowBody toIpt sqrt ulMap w) n s).m_mapTile.val x y b = s.m_mapTile.val x y b) ∧
    (∀ j k band, j < n → k < w → band < s.m_numBands →
      (forUpTo (rowBody toIpt sqrt ulMap w) n s).m_mapTile.val (ulMap.u + k) (ulMap.v + j) band =
        writtenValue toIpt sqrt s (rowCenters s ulMap w s.m_centerPts j k)
          (mapToImage s ⟨ulMap.u + k, ulMap.v + j + 1⟩)
          (rowCenters s ulMap w s.m_centerPts j (k + 1)) band) := by
  induction n with
  | zero =>
    refine ⟨sameConfig_refl s, rfl, rfl, fun _ _ _ _ => rfl, ?_⟩
    intro j k band hj
    omega
  | succ n ih =>
    obtain ⟨hc, hcen, hrect, hun, hwr⟩ := ih
    obtain ⟨bc, bcen, brect, bun, bwr⟩ :=
      rowBody_spec toIpt sqrt ulMap w n (forUpTo (rowBody toIpt sqrt ulMap w) n s)
    rw [forUpTo_succ]
    refine ⟨sameConfig_trans hc bc, ?_, brect.trans hrect, ?_, ?_⟩
    · rw [bcen, hcen]
      simp only [sameConfig_mapToImage hc]
      funext k
      by_cases h1 : k < w
      · simp only [rowCenters, h1, if_true]
      · by_cases h2 : k = w
        · simp only [rowCenters, h1, h2, if_true, if_false]
        · simp only [rowCenters, h1, h2, if_false]
          exact rowCenters_of_gt s ulMap w _ n k (by omega)
    · intro x y b h
      rw [bun x y b (fun hx => h ⟨n, Nat.lt_succ_self n, hx.1, hx.2⟩)]
      exact hun x y b (fun hx => h ⟨hx.choose, Nat.lt_succ_of_lt hx.choose_spec.1,
        hx.choose_spec.2⟩)
    · intro j k band hj hk hb
      rcases Nat.lt_succ_iff_lt_or_eq.mp hj with h | h
      · rw [bun _ _ _ (fun hx => by omega)]
        exact hwr j k band h hk hb
      · subst h
        rw [bwr k band hk (by rw [hc.numBands]; exact hb), hcen, sameConfig_mapToImage hc]
        exact writtenValue_congr toIpt sqrt s _ hc _ _ _ band hb

/-- Effect of the first `n` iterations of the priming loop. -/
theorem primeLoop_spec (ulMap : Ipt) (s : OrthoTileSource) (n : Nat) :
    SameConfig s (forUpTo (primeBody ulMap) n s) ∧
    (forUpTo (primeBody ulMap) n s).m_centerPts =
      (fun k => if k < n then mapToImage s ⟨ulMap.u + k, ulMap.v⟩ else s.m_centerPts k) ∧
    (forUpTo (primeBody ulMap) n s).m_mapTile = s.m_mapTile := by
  induction n with
  | zero =>
    refine ⟨sameConfig_refl s, ?_, rfl⟩
    funext k
    simp [forUpTo]
  | succ n ih =>
    obtain ⟨hc, hcen, htile⟩ := ih
    rw [forUpTo_succ]
    refine ⟨?_, ?_, htile⟩
    · exact ⟨hc.inputSource, hc.imageTile, hc.radius, hc.safetyMargin, hc.numBands, hc.transform,
        hc.resamplerType, hc.nullPix⟩
    · show Function.update _ n _ = _
      rw [hcen, sameConfig_mapToImage hc]
      funext k
      by_cases hk : k = n
      · subst hk
        simp
      · rw [Function.update_noteq hk]
        have e : (k < n + 1) = (k < n) := by
          apply propext
          constructor <;> intro h <;> omega
        simp only [e]

/-- Centre entry of the scanline buffer for column `k < w` at the start of row `j`, the
buffer having been primed for `w + 1` columns: the image of the pixel `(ul.u + k, ul.v + j)`. -/
theorem rowCenters_primed_center (s sp : OrthoTileSource)
    (hsp : ∀ p, mapToImage sp p = mapToImage s p) (ulMap : Ipt) (w k j : Nat) (c : Nat → Dpt)
    (hk : k < w) :
    rowCenters sp ulMap w
      (fun i => if i < w + 1 then mapToImage s ⟨ulMap.u + i, ulMap.v⟩ else c i) j k =
      mapToImage s ⟨ulMap.u + k, ulMap.v + j⟩ := by
  cases j with
  | zero =>
    have h1 : k < w + 1 := by omega
    simp only [rowCenters, h1, if_true, Nat.cast_zero, add_zero]
  | succ j =>
    simp only [rowCenters, hk, if_true, hsp, Nat.cast_add, Nat.cast_one, add_assoc]

/-- Entry `k + 1` of the scanline buffer at the start of row `j` (`k < w`). -/
theorem rowCenters_primed_east (s sp : OrthoTileSource)
    (hsp : ∀ p, mapToImage sp p = mapToImage s p) (ulMap : Ipt) (w k j : Nat) (c : Nat → Dpt)
    (hk : k < w) :
    rowCenters sp ulMap w
      (fun i => if i < w + 1 then mapToImage s ⟨ulMap.u + i, ulMap.v⟩ else c i) j (k + 1) =
      bufferedEast s ulMap w k j := by
  unfold bufferedEast
  cases j with
  | zero =>
    have h1 : k + 1 < w + 1 := by omega
    simp only [rowCenters, h1, if_true, or_true, Nat.cast_zero, add_zero, Nat.cast_add,
      Nat.cast_one, add_assoc]
  | succ j =>
    have h5 : ¬ (j + 1 = 0) := by omega
    by_cases h3 : k + 1 < w
    · simp only [rowCenters, h3, if_true, true_or, hsp, Nat.cast_add, Nat.cast_one, add_assoc]
    · have h4 : k + 1 = w := by omega
      have e1 : ulMap.u + (w : Int) = ulMap.u + (k : Int) + 1 := by omega
      have e2 : ulMap.v + (j : Int) = ulMap.v + ((j + 1 : Nat) : Int) - 1 := by omega
      simp only [rowCenters, h3, if_false, h5, or_self, hsp]
      rw [if_pos h4, e1, e2]

/-- The first part of `getTile` changes the output tile, the input tile and the log only. -/
theorem loadFootprint_frame (toIpt : Dpt → Ipt) (s : OrthoTileSource) (mapRect : Irect) :
    (loadFootprint toIpt s mapRect).m_transform = s.m_transform ∧
    (loadFootprint toIpt s mapRect).m_numBands = s.m_numBands ∧
    (loadFootprint toIpt s mapRect).m_resamplerType = s.m_resamplerType ∧
    (loadFootprint toIpt s mapRect).m_nullPix = s.m_nullPix ∧
    (loadFootprint toIpt s mapRect).m_radius = s.m_radius ∧
    (loadFootprint toIpt s mapRect).m_safetyMargin = s.m_safetyMargin ∧
    (loadFootprint toIpt s mapRect).m_inputSource = s.m_inputSource :=
  ⟨rfl, rfl, rfl, rfl, rfl, rfl, rfl⟩

/-- Value `getTile` leaves at the output pixel in column `k` and row `j` of the map
rectangle: what the resampler of the engine's kind writes when called with the image of the
pixel, the image of the pixel below it and the buffered point `bufferedEast`, in this
order. -/
theorem getTile_val (toIpt : Dpt → Ipt) (sqrt : ℚ → ℚ) (s : OrthoTileSource) (mapRect : Irect)
    (hfull : (loadFootprint toIpt s mapRect).m_imageTile.status ≠ DataObjectStatus.OSSIM_EMPTY)
    (k j band : Nat) (hk : k < (mapRect.lr.u + 1 - mapRect.ul.u).toNat)
    (hj : j < (mapRect.lr.v + 1 - mapRect.ul.v).toNat) (hb : band < s.m_numBands) :
    (getTile toIpt sqrt s mapRect).m_mapTile.val (mapRect.ul.u + k) (mapRect.ul.v + j) band =
      writtenValue toIpt sqrt (loadFootprint toIpt s mapRect)
        (mapToImage s ⟨mapRect.ul.u + k, mapRect.ul.v + j⟩)
        (mapToImage s ⟨mapRect.ul.u + k, mapRect.ul.v + j + 1⟩)
        (bufferedEast s mapRect.ul (mapRect.lr.u + 1 - mapRect.ul.u).toNat k j) band := by
  have hw : (mapRect.lr.u + 1 + 1 - mapRect.ul.u).toNat =
      (mapRect.lr.u + 1 - mapRect.ul.u).toNat + 1 := by omega
  obtain ⟨pc, pcen, _⟩ := primeLoop_spec mapRect.ul (loadFootprint toIpt s mapRect)
    ((mapRect.lr.u + 1 - mapRect.ul.u).toNat + 1)
  have hwr := (rowLoop_spec toIpt sqrt mapRect.ul
    (mapRect.lr.u + 1 - mapRect.ul.u).toNat
    (forUpTo (primeBody mapRect.ul) ((mapRect.lr.u + 1 - mapRect.ul.u).toNat + 1)
      (loadFootprint toIpt s mapRect))
    (mapRect.lr.v + 1 - mapRect.ul.v).toNat).2.2.2.2 j k band hj hk
      (by rw [pc.numBands]; exact hb)
  have hsp : ∀ p, mapToImage (forUpTo (primeBody mapRect.ul)
      ((mapRect.lr.u + 1 - mapRect.ul.u).toNat + 1) (loadFootprint toIpt s mapRect)) p =
      mapToImage s p := fun p => sameConfig_mapToImage pc p
  have hm : ∀ p, mapToImage (loadFootprint toIpt s mapRect) p = mapToImage s p := fun _ => rfl
  unfold getTile
  dsimp only
  rw [if_neg hfull, hw, hwr, pcen, writtenValue_congr toIpt sqrt _ _ pc _ _ _ band hb, hsp]
  simp only [hm]
  rw [rowCenters_primed_center s _ hsp mapRect.ul _ k j _ hk,
    rowCenters_primed_east s _ hsp mapRect.ul _ k j _ hk]

/-! ## Helper lemmas: positions read through `getPix` -/

theorem readsWithin_refl (Q : Ipt → Prop) (s : OrthoTileSource) : ReadsWithin Q s s :=
  ⟨[], (List.append_nil _).symm, fun _ _ h => absurd h (List.not_mem_nil _)⟩

theorem readsWithin_trans {Q : Ipt → Prop} {s t r : OrthoTileSource} (h1 : ReadsWithin Q s t)
    (h2 : ReadsWithin Q t r) : ReadsWithin Q s r := by
  obtain ⟨l1, e1, q1⟩ := h1
  obtain ⟨l2, e2, q2⟩ := h2
  refine ⟨l1 ++ l2, by rw [e2, e1, List.append_assoc], ?_⟩
  intro p b h
  rcases List.mem_append.mp h with h | h
  · exact q1 p b h
  · exact q2 p b h

theorem readsWithin_mono {Q R : Ipt → Prop} {s t : OrthoTileSource} (h : ReadsWithin Q s t)
    (hQR : ∀ p, Q p → R p) : ReadsWithin R s t := by
  obtain ⟨l, e, q⟩ := h
  exact ⟨l, e, fun p b hp => hQR p (q p b hp)⟩

theorem resampleNN_reads (toIpt : Dpt → Ipt) (s : OrthoTileSource) (mapPt : Ipt) (P : Dpt) :
    ReadsWithin (fun p => p = toIpt P) s (resampleNN toIpt s mapPt P) := by
  refine forUpTo_invariant (ReadsWithin (fun p => p = toIpt P) s) _ ?_ _ s (readsWithin_refl _ s)
  intro i t ht
  refine readsWithin_trans ht ⟨[Event.getPix (toIpt P) i], rfl, ?_⟩
  intro p b h
  simp only [List.mem_singleton, Event.getPix.injEq] at h
  exact h.1

theorem resampleBI_reads (s : OrthoTileSource) (mapPt : Ipt) (P : Dpt) :
    ReadsWithin (NearTap (fun _ => ⟨0, 0⟩) ResamplerType.BI P) s (resampleBI s mapPt P) := by
  refine forUpTo_invariant (ReadsWithin (NearTap (fun _ => ⟨0, 0⟩) ResamplerType.BI P) s) _ ?_ _ s
    (readsWithin_refl _ s)
  intro i t ht
  refine readsWithin_trans ht ⟨_, rfl, ?_⟩
  intro p b h
  simp only [List.mem_cons, Event.getPix.injEq, List.mem_singleton, List.not_mem_nil,
    or_false] at h
  unfold NearTap
  rcases h with h | h | h | h <;> rw [h.1] <;> simp

theorem resample_reads (toIpt : Dpt → Ipt) (sqrt : ℚ → ℚ) (s : OrthoTileSource) (mapPt : Ipt)
    (P E S : Dpt) :
    ReadsWithin (fun p => p ∈ tapPositions (toIpt P)) s (resample toIpt sqrt s mapPt P E S) := by
  have h0 : ReadsWithin (fun p => p ∈ tapPositions (toIpt P)) s
      (resampleKernel toIpt sqrt s P E S) := by
    refine ⟨[], ?_, fun _ _ h => absurd h (List.not_mem_nil _)⟩
    simp only [resampleKernel]
    split_ifs <;> exact (List.append_nil _).symm
  refine forUpTo_invariant (ReadsWithin (fun p => p ∈ tapPositions (toIpt P)) s) _ ?_ _ _ h0
  intro i t ht
  refine readsWithin_trans ht ⟨_, rfl, ?_⟩
  intro p b h
  obtain ⟨q, hq, he⟩ := List.mem_map.mp h
  simp only [Event.getPix.injEq] at he
  rw [← he.1]
  exact hq

/-- Positions read by the per-pixel switch: those of the engine's kind around the buffered
centre point. -/
theorem dispatch_reads (toIpt : Dpt → Ipt) (sqrt : ℚ → ℚ) (s : OrthoTileSource) (mapPt : Ipt)
    (i : Nat) :
    ReadsWithin (NearTap toIpt s.m_resamplerType (s.m_centerPts i)) s
      (dispatch toIpt sqrt s mapPt i) := by
  unfold dispatch
  split
  · rename_i hk
    rw [hk]
    refine readsWithin_trans ?_ (resampleNN_reads toIpt _ mapPt _)
    exact ⟨[Event.centerPts i], rfl, fun p b h => by simp at h⟩
  · rename_i hk
    rw [hk]
    refine readsWithin_trans ?_ (resampleBI_reads _ mapPt _)
    exact ⟨[Event.centerPts i], rfl, fun p b h => by simp at h⟩
  · rename_i hk
    rw [hk]
    refine readsWithin_trans ?_ (resample_reads toIpt sqrt _ mapPt _ _ _)
    exact ⟨[Event.centerPts i, Event.southPts i, Event.centerPts (i + 1)], rfl,
      fun p b h => by simp at h⟩
  · rename_i hk
    rw [hk]
    refine readsWithin_trans ?_ (resample_reads toIpt sqrt _ mapPt _ _ _)
    exact ⟨[Event.centerPts i, Event.southPts i, Event.centerPts (i + 1)], rfl,
      fun p b h => by simp at h⟩

theorem colBody_reads (toIpt : Dpt → Ipt) (sqrt : ℚ → ℚ) (ulMap : Ipt) (v : Int) (i : Nat)
    (s : OrthoTileSource) :
    ReadsWithin (NearTap toIpt s.m_resamplerType (s.m_centerPts i)) s
      (colBody toIpt sqrt ulMap v i s) := by
  have h1 : ReadsWithin (NearTap toIpt s.m_resamplerType (s.m_centerPts i)) s
      { s with
        m_southPts := Function.update s.m_southPts i (mapToImage s ⟨ulMap.u + i, v + 1⟩)
        trace := s.trace ++ [Event.mapToImage ⟨ulMap.u + i, v + 1⟩, Event.southPts i] } :=
    ⟨_, rfl, fun p b h => by simp at h⟩
  have h2 := dispatch_reads toIpt sqrt
    { s with
      m_southPts := Function.update s.m_southPts i (mapToImage s ⟨ulMap.u + i, v + 1⟩)
      trace := s.trace ++ [Event.mapToImage ⟨ulMap.u + i, v + 1⟩, Event.southPts i] }
    ⟨ulMap.u + i, v⟩ i
  refine readsWithin_trans (readsWithin_trans h1 h2) ?_
  exact ⟨[Event.southPts i, Event.centerPts i], rfl, fun p b h => by simp at h⟩

/-- Positions read during the first `n` iterations of the column loop of row `v`, the
buffer holding the image of `(ul.u + k, v)` in entry `k` for every column `k < w`. -/
theorem colLoop_reads (toIpt : Dpt → Ipt) (sqrt : ℚ → ℚ) (ulMap : Ipt) (v : Int) (w : Nat)
    (T : Ipt → Dpt) (s : OrthoTileSource) (hcen : ∀ k, k < w → s.m_centerPts k = T ⟨ulMap.u + k, v⟩)
    (n : Nat) (hn : n ≤ w) :
    ReadsWithin (fun p => ∃ k, k < w ∧ NearTap toIpt s.m_resamplerType (T ⟨ulMap.u + k, v⟩) p) s
      (forUpTo (colBody toIpt sqrt ulMap v) n s) := by
  induction n with
  | zero => exact readsWithin_refl _ s
  | succ n ih =>
    obtain ⟨hc, hcen2, _⟩ := colLoop_spec toIpt sqrt ulMap v s n
    rw [forUpTo_succ]
    refine readsWithin_trans (ih (by omega)) ?_
    refine readsWithin_mono
      (colBody_reads toIpt sqrt ulMap v n (forUpTo (colBody toIpt sqrt ulMap v) n s)) ?_
    intro p hp
    refine ⟨n, by omega, ?_⟩
    rw [hc.resamplerType, hcen2] at hp
    simp only [lt_irrefl, if_false] at hp
    rw [hcen n (by omega)] at hp
    exact hp

theorem rowBody_reads (toIpt : Dpt → Ipt) (sqrt : ℚ → ℚ) (ulMap : Ipt) (w j : Nat)
    (T : Ipt → Dpt) (s : OrthoTileSource)
    (hcen : ∀ k, k < w → s.m_centerPts k = T ⟨ulMap.u + k, ulMap.v + j⟩) :
    ReadsWithin
      (fun p => ∃ k, k < w ∧ NearTap toIpt s.m_resamplerType (T ⟨ulMap.u + k, ulMap.v + j⟩) p) s
      (rowBody toIpt sqrt ulMap w j s) := by
  refine readsWithin_trans
    (colLoop_reads toIpt sqrt ulMap (ulMap.v + j) w T s hcen w (le_refl w)) ?_
  exact ⟨[Event.mapToImage ⟨ulMap.u + w, ulMap.v + j⟩, Event.centerPts w], rfl,
    fun p b h => by simp at h⟩

/-- Positions read during the first `n` rows, the scanline buffer holding at the start of
every row `j` the image of `(ul.u + k, ul.v + j)` in entry `k < w`. -/
theorem rowLoop_reads (toIpt : Dpt → Ipt) (sqrt : ℚ → ℚ) (ulMap : Ipt) (w h : Nat)
    (T : Ipt → Dpt) (s : OrthoTileSource)
    (hcen : ∀ j k, k < w →
      rowCenters s ulMap w s.m_centerPts j k = T ⟨ulMap.u + k, ulMap.v + j⟩)
    (n : Nat) (hn : n ≤ h) :
    ReadsWithin
      (fun p => ∃ k j, k < w ∧ j < h ∧
        NearTap toIpt s.m_resamplerType (T ⟨ulMap.u + k, ulMap.v + j⟩) p) s
      (forUpTo (rowBody toIpt sqrt ulMap w) n s) := by
  induction n with
  | zero => exact readsWithin_refl _ s
  | succ n ih =>
    obtain ⟨hc, hcen2, _⟩ := rowLoop_spec toIpt sqrt ulMap w s n
    rw [forUpTo_succ]
    refine readsWithin_trans (ih (by omega)) ?_
    refine readsWithin_mono
      (rowBody_reads toIpt sqrt ulMap w n T (forUpTo (rowBody toIpt sqrt ulMap w) n s) ?_) ?_
    · intro k hk
      rw [hcen2]
      exact hcen n k hk
    · intro p hp
      obtain ⟨k, hk, hp⟩ := hp
      rw [hc.resamplerType] at hp
      exact ⟨k, n, hk, by omega, hp⟩

theorem primeLoop_reads (Q : Ipt → Prop) (ulMap : Ipt) (s : OrthoTileSource) (n : Nat) :
    ReadsWithin Q s (forUpTo (primeBody ulMap) n s) := by
  refine forUpTo_invariant (ReadsWithin Q s) _ ?_ n s (readsWithin_refl Q s)
  intro i t ht
  exact readsWithin_trans ht ⟨_, rfl, fun p b h => by simp at h⟩

/-- Positions `getTile` reads from the input tile: after the four corner mappings and the
request of the footprint rectangle, every position read through `getPix` is one of the
positions the engine's resampler uses around the image of some pixel of the map
rectangle. -/
theorem getTile_reads (toIpt : Dpt → Ipt) (sqrt : ℚ → ℚ) (s : OrthoTileSource)
    (mapRect : Irect) :
    ∃ l, (getTile toIpt sqrt s mapRect).trace =
        s.trace ++ ([Event.mapToImage mapRect.ul, Event.mapToImage mapRect.ur,
          Event.mapToImage mapRect.lr, Event.mapToImage mapRect.ll,
          Event.getTile (footprintRect toIpt s mapRect)] ++ l) ∧
      ∀ p b, Event.getPix p b ∈ l →
        ∃ k j, k < (mapRect.lr.u + 1 - mapRect.ul.u).toNat ∧
          j < (mapRect.lr.v + 1 - mapRect.ul.v).toNat ∧
          NearTap toIpt s.m_resamplerType
            (mapToImage s ⟨mapRect.ul.u + k, mapRect.ul.v + j⟩) p := by
  have hL : (loadFootprint toIpt s mapRect).trace =
      s.trace ++ [Event.mapToImage mapRect.ul, Event.mapToImage mapRect.ur,
        Event.mapToImage mapRect.lr, Event.mapToImage mapRect.ll,
        Event.getTile (footprintRect toIpt s mapRect)] := by
    simp [loadFootprint, loadImageTile, footprintRect, mapToImage]
  unfold getTile
  dsimp only
  split_ifs with hE
  · exact ⟨[], by rw [hL, List.append_nil], fun _ _ h => absurd h (List.not_mem_nil _)⟩
  · obtain ⟨pc, pcen, _⟩ := primeLoop_spec mapRect.ul (loadFootprint toIpt s mapRect)
      (mapRect.lr.u + 1 + 1 - mapRect.ul.u).toNat
    have hsp : ∀ p, mapToImage (forUpTo (primeBody mapRect.ul)
        (mapRect.lr.u + 1 + 1 - mapRect.ul.u).toNat (loadFootprint toIpt s mapRect)) p =
        mapToImage s p := fun p => sameConfig_mapToImage pc p
    have hrows := rowLoop_reads toIpt sqrt mapRect.ul (mapRect.lr.u + 1 - mapRect.ul.u).toNat
      (mapRect.lr.v + 1 - mapRect.ul.v).toNat (mapToImage s)
      (forUpTo (primeBody mapRect.ul) (mapRect.lr.u + 1 + 1 - mapRect.ul.u).toNat
        (loadFootprint toIpt s mapRect))
      (by
        intro j k hk
        have hw : (mapRect.lr.u + 1 + 1 - mapRect.ul.u).toNat =
            (mapRect.lr.u + 1 - mapRect.ul.u).toNat + 1 := by omega
        rw [pcen, hw]
        exact rowCenters_primed_center s _ (by rw [← hw]; exact hsp) mapRect.ul _ k j _ hk)
      _ (le_refl _)
    obtain ⟨l, hl, hq⟩ := readsWithin_trans
      (primeLoop_reads _ mapRect.ul (loadFootprint toIpt s mapRect)
        (mapRect.lr.u + 1 + 1 - mapRect.ul.u).toNat) hrows
    refine ⟨l, by rw [hl, hL, List.append_assoc], ?_⟩
    intro p b hp
    have := hq p b hp
    rw [pc.resamplerType] at this
    exact this

/-- A value inside the range of `ossim_int32` is not changed by the wrap. -/
theorem wrapInt32_of_range (z : Int) (h1 : INT32_MIN ≤ z) (h2 : z ≤ INT32_MAX) :
    wrapInt32 z = z := by
  unfold INT32_MIN at h1
  unfold INT32_MAX at h2
  unfold wrapInt32
  omega

/-- Rectangle of `loadImageTile` for an axis-aligned footprint with upper-left corner `a`
and lower-right corner `c`: it extends at least `rb` pixels before `a` and at least `ra`
pixels after `c`, when `rb ≤ ra ≤ m`, `a ≥ rb`, no sum exceeds the largest `ossim_int32`,
and, unless `ra = 0`, the footprint is larger than the margin in both directions. -/
theorem imgTileRect_covers (m : Nat) (a c : Ipt) (rb ra : Int)
    (hrb : 0 ≤ rb) (hba : rb ≤ ra) (hra : ra ≤ m) (hax : rb ≤ a.x) (hay : rb ≤ a.y)
    (hx : a.x ≤ c.x) (hy : a.y ≤ c.y)
    (hbig : ra = 0 ∨ (a.x + m < c.x ∧ a.y + m < c.y))
    (hmx : c.x + m ≤ INT32_MAX) (hmy : c.y + m ≤ INT32_MAX) :
    (imgTileRect m a ⟨c.x, a.y⟩ c ⟨a.x, c.y⟩).ul.x ≤ a.x - rb ∧
    c.x + ra ≤ (imgTileRect m a ⟨c.x, a.y⟩ c ⟨a.x, c.y⟩).lr.x ∧
    (imgTileRect m a ⟨c.x, a.y⟩ c ⟨a.x, c.y⟩).ul.y ≤ a.y - rb ∧
    c.y + ra ≤ (imgTileRect m a ⟨c.x, a.y⟩ c ⟨a.x, c.y⟩).lr.y := by
  have w1 : wrapInt32 (a.x - m) = a.x - m :=
    wrapInt32_of_range _ (by unfold INT32_MIN; unfold INT32_MAX at hmx; omega)
      (by unfold INT32_MAX at *; omega)
  have w2 : wrapInt32 (c.x - m) = c.x - m :=
    wrapInt32_of_range _ (by unfold INT32_MIN; unfold INT32_MAX at hmx; omega)
      (by unfold INT32_MAX at *; omega)
  have w3 : wrapInt32 (a.y - m) = a.y - m :=
    wrapInt32_of_range _ (by unfold INT32_MIN; unfold INT32_MAX at hmy; omega)
      (by unfold INT32_MAX at *; omega)
  have w4 : wrapInt32 (c.y - m) = c.y - m :=
    wrapInt32_of_range _ (by unfold INT32_MIN; unfold INT32_MAX at hmy; omega)
      (by unfold INT32_MAX at *; omega)
  have w5 : wrapInt32 (a.x + m) = a.x + m :=
    wrapInt32_of_range _ (by unfold INT32_MIN; omega) (by unfold INT32_MAX at *; omega)
  have w6 : wrapInt32 (c.x + m) = c.x + m :=
    wrapInt32_of_range _ (by unfold INT32_MIN; omega) (by unfold INT32_MAX at *; omega)
  have w7 : wrapInt32 (a.y + m) = a.y + m :=
    wrapInt32_of_range _ (by unfold INT32_MIN; omega) (by unfold INT32_MAX at *; omega)
  have w8 : wrapInt32 (c.y + m) = c.y + m :=
    wrapInt32_of_range _ (by unfold INT32_MIN; omega) (by unfold INT32_MAX at *; omega)
  simp only [imgTileRect, w1, w2, w3, w4, w5, w6, w7, w8]
  unfold INT32_MAX at *
  unfold INT32_MIN
  refine ⟨?_, ?_, ?_, ?_⟩
  · split_ifs <;> omega
  · split_ifs <;> omega
  · split_ifs <;> omega
  · split_ifs <;> omega

/-- The reach of a resampler to the left and above is non-negative and at most its reach
to the right and below. -/
theorem tapReach_order (kind : ResamplerType) :
    0 ≤ tapReachBefore kind ∧ tapReachBefore kind ≤ tapReachAfter kind := by
  cases kind <;> simp [tapReachBefore, tapReachAfter]

/-- A position a resampler reads for the mapped point `P` lies within the reach of the
resampler around the base pixel of `P`. -/
theorem nearTap_reach (toIpt : Dpt → Ipt) (kind : ResamplerType) (P : Dpt) (p : Ipt)
    (hnear : NearTap toIpt kind P p) :
    (basePixel toIpt kind P).x - tapReachBefore kind ≤ p.x ∧
    p.x ≤ (basePixel toIpt kind P).x + tapReachAfter kind ∧
    (basePixel toIpt kind P).y - tapReachBefore kind ≤ p.y ∧
    p.y ≤ (basePixel toIpt kind P).y + tapReachAfter kind := by
  cases kind
  · simp only [NearTap] at hnear
    simp only [basePixel, tapReachBefore, tapReachAfter]
    subst hnear
    omega
  · simp only [NearTap, tapPositions, List.mem_cons, List.mem_singleton, List.not_mem_nil,
      or_false] at hnear
    simp only [basePixel, tapReachBefore, tapReachAfter]
    rcases hnear with h | h | h | h | h | h | h | h | h <;> subst h <;>
      refine ⟨?_, ?_, ?_, ?_⟩ <;> first | omega | (dsimp only; omega)
  · simp only [NearTap, tapPositions, List.mem_cons, List.mem_singleton, List.not_mem_nil,
      or_false] at hnear
    simp only [basePixel, tapReachBefore, tapReachAfter]
    rcases hnear with h | h | h | h | h | h | h | h | h <;> subst h <;>
      refine ⟨?_, ?_, ?_, ?_⟩ <;> first | omega | (dsimp only; omega)
  · simp only [NearTap] at hnear
    simp only [basePixel, tapReachBefore, tapReachAfter]
    omega

/-! ## Helper lemmas: bilinear blend and truncation -/

/-- The blend of `resampleBI` is the weighted sum of the four taps, null taps replaced by
0, clamped at 0 from below. -/
theorem blendBI_eq_max (nullPix dx dy p11 p12 p21 p22 : ℚ) :
    blendBI nullPix dx dy p11 p12 p21 p22 =
      max 0 ((1 - dx) * (1 - dy) * nullToZero nullPix p11 + dx * (1 - dy) * nullToZero nullPix p12 +
        dx * dy * nullToZero nullPix p22 + (1 - dx) * dy * nullToZero nullPix p21) := by
  simp only [blendBI, nullToZero]
  generalize (if p11 = nullPix then (0 : ℚ) else p11) = a
  generalize (if p12 = nullPix then (0 : ℚ) else p12) = b
  generalize (if p21 = nullPix then (0 : ℚ) else p21) = c
  generalize (if p22 = nullPix then (0 : ℚ) else p22) = d
  rw [max_def]
  split_ifs <;> first | rfl | linarith

theorem truncToInt_of_nonneg (q : ℚ) (hq : 0 ≤ q) : truncToInt q = ⌊q⌋ := by
  unfold truncToInt
  rw [if_pos hq]

theorem truncToInt_of_neg (q : ℚ) (hq : q < 0) : truncToInt q = ⌈q⌉ := by
  unfold truncToInt
  rw [if_neg (not_le.mpr hq)]

theorem truncToInt_neg_half : truncToInt (-1 / 2) = 0 := by
  norm_num [truncToInt, Int.ceil_eq_iff]

/-- Range of the bilinear offset for a non-negative coordinate. -/
theorem offsetBI_of_nonneg (q : ℚ) (hq : 0 ≤ q) : 0 ≤ offsetBI q ∧ offsetBI q < 1 := by
  unfold offsetBI
  rw [truncToInt_of_nonneg q hq]
  have h1 := Int.floor_le q
  have h2 := Int.lt_floor_add_one q
  constructor <;> linarith

/-- Range of the bilinear offset for a negative coordinate. -/
theorem offsetBI_of_neg (q : ℚ) (hq : q < 0) : -1 < offsetBI q ∧ offsetBI q ≤ 0 := by
  unfold offsetBI
  rw [truncToInt_of_neg q hq]
  have h1 := Int.le_ceil q
  have h2 := Int.ceil_lt_add_one q
  constructor <;> linarith

/-! ## Helper lemmas: number of `mapToImage` calls -/

theorem mapCallsBetween_refl (s : OrthoTileSource) : MapCallsBetween 0 s s :=
  ⟨[], (List.append_nil _).symm, rfl⟩

theorem mapCallsBetween_trans (a b : Nat) {s t r : OrthoTileSource}
    (h1 : MapCallsBetween a s t) (h2 : MapCallsBetween b t r) : MapCallsBetween (a + b) s r := by
  obtain ⟨l1, e1, c1⟩ := h1
  obtain ⟨l2, e2, c2⟩ := h2
  refine ⟨l1 ++ l2, by rw [e2, e1, List.append_assoc], ?_⟩
  unfold mapCalls at c1 c2 ⊢
  rw [List.countP_append, c1, c2]

theorem resampleNN_mapCalls (toIpt : Dpt → Ipt) (s : OrthoTileSource) (mapPt : Ipt) (P : Dpt) :
    MapCallsBetween 0 s (resampleNN toIpt s mapPt P) := by
  refine forUpTo_invariant (MapCallsBetween 0 s) _ ?_ _ s (mapCallsBetween_refl s)
  intro i t ht
  have h : MapCallsBetween 0 t (resampleNNBand mapPt (toIpt P) i t) :=
    ⟨[Event.getPix (toIpt P) i], rfl, rfl⟩
  exact mapCallsBetween_trans 0 0 ht h

theorem resampleBI_mapCalls (s : OrthoTileSource) (mapPt : Ipt) (P : Dpt) :
    MapCallsBetween 0 s (resampleBI s mapPt P) := by
  refine forUpTo_invariant (MapCallsBetween 0 s) _ ?_ _ s (mapCallsBetween_refl s)
  intro i t ht
  have h : MapCallsBetween 0 t (resampleBIBand mapPt ⟨truncToInt P.x, truncToInt P.y⟩
      (P.x - truncToInt P.x) (P.y - truncToInt P.y) i t) := ⟨_, rfl, rfl⟩
  exact mapCallsBetween_trans 0 0 ht h

theorem resample_mapCalls (toIpt : Dpt → Ipt) (sqrt : ℚ → ℚ) (s : OrthoTileSource) (mapPt : Ipt)
    (P E S : Dpt) : MapCallsBetween 0 s (resample toIpt sqrt s mapPt P E S) := by
  have h0 : MapCallsBetween 0 s (resampleKernel toIpt sqrt s P E S) := by
    refine ⟨[], ?_, rfl⟩
    simp only [resampleKernel]
    split_ifs <;> exact (List.append_nil _).symm
  refine forUpTo_invariant (MapCallsBetween 0 s) _ ?_ _ _ h0
  intro i t ht
  have h : MapCallsBetween 0 t (resampleBand mapPt (toIpt P) i t) := by
    refine ⟨_, rfl, ?_⟩
    simp [mapCalls, tapPositions, Event.isMapToImage]
  exact mapCallsBetween_trans 0 0 ht h

theorem dispatch_mapCalls (toIpt : Dpt → Ipt) (sqrt : ℚ → ℚ) (s : OrthoTileSource) (mapPt : Ipt)
    (i : Nat) : MapCallsBetween 0 s (dispatch toIpt sqrt s mapPt i) := by
  unfold dispatch
  split
  · refine mapCallsBetween_trans 0 0 ?_ (resampleNN_mapCalls toIpt _ mapPt _)
    exact ⟨[Event.centerPts i], rfl, rfl⟩
  · refine mapCallsBetween_trans 0 0 ?_ (resampleBI_mapCalls _ mapPt _)
    exact ⟨[Event.centerPts i], rfl, rfl⟩
  · refine mapCallsBetween_trans 0 0 ?_ (resample_mapCalls toIpt sqrt _ mapPt _ _ _)
    exact ⟨[Event.centerPts i, Event.southPts i, Event.centerPts (i + 1)], rfl, rfl⟩
  · refine mapCallsBetween_trans 0 0 ?_ (resample_mapCalls toIpt sqrt _ mapPt _ _ _)
    exact ⟨[Event.centerPts i, Event.southPts i, Event.centerPts (i + 1)], rfl, rfl⟩

theorem colBody_mapCalls (toIpt : Dpt → Ipt) (sqrt : ℚ → ℚ) (ulMap : Ipt) (v : Int) (i : Nat)
    (s : OrthoTileSource) : MapCallsBetween 1 s (colBody toIpt sqrt ulMap v i s) := by
  have h1 : MapCallsBetween 1 s
      { s with
        m_southPts := Function.update s.m_southPts i (mapToImage s ⟨ulMap.u + i, v + 1⟩)
        trace := s.trace ++ [Event.mapToImage ⟨ulMap.u + i, v + 1⟩, Event.southPts i] } :=
    ⟨_, rfl, rfl⟩
  have h2 := dispatch_mapCalls toIpt sqrt
    { s with
      m_southPts := Function.update s.m_southPts i (mapToImage s ⟨ulMap.u + i, v + 1⟩)
      trace := s.trace ++ [Event.mapToImage ⟨ulMap.u + i, v + 1⟩, Event.southPts i] }
    ⟨ulMap.u + i, v⟩ i
  refine mapCallsBetween_trans 1 0 (mapCallsBetween_trans 1 0 h1 h2) ?_
  exact ⟨[Event.southPts i, Event.centerPts i], rfl, rfl⟩

theorem colLoop_mapCalls (toIpt : Dpt → Ipt) (sqrt : ℚ → ℚ) (ulMap : Ipt) (v : Int)
    (s : OrthoTileSource) (n : Nat) :
    MapCallsBetween n s (forUpTo (colBody toIpt sqrt ulMap v) n s) := by
  induction n with
  | zero => exact mapCallsBetween_refl s
  | succ n ih =>
    rw [forUpTo_succ]
    exact mapCallsBetween_trans n 1 ih (colBody_mapCalls toIpt sqrt ulMap v n _)

theorem rowBody_mapCalls (toIpt : Dpt → Ipt) (sqrt : ℚ → ℚ) (ulMap : Ipt) (w j : Nat)
    (s : OrthoTileSource) : MapCallsBetween (w + 1) s (rowBody toIpt sqrt ulMap w j s) := by
  refine mapCallsBetween_trans w 1 (colLoop_mapCalls toIpt sqrt ulMap (ulMap.v + j) s w) ?_
  exact ⟨[Event.mapToImage ⟨ulMap.u + w, ulMap.v + j⟩, Event.centerPts w], rfl, rfl⟩

theorem rowLoop_mapCalls (toIpt : Dpt → Ipt) (sqrt : ℚ → ℚ) (ulMap : Ipt) (w : Nat)
    (s : OrthoTileSource) (n : Nat) :
    MapCallsBetween (n * (w + 1)) s (forUpTo (rowBody toIpt sqrt ulMap w) n s) := by
  induction n with
  | zero =>
    rw [Nat.zero_mul]
    exact mapCallsBetween_refl s
  | succ n ih =>
    rw [forUpTo_succ, Nat.succ_mul]
    exact mapCallsBetween_trans _ _ ih (rowBody_mapCalls toIpt sqrt ulMap w n _)

theorem primeLoop_mapCalls (ulMap : Ipt) (s : OrthoTileSource) (n : Nat) :
    MapCallsBetween n s (forUpTo (primeBody ulMap) n s) := by
  induction n with
  | zero => exact mapCallsBetween_refl s
  | succ n ih =>
    rw [forUpTo_succ]
    refine mapCallsBetween_trans n 1 ih ?_
    exact ⟨[Event.mapToImage ⟨ulMap.u + n, ulMap.v⟩, Event.centerPts n], rfl, rfl⟩

/-! ## Helper lemmas: the value written, by kind -/

theorem writtenValue_of_BI (toIpt : Dpt → Ipt) (sqrt : ℚ → ℚ) (s : OrthoTileSource)
    (P E S : Dpt) (band : Nat) (hk : s.m_resamplerType = ResamplerType.BI) :
    writtenValue toIpt sqrt s P E S band = (resampleBI s ⟨0, 0⟩ P).m_mapTile.val 0 0 band := by
  unfold writtenValue
  rw [hk]

theorem writtenValue_of_NN (toIpt : Dpt → Ipt) (sqrt : ℚ → ℚ) (s : OrthoTileSource)
    (P E S : Dpt) (band : Nat) (hk : s.m_resamplerType = ResamplerType.NN) :
    writtenValue toIpt sqrt s P E S band =
      (resampleNN toIpt s ⟨0, 0⟩ P).m_mapTile.val 0 0 band := by
  unfold writtenValue
  rw [hk]

theorem writtenValue_of_LWM (toIpt : Dpt → Ipt) (sqrt : ℚ → ℚ) (s : OrthoTileSource)
    (P E S : Dpt) (band : Nat) (hk : s.m_resamplerType = ResamplerType.LWM) :
    writtenValue toIpt sqrt s P E S band =
      (resample toIpt sqrt s ⟨0, 0⟩ P E S).m_mapTile.val 0 0 band := by
  unfold writtenValue
  rw [hk]

theorem writtenValue_of_DWM (toIpt : Dpt → Ipt) (sqrt : ℚ → ℚ) (s : OrthoTileSource)
    (P E S : Dpt) (band : Nat) (hk : s.m_resamplerType = ResamplerType.DWM) :
    writtenValue toIpt sqrt s P E S band =
      (resample toIpt sqrt s ⟨0, 0⟩ P E S).m_mapTile.val 0 0 band := by
  unfold writtenValue
  rw [hk]

/-! ## Helper lemmas: the stand-in square root -/

theorem sqrtQ_eq_zero_iff (q : ℚ) (hq : 0 ≤ q) : sqrtQ q = 0 ↔ q = 0 := by
  unfold sqrtQ
  have hden : (Nat.sqrt q.den : ℚ) ≠ 0 := by
    have h1 : q.den ≠ 0 := q.den_nz
    have h2 : Nat.sqrt q.den ≠ 0 := fun h => h1 (Nat.sqrt_eq_zero.mp h)
    exact_mod_cast h2
  rw [div_eq_zero_iff]
  constructor
  · intro h
    rcases h with h | h
    · have h3 : Nat.sqrt q.num.toNat = 0 := by exact_mod_cast h
      have h4 : q.num.toNat = 0 := Nat.sqrt_eq_zero.mp h3
      have h5 : 0 ≤ q.num := Rat.num_nonneg.mpr hq
      have h6 : q.num = 0 := by omega
      exact Rat.num_eq_zero.mp h6
    · exact absurd h hden
  · intro h
    left
    rw [h]
    simp

/-! ## Helper lemmas: scanline-buffer indices -/

theorem logAll_refl (Φ : Event → Prop) (s : OrthoTileSource) : LogAll Φ s s :=
  ⟨[], (List.append_nil _).symm, fun _ h => absurd h (List.not_mem_nil _)⟩

theorem logAll_trans {Φ : Event → Prop} {s t r : OrthoTileSource} (h1 : LogAll Φ s t)
    (h2 : LogAll Φ t r) : LogAll Φ s r := by
  obtain ⟨l1, e1, q1⟩ := h1
  obtain ⟨l2, e2, q2⟩ := h2
  refine ⟨l1 ++ l2, by rw [e2, e1, List.append_assoc], ?_⟩
  intro e h
  rcases List.mem_append.mp h with h | h
  · exact q1 e h
  · exact q2 e h

theorem resampleNN_index (w : Nat) (toIpt : Dpt → Ipt) (s : OrthoTileSource) (mapPt : Ipt)
    (P : Dpt) : LogAll (IndexWithin w) s (resampleNN toIpt s mapPt P) := by
  refine forUpTo_invariant (LogAll (IndexWithin w) s) _ ?_ _ s (logAll_refl _ s)
  intro i t ht
  have h : LogAll (IndexWithin w) t (resampleNNBand mapPt (toIpt P) i t) := by
    refine ⟨[Event.getPix (toIpt P) i], rfl, ?_⟩
    intro e he
    rw [List.mem_singleton.mp he]
    exact trivial
  exact logAll_trans ht h

theorem resampleBI_index (w : Nat) (s : OrthoTileSource) (mapPt : Ipt) (P : Dpt) :
    LogAll (IndexWithin w) s (resampleBI s mapPt P) := by
  refine forUpTo_invariant (LogAll (IndexWithin w) s) _ ?_ _ s (logAll_refl _ s)
  intro i t ht
  have h : LogAll (IndexWithin w) t (resampleBIBand mapPt ⟨truncToInt P.x, truncToInt P.y⟩
      (P.x - truncToInt P.x) (P.y - truncToInt P.y) i t) := by
    refine ⟨_, rfl, ?_⟩
    intro e he
    simp only [List.mem_cons, List.mem_singleton, List.not_mem_nil, or_false] at he
    rcases he with rfl | rfl | rfl | rfl <;> exact trivial
  exact logAll_trans ht h

theorem resample_index (w : Nat) (toIpt : Dpt → Ipt) (sqrt : ℚ → ℚ) (s : OrthoTileSource)
    (mapPt : Ipt) (P E S : Dpt) :
    LogAll (IndexWithin w) s (resample toIpt sqrt s mapPt P E S) := by
  have h0 : LogAll (IndexWithin w) s (resampleKernel toIpt sqrt s P E S) := by
    refine ⟨[], ?_, fun _ h => absurd h (List.not_mem_nil _)⟩
    simp only [resampleKernel]
    split_ifs <;> exact (List.append_nil _).symm
  refine forUpTo_invariant (LogAll (IndexWithin w) s) _ ?_ _ _ h0
  intro i t ht
  have h : LogAll (IndexWithin w) t (resampleBand mapPt (toIpt P) i t) := by
    refine ⟨_, rfl, ?_⟩
    intro e he
    obtain ⟨q, _, hq⟩ := List.mem_map.mp he
    rw [← hq]
    exact trivial
  exact logAll_trans ht h

theorem dispatch_index (w : Nat) (toIpt : Dpt → Ipt) (sqrt : ℚ → ℚ) (s : OrthoTileSource)
    (mapPt : Ipt) (i : Nat) (hi : i < w) :
    LogAll (IndexWithin w) s (dispatch toIpt sqrt s mapPt i) := by
  have hc : IndexWithin w (Event.centerPts i) := Nat.le_of_lt hi
  have hs : IndexWithin w (Event.southPts i) := hi
  have he : IndexWithin w (Event.centerPts (i + 1)) := hi
  unfold dispatch
  split
  · refine logAll_trans ?_ (resampleNN_index w toIpt _ mapPt _)
    refine ⟨[Event.centerPts i], rfl, ?_⟩
    intro e h
    rw [List.mem_singleton.mp h]
    exact hc
  · refine logAll_trans ?_ (resampleBI_index w _ mapPt _)
    refine ⟨[Event.centerPts i], rfl, ?_⟩
    intro e h
    rw [List.mem_singleton.mp h]
    exact hc
  · refine logAll_trans ?_ (resample_index w toIpt sqrt _ mapPt _ _ _)
    refine ⟨[Event.centerPts i, Event.southPts i, Event.centerPts (i + 1)], rfl, ?_⟩
    intro e h
    simp only [List.mem_cons, List.mem_singleton, List.not_mem_nil, or_false] at h
    rcases h with rfl | rfl | rfl
    · exact hc
    · exact hs
    · exact he
  · refine logAll_trans ?_ (resample_index w toIpt sqrt _ mapPt _ _ _)
    refine ⟨[Event.centerPts i, Event.southPts i, Event.centerPts (i + 1)], rfl, ?_⟩
    intro e h
    simp only [List.mem_cons, List.mem_singleton, List.not_mem_nil, or_false] at h
    rcases h with rfl | rfl | rfl
    · exact hc
    · exact hs
    · exact he

theorem colBody_index (w : Nat) (toIpt : Dpt → Ipt) (sqrt : ℚ → ℚ) (ulMap : Ipt) (v : Int)
    (i : Nat) (s : OrthoTileSource) (hi : i < w) :
    LogAll (IndexWithin w) s (colBody toIpt sqrt ulMap v i s) := by
  have hc : IndexWithin w (Event.centerPts i) := Nat.le_of_lt hi
  have hs : IndexWithin w (Event.southPts i) := hi
  have h1 : LogAll (IndexWithin w) s
      { s with
        m_southPts := Function.update s.m_southPts i (mapToImage s ⟨ulMap.u + i, v + 1⟩)
        trace := s.trace ++ [Event.mapToImage ⟨ulMap.u + i, v + 1⟩, Event.southPts i] } := by
    refine ⟨_, rfl, ?_⟩
    intro e h
    simp only [List.mem_cons, List.mem_singleton, List.not_mem_nil, or_false] at h
    rcases h with rfl | rfl
    · exact trivial
    · exact hs
  have h2 := dispatch_index w toIpt sqrt
    { s with
      m_southPts := Function.update s.m_southPts i (mapToImage s ⟨ulMap.u + i, v + 1⟩)
      trace := s.trace ++ [Event.mapToImage ⟨ulMap.u + i, v + 1⟩, Event.southPts i] }
    ⟨ulMap.u + i, v⟩ i hi
  refine logAll_trans (logAll_trans h1 h2) ?_
  refine ⟨[Event.southPts i, Event.centerPts i], rfl, ?_⟩
  intro e h
  simp only [List.mem_cons, List.mem_singleton, List.not_mem_nil, or_false] at h
  rcases h with rfl | rfl
  · exact hs
  · exact hc

theorem colLoop_index (w : Nat) (toIpt : Dpt → Ipt) (sqrt : ℚ → ℚ) (ulMap : Ipt) (v : Int)
    (s : OrthoTileSource) (n : Nat) (hn : n ≤ w) :
    LogAll (IndexWithin w) s (forUpTo (colBody toIpt sqrt ulMap v) n s) := by
  induction n with
  | zero => exact logAll_refl _ s
  | succ n ih =>
    rw [forUpTo_succ]
    exact logAll_trans (ih (by omega)) (colBody_index w toIpt sqrt ulMap v n _ (by omega))

theorem rowBody_index (toIpt : Dpt → Ipt) (sqrt : ℚ → ℚ) (ulMap : Ipt) (w j : Nat)
    (s : OrthoTileSource) : LogAll (IndexWithin w) s (rowBody toIpt sqrt ulMap w j s) := by
  refine logAll_trans (colLoop_index w toIpt sqrt ulMap (ulMap.v + j) s w (le_refl w)) ?_
  refine ⟨[Event.mapToImage ⟨ulMap.u + w, ulMap.v + j⟩, Event.centerPts w], rfl, ?_⟩
  intro e h
  simp only [List.mem_cons, List.mem_singleton, List.not_mem_nil, or_false] at h
  rcases h with rfl | rfl
  · exact trivial
  · exact le_refl w

theorem rowLoop_index (toIpt : Dpt → Ipt) (sqrt : ℚ → ℚ) (ulMap : Ipt) (w : Nat)
    (s : OrthoTileSource) (n : Nat) :
    LogAll (IndexWithin w) s (forUpTo (rowBody toIpt sqrt ulMap w) n s) := by
  induction n with
  | zero => exact logAll_refl _ s
  | succ n ih =>
    rw [forUpTo_succ]
    exact logAll_trans ih (rowBody_index toIpt sqrt ulMap w n _)

theorem primeLoop_index (w : Nat) (ulMap : Ipt) (s : OrthoTileSource) (n : Nat)
    (hn : n ≤ w + 1) : LogAll (IndexWithin w) s (forUpTo (primeBody ulMap) n s) := by
  induction n with
  | zero => exact logAll_refl _ s
  | succ n ih =>
    rw [forUpTo_succ]
    refine logAll_trans (ih (by omega)) ?_
    refine ⟨[Event.mapToImage ⟨ulMap.u + n, ulMap.v⟩, Event.centerPts n], rfl, ?_⟩
    intro e h
    simp only [List.mem_cons, List.mem_singleton, List.not_mem_nil, or_false] at h
    rcases h with rfl | rfl
    · exact trivial
    · show n ≤ w
      omega

/-- Scanline-buffer accesses of `getTile`: for a rectangle with `w` columns every index
into `m_centerPts` is at most `w` and every index into `m_southPts` is below `w`. -/
theorem getTile_index (toIpt : Dpt → Ipt) (sqrt : ℚ → ℚ) (s : OrthoTileSource)
    (mapRect : Irect) :
    ∃ l, (getTile toIpt sqrt s mapRect).trace =
        s.trace ++ ([Event.mapToImage mapRect.ul, Event.mapToImage mapRect.ur,
          Event.mapToImage mapRect.lr, Event.mapToImage mapRect.ll,
          Event.getTile (footprintRect toIpt s mapRect)] ++ l) ∧
      ∀ e, e ∈ l → IndexWithin (mapRect.lr.u + 1 - mapRect.ul.u).toNat e := by
  have hL : (loadFootprint toIpt s mapRect).trace =
      s.trace ++ [Event.mapToImage mapRect.ul, Event.mapToImage mapRect.ur,
        Event.mapToImage mapRect.lr, Event.mapToImage mapRect.ll,
        Event.getTile (footprintRect toIpt s mapRect)] := by
    simp [loadFootprint, loadImageTile, footprintRect, mapToImage]
  unfold getTile
  dsimp only
  split_ifs with hE
  · exact ⟨[], by rw [hL, List.append_nil], fun _ h => absurd h (List.not_mem_nil _)⟩
  · obtain ⟨l, hl, hq⟩ := logAll_trans
      (primeLoop_index (mapRect.lr.u + 1 - mapRect.ul.u).toNat mapRect.ul
        (loadFootprint toIpt s mapRect) (mapRect.lr.u + 1 + 1 - mapRect.ul.u).toNat (by omega))
      (rowLoop_index toIpt sqrt mapRect.ul (mapRect.lr.u + 1 - mapRect.ul.u).toNat
        (forUpTo (primeBody mapRect.ul) (mapRect.lr.u + 1 + 1 - mapRect.ul.u).toNat
          (loadFootprint toIpt s mapRect))
        (mapRect.lr.v + 1 - mapRect.ul.v).toNat)
    exact ⟨l, by rw [hl, hL, List.append_assoc], hq⟩

/-! ## Helper lemmas: null output of the weighted-mean resamplers -/

/-- Non-negative weights whose sum is not positive are all 0. -/
theorem kernel_zero_of_sum_le (k : Kernel) (hk : k.Nonneg) (hs : ¬ 0 < k.sum) :
    k.k0 = 0 ∧ k.k1 = 0 ∧ k.k2 = 0 ∧ k.k3 = 0 ∧ k.k4 = 0 ∧ k.k5 = 0 ∧ k.k6 = 0 ∧ k.k7 = 0 ∧
      k.k8 = 0 := by
  obtain ⟨h0, h1, h2, h3, h4, h5, h6, h7, h8⟩ := hk
  have hs2 : k.k0 + k.k1 + k.k2 + k.k3 + k.k4 + k.k5 + k.k6 + k.k7 + k.k8 ≤ 0 := not_lt.mp hs
  refine ⟨?_, ?_, ?_, ?_, ?_, ?_, ?_, ?_, ?_⟩ <;> linarith

/-- A masked weight that is 0 belongs to a null tap or was 0 before the masking. -/
theorem null_or_zero_of_masked (nullPix p w : ℚ) (h : (if p = nullPix then 0 else w) = 0) :
    p = nullPix ∨ w = 0 := by
  by_cases hp : p = nullPix
  · exact Or.inl hp
  · rw [if_neg hp] at h
    exact Or.inr h

/-- LWM with radius of influence 1/8 over the uniform tile of value 7 (null sentinel
1000), mapped point `(1/2, 1/2)` with east and south points 1/8 pixel away (an output grid
8 times finer than the input): all nine weights are 0 and the null sentinel is written. -/
theorem resample_out_of_influence :
    (resample truncIpt sqrtQ (engine ResamplerType.LWM (1 / 8) 2 1 1000 (uniformTile 7)) ⟨4, 4⟩
      ⟨1 / 2, 1 / 2⟩ ⟨5 / 8, 1 / 2⟩ ⟨1 / 2, 5 / 8⟩).m_mapTile.val (⟨4, 4⟩ : Ipt).u (⟨4, 4⟩ : Ipt).v
      0 = some 1000 := by
  rw [resample_val _ _ _ _ _ _ _ _ (by decide)]
  simp only [forUpTo, resampleBand, resampleKernel, engine, truncIpt,
    truncToInt_half, computeLWM, halfWeight, maskNull_eq, fetchTaps, uniformTile, Kernel.sum,
    weightedMean, Kernel.dot]
  norm_num [abs_of_nonneg, abs_of_nonpos]

/-! ## Footprint rectangle -/

/-- C2 (code defect). With corners `(10,10)`, `(9,11)`, `(10,10)`, `(10,10)` and safety
margin 2 the rectangle requested by `loadImageTile` is `(8,8)-(12,12)`, whereas the
minimum corner less the margin is `(7,8)` and the maximum corner plus the margin is
`(12,13)`: each later corner is compared with the bound that already carries the
margin. -/
theorem C2_imgTileRect_compares_with_margin :
    imgTileRect 2 ⟨10, 10⟩ ⟨9, 11⟩ ⟨10, 10⟩ ⟨10, 10⟩ = ⟨⟨8, 8⟩, ⟨12, 12⟩⟩ ∧
    (imgTileRect 2 ⟨10, 10⟩ ⟨9, 11⟩ ⟨10, 10⟩ ⟨10, 10⟩).ul.x
      ≠ max 0 (min (min 10 9) (min 10 10) - 2) ∧
    (imgTileRect 2 ⟨10, 10⟩ ⟨9, 11⟩ ⟨10, 10⟩ ⟨10, 10⟩).lr.y
      ≠ max (max 10 11) (max 10 10) + 2 := by
  decide

/-! ## Configuration -/

/-- C8. The method `setResamplerType` throws exactly for the strings other than `""`,
`"NN"`, `"BI"`, `"LWM"`, `"DWM"`; it selects NN, BI, LWM, DWM for the matching name and
the default BI for the empty string, and whatever it selects is one of the four kinds
the per-pixel switch of `getTile` handles. -/
theorem C8_setResamplerType_validation (s : OrthoTileSource) (value : String) :
    ((∃ e, setResamplerType s value = .error e) ↔
      ¬ (value = "" ∨ value = "NN" ∨ value = "BI" ∨ value = "LWM" ∨ value = "DWM")) ∧
    setResamplerType s "" = .ok { s with m_resamplerType := ResamplerType.BI } ∧
    setResamplerType s "NN" = .ok { s with m_resamplerType := ResamplerType.NN } ∧
    setResamplerType s "BI" = .ok { s with m_resamplerType := ResamplerType.BI } ∧
    setResamplerType s "LWM" = .ok { s with m_resamplerType := ResamplerType.LWM } ∧
    setResamplerType s "DWM" = .ok { s with m_resamplerType := ResamplerType.DWM } ∧
    (∀ s1, setResamplerType s value = .ok s1 →
      (s1.m_resamplerType = ResamplerType.NN ∧ value = "NN") ∨
      (s1.m_resamplerType = ResamplerType.BI ∧ (value = "BI" ∨ value = "")) ∨
      (s1.m_resamplerType = ResamplerType.LWM ∧ value = "LWM") ∨
      (s1.m_resamplerType = ResamplerType.DWM ∧ value = "DWM")) := by
  refine ⟨?_, ?_, ?_, ?_, ?_, ?_, ?_⟩
  · unfold setResamplerType
    split_ifs <;> simp_all
  · simp [setResamplerType, RESAMPLER_TYPE_DEFAULT]
  · simp [setResamplerType]
  · simp [setResamplerType]
  · simp [setResamplerType]
  · simp [setResamplerType]
  · intro s1
    unfold setResamplerType
    split_ifs <;> intro h <;> simp at h <;> subst h <;>
      simp_all [RESAMPLER_TYPE_DEFAULT]

/-- C9 (code defect). With the preference `safetyMargin` set to 0 (which is below 1) the
constructed engine keeps the safety margin 0 instead of the default 2; the fallback
assignment goes to `m_radius`, which becomes 2. -/
theorem C9_safetyMargin_zero_kept (raw : OrthoTileSource) :
    ∃ s, construct ⟨none, some 0, ""⟩ raw = .ok s ∧ s.m_safetyMargin = 0 ∧
      s.m_safetyMargin ≠ SAFETY_MARGIN_DEFAULT ∧ s.m_radius = 2 := by
  refine ⟨_, rfl, ?_, ?_, ?_⟩ <;> simp [SAFETY_MARGIN_DEFAULT]

/-- C10 (code defect). With the preferences `radiusOfInfluence = 1/2` (at least 0.1) and
`safetyMargin = 0` the constructed engine has radius of influence 2, not the configured
`1/2`: the safety-margin fallback overwrites `m_radius`. -/
theorem C10_radius_overwritten_by_margin_fallback (raw : OrthoTileSource) :
    ∃ s, construct ⟨some (1 / 2), some 0, ""⟩ raw = .ok s ∧ s.m_radius = 2 ∧
      s.m_radius ≠ 1 / 2 ∧ ¬ ((1 : ℚ) / 2 < 1 / 10) := by
  refine ⟨_, rfl, ?_, ?_, ?_⟩ <;> norm_num [SAFETY_MARGIN_DEFAULT]

/-! ## Weighted-mean resamplers -/

/-- C4. All-null propagation: in `resample` (LWM and DWM), for every mapped point and
every band of the engine, if the nine taps of the 3x3 neighbourhood all equal the null
sentinel in that band, the value written for that band is exactly the null sentinel. -/
theorem C4_all_null_propagates (toIpt : Dpt → Ipt) (sqrt : ℚ → ℚ) (s : OrthoTileSource)
    (mapPt : Ipt) (P E S : Dpt) (band : Nat) (hb : band < s.m_numBands)
    (hnull : ∀ p ∈ tapPositions (toIpt P), s.m_imageTile.getPix p band = s.m_nullPix) :
    (resample toIpt sqrt s mapPt P E S).m_mapTile.val mapPt.u mapPt.v band =
      some s.m_nullPix := by
  rw [resample_val toIpt sqrt s mapPt P E S band hb, forUpTo_resampleBand_kernel]
  obtain ⟨h1, h2, _⟩ := resampleKernel_frame toIpt sqrt s P E S
  rw [h1, h2, maskNull_eq]
  have t11 := hnull ⟨(toIpt P).x - 1, (toIpt P).y - 1⟩ (by simp [tapPositions])
  have t12 := hnull ⟨(toIpt P).x - 1, (toIpt P).y⟩ (by simp [tapPositions])
  have t13 := hnull ⟨(toIpt P).x - 1, (toIpt P).y + 1⟩ (by simp [tapPositions])
  have t21 := hnull ⟨(toIpt P).x, (toIpt P).y - 1⟩ (by simp [tapPositions])
  have t22 := hnull (toIpt P) (by simp [tapPositions])
  have t23 := hnull ⟨(toIpt P).x, (toIpt P).y + 1⟩ (by simp [tapPositions])
  have t31 := hnull ⟨(toIpt P).x + 1, (toIpt P).y - 1⟩ (by simp [tapPositions])
  have t32 := hnull ⟨(toIpt P).x + 1, (toIpt P).y⟩ (by simp [tapPositions])
  have t33 := hnull ⟨(toIpt P).x + 1, (toIpt P).y + 1⟩ (by simp [tapPositions])
  simp [fetchTaps, weightedMean, Kernel.sum, t11, t12, t13, t21, t22, t23, t31, t32, t33]

/-- Witness of C4: LWM engine with one band over a tile that holds the null sentinel 0
everywhere. -/
theorem C4_all_null_propagates_witness :
    (resample truncIpt sqrtQ (engine ResamplerType.LWM (1 / 2) 2 1 0 (uniformTile 0)) ⟨0, 0⟩
      ⟨1 / 2, 1 / 2⟩ ⟨3 / 2, 1 / 2⟩ ⟨1 / 2, 3 / 2⟩).m_mapTile.val 0 0 0 = some 0 :=
  C4_all_null_propagates truncIpt sqrtQ (engine ResamplerType.LWM (1 / 2) 2 1 0 (uniformTile 0))
    ⟨0, 0⟩ ⟨1 / 2, 1 / 2⟩ ⟨3 / 2, 1 / 2⟩ ⟨1 / 2, 3 / 2⟩ 0 (by decide) (fun _ _ => rfl)

/-- C5. Weighted-mean range: in `resample` (LWM and DWM, the square root being
non-negative), for every mapped point and every band of the engine whose weight sum `W`
is positive, the value written lies between the smallest and the largest of the nine tap
values of that band. -/
theorem C5_weighted_mean_range (toIpt : Dpt → Ipt) (sqrt : ℚ → ℚ) (s : OrthoTileSource)
    (mapPt : Ipt) (P E S : Dpt) (band : Nat) (hsqrt : ∀ x, 0 ≤ sqrt x)
    (hb : band < s.m_numBands) (hW : 0 < bandWeightSum toIpt sqrt s mapPt P E S band) :
    ∃ B, (resample toIpt sqrt s mapPt P E S).m_mapTile.val mapPt.u mapPt.v band = some B ∧
      (fetchTaps s.m_imageTile (toIpt P) band).min ≤ B ∧
      B ≤ (fetchTaps s.m_imageTile (toIpt P) band).max := by
  refine ⟨_, resample_val toIpt sqrt s mapPt P E S band hb, ?_⟩
  exact weightedMean_range _ _ _
    (forUpTo_resampleBand_kernel_nonneg _ _ _ _ (resampleKernel_nonneg toIpt sqrt hsqrt s P E S))
    hW

/-- Witness of C5: LWM engine with one band over the ramp tile, radius 1/2, mapped point
`(1/2, 1/2)` with east and south points one pixel away. -/
theorem C5_weighted_mean_range_witness :
    ∃ B, (resample truncIpt sqrtQ (engine ResamplerType.LWM (1 / 2) 2 1 1000 rampTile) ⟨0, 0⟩
        ⟨1 / 2, 1 / 2⟩ ⟨3 / 2, 1 / 2⟩ ⟨1 / 2, 3 / 2⟩).m_mapTile.val 0 0 0 = some B ∧
      (fetchTaps rampTile (truncIpt ⟨1 / 2, 1 / 2⟩) 0).min ≤ B ∧
      B ≤ (fetchTaps rampTile (truncIpt ⟨1 / 2, 1 / 2⟩) 0).max :=
  C5_weighted_mean_range truncIpt sqrtQ (engine ResamplerType.LWM (1 / 2) 2 1 1000 rampTile)
    ⟨0, 0⟩ ⟨1 / 2, 1 / 2⟩ ⟨3 / 2, 1 / 2⟩ ⟨1 / 2, 3 / 2⟩ 0 sqrtQ_nonneg (by decide) (by
      simp only [bandWeightSum, forUpTo, resampleBand, resampleKernel, engine, truncIpt,
        truncToInt_half, computeLWM, halfWeight, maskNull_eq, fetchTaps, rampTile, Kernel.sum]
      norm_num [abs_of_nonneg, abs_of_nonpos])

/-! ## Uniform images and integer coordinates -/

/-- C1 (counterexample). Over the uniform tile of value `-1` (null sentinel 1000)
`resampleBI` writes 0 at the mapped point `(0, 0)`, and over the uniform tile of value 7
`resample` under LWM with radius of influence `1/8` and a constant coordinate mapping
(centre, east and south all at `(1/2, 1/2)`) writes the null sentinel 1000. -/
theorem C1_uniform_not_always_preserved :
    ((resampleBI (engine ResamplerType.BI (1 / 2) 2 1 1000 (uniformTile (-1))) ⟨0, 0⟩
        ⟨0, 0⟩).m_mapTile.val 0 0 0 = some 0 ∧
      (resampleBI (engine ResamplerType.BI (1 / 2) 2 1 1000 (uniformTile (-1))) ⟨0, 0⟩
        ⟨0, 0⟩).m_mapTile.val 0 0 0 ≠ some (-1)) ∧
    ((resample truncIpt sqrtQ (engine ResamplerType.LWM (1 / 8) 2 1 1000 (uniformTile 7)) ⟨0, 0⟩
        ⟨1 / 2, 1 / 2⟩ ⟨1 / 2, 1 / 2⟩ ⟨1 / 2, 1 / 2⟩).m_mapTile.val 0 0 0 = some 1000 ∧
      (resample truncIpt sqrtQ (engine ResamplerType.LWM (1 / 8) 2 1 1000 (uniformTile 7)) ⟨0, 0⟩
        ⟨1 / 2, 1 / 2⟩ ⟨1 / 2, 1 / 2⟩ ⟨1 / 2, 1 / 2⟩).m_mapTile.val 0 0 0 ≠ some 7) := by
  have hBI : (resampleBI (engine ResamplerType.BI (1 / 2) 2 1 1000 (uniformTile (-1))) ⟨0, 0⟩
      ⟨0, 0⟩).m_mapTile.val 0 0 0 = some 0 := by
    rw [show ((0 : Int)) = (⟨0, 0⟩ : Ipt).u from rfl, resampleBI_val _ _ _ _ (by decide)]
    have h0 : truncToInt (0 : ℚ) = 0 := by simpa using truncToInt_intCast 0
    simp only [engine, uniformTile, h0, blendBI]
    norm_num
  have hLWM : (resample truncIpt sqrtQ (engine ResamplerType.LWM (1 / 8) 2 1 1000 (uniformTile 7))
      ⟨0, 0⟩ ⟨1 / 2, 1 / 2⟩ ⟨1 / 2, 1 / 2⟩ ⟨1 / 2, 1 / 2⟩).m_mapTile.val 0 0 0 = some 1000 := by
    rw [show ((0 : Int)) = (⟨0, 0⟩ : Ipt).u from rfl, resample_val _ _ _ _ _ _ _ _ (by decide)]
    simp only [forUpTo, resampleBand, resampleKernel, engine, truncIpt,
      truncToInt_half, computeLWM, halfWeight, maskNull_eq, fetchTaps, uniformTile, Kernel.sum,
      weightedMean, Kernel.dot]
    norm_num [abs_of_nonneg, abs_of_nonpos]
  refine ⟨⟨hBI, ?_⟩, ⟨hLWM, ?_⟩⟩
  · rw [hBI]
    norm_num
  · rw [hLWM]
    norm_num

/-- C1 (amended). Over an input tile whose pixels all equal one value `v` other than the
null sentinel, for every conversion, mapped points, radius and band of the engine:
`resampleNN` writes `v`; `resampleBI` writes `v` when `v ≥ 0` and 0 when `v < 0`;
`resample` (LWM and DWM) writes `v` when the sum `W` of the nine kernel weights is
positive and the null sentinel otherwise. -/
theorem C1_uniform_image (toIpt : Dpt → Ipt) (sqrt : ℚ → ℚ) (s : OrthoTileSource)
    (mapPt : Ipt) (P E S : Dpt) (v : ℚ) (band : Nat)
    (huni : ∀ p b, s.m_imageTile.getPix p b = v) (hv : v ≠ s.m_nullPix)
    (hb : band < s.m_numBands) :
    (resampleNN toIpt s mapPt P).m_mapTile.val mapPt.u mapPt.v band = some v ∧
    (resampleBI s mapPt P).m_mapTile.val mapPt.u mapPt.v band = some (max v 0) ∧
    (resample toIpt sqrt s mapPt P E S).m_mapTile.val mapPt.u mapPt.v band =
      some (if 0 < (resampleKernel toIpt sqrt s P E S).m_kernel.sum then v
        else s.m_nullPix) := by
  refine ⟨?_, ?_, ?_⟩
  · rw [resampleNN_val toIpt s mapPt P band hb, huni]
  · rw [resampleBI_val s mapPt P band hb]
    simp only [huni, blendBI, if_neg hv]
    have e : (1 - (P.x - ↑(truncToInt P.x))) * (1 - (P.y - ↑(truncToInt P.y))) * v +
        (P.x - ↑(truncToInt P.x)) * (1 - (P.y - ↑(truncToInt P.y))) * v +
        (P.x - ↑(truncToInt P.x)) * (P.y - ↑(truncToInt P.y)) * v +
        (1 - (P.x - ↑(truncToInt P.x))) * (P.y - ↑(truncToInt P.y)) * v = v := by ring
    rw [e]
    split_ifs with h
    · rw [max_eq_right (le_of_lt h)]
    · rw [max_eq_left (not_lt.mp h)]
  · obtain ⟨h1, h2, _⟩ := resampleKernel_frame toIpt sqrt s P E S
    rw [resample_val toIpt sqrt s mapPt P E S band hb,
      forUpTo_resampleBand_kernel_of_no_null _ _ _ _
        (by intro p b; rw [h1, h2, huni]; exact hv)]
    unfold weightedMean
    dsimp only
    split_ifs with h
    · have e : (resampleKernel toIpt sqrt s P E S).m_kernel.dot
          (fetchTaps s.m_imageTile (toIpt P) band) =
          v * (resampleKernel toIpt sqrt s P E S).m_kernel.sum := by
        simp only [Kernel.dot, Kernel.sum, fetchTaps, huni]
        ring
      rw [e, mul_div_assoc, div_self (ne_of_gt h), mul_one]
    · rfl

/-- Witness of C1 (amended): one-band LWM engine, radius 1/2, uniform tile of value 7. -/
theorem C1_uniform_image_witness :
    (resampleNN truncIpt (engine ResamplerType.LWM (1 / 2) 2 1 1000 (uniformTile 7)) ⟨0, 0⟩
      ⟨1 / 2, 1 / 2⟩).m_mapTile.val 0 0 0 = some 7 ∧
    (resampleBI (engine ResamplerType.LWM (1 / 2) 2 1 1000 (uniformTile 7)) ⟨0, 0⟩
      ⟨1 / 2, 1 / 2⟩).m_mapTile.val 0 0 0 = some (max 7 0) ∧
    (resample truncIpt sqrtQ (engine ResamplerType.LWM (1 / 2) 2 1 1000 (uniformTile 7)) ⟨0, 0⟩
      ⟨1 / 2, 1 / 2⟩ ⟨3 / 2, 1 / 2⟩ ⟨1 / 2, 3 / 2⟩).m_mapTile.val 0 0 0 =
      some (if 0 < (resampleKernel truncIpt sqrtQ
          (engine ResamplerType.LWM (1 / 2) 2 1 1000 (uniformTile 7))
          ⟨1 / 2, 1 / 2⟩ ⟨3 / 2, 1 / 2⟩ ⟨1 / 2, 3 / 2⟩).m_kernel.sum then 7
        else (engine ResamplerType.LWM (1 / 2) 2 1 1000 (uniformTile 7)).m_nullPix) :=
  C1_uniform_image truncIpt sqrtQ (engine ResamplerType.LWM (1 / 2) 2 1 1000 (uniformTile 7))
    ⟨0, 0⟩ ⟨1 / 2, 1 / 2⟩ ⟨3 / 2, 1 / 2⟩ ⟨1 / 2, 3 / 2⟩ 7 0 (fun _ _ => rfl)
    (by norm_num [engine]) (by decide)

/-- C6 (counterexample). At the integer mapped coordinate `(2, 3)` `resampleBI` writes 0
both when the input pixel `(2, 3)` holds the null sentinel 255 and when it holds the
non-null value `-5`; in neither case is the pixel value written. -/
theorem C6_bilinear_not_exact_on_integer_coordinate :
    ((resampleBI (engine ResamplerType.BI (1 / 2) 2 1 255 (spotTile ⟨2, 3⟩ 255 10)) ⟨0, 0⟩
        (Ipt.toDpt ⟨2, 3⟩)).m_mapTile.val 0 0 0 = some 0 ∧
      (resampleBI (engine ResamplerType.BI (1 / 2) 2 1 255 (spotTile ⟨2, 3⟩ 255 10)) ⟨0, 0⟩
        (Ipt.toDpt ⟨2, 3⟩)).m_mapTile.val 0 0 0 ≠
        some ((spotTile ⟨2, 3⟩ 255 10).getPix ⟨2, 3⟩ 0)) ∧
    ((resampleBI (engine ResamplerType.BI (1 / 2) 2 1 255 (spotTile ⟨2, 3⟩ (-5) 10)) ⟨0, 0⟩
        (Ipt.toDpt ⟨2, 3⟩)).m_mapTile.val 0 0 0 = some 0 ∧
      (resampleBI (engine ResamplerType.BI (1 / 2) 2 1 255 (spotTile ⟨2, 3⟩ (-5) 10)) ⟨0, 0⟩
        (Ipt.toDpt ⟨2, 3⟩)).m_mapTile.val 0 0 0 ≠
        some ((spotTile ⟨2, 3⟩ (-5) 10).getPix ⟨2, 3⟩ 0)) := by
  have h1 : (resampleBI (engine ResamplerType.BI (1 / 2) 2 1 255 (spotTile ⟨2, 3⟩ 255 10)) ⟨0, 0⟩
      (Ipt.toDpt ⟨2, 3⟩)).m_mapTile.val 0 0 0 = some 0 := by
    rw [show ((0 : Int)) = (⟨0, 0⟩ : Ipt).u from rfl, resampleBI_val _ _ _ _ (by decide)]
    simp only [Ipt.toDpt, truncToInt_intCast, engine, spotTile, blendBI]
    norm_num
  have h2 : (resampleBI (engine ResamplerType.BI (1 / 2) 2 1 255 (spotTile ⟨2, 3⟩ (-5) 10))
      ⟨0, 0⟩ (Ipt.toDpt ⟨2, 3⟩)).m_mapTile.val 0 0 0 = some 0 := by
    rw [show ((0 : Int)) = (⟨0, 0⟩ : Ipt).u from rfl, resampleBI_val _ _ _ _ (by decide)]
    simp only [Ipt.toDpt, truncToInt_intCast, engine, spotTile, blendBI]
    norm_num
  refine ⟨⟨h1, ?_⟩, ⟨h2, ?_⟩⟩
  · rw [h1]
    simp [spotTile]
  · rw [h2]
    simp [spotTile]

/-- C6 (amended). For every input tile and every mapped coordinate whose `x` and `y` are
both integers, for every band of the engine: `resampleNN` writes exactly the input pixel
at that coordinate (the conversion to an integer point being exact on integer points);
`resampleBI` writes that pixel with the null sentinel replaced by 0 and a negative value
clamped to 0, hence exactly the pixel value when it is not the null sentinel and not
negative. -/
theorem C6_integer_coordinate (toIpt : Dpt → Ipt) (s : OrthoTileSource) (mapPt q : Ipt)
    (band : Nat) (hto : toIpt q.toDpt = q) (hb : band < s.m_numBands) :
    (resampleNN toIpt s mapPt q.toDpt).m_mapTile.val mapPt.u mapPt.v band =
      some (s.m_imageTile.getPix q band) ∧
    (resampleBI s mapPt q.toDpt).m_mapTile.val mapPt.u mapPt.v band =
      some (max (if s.m_imageTile.getPix q band = s.m_nullPix then 0
        else s.m_imageTile.getPix q band) 0) ∧
    (s.m_imageTile.getPix q band ≠ s.m_nullPix → 0 ≤ s.m_imageTile.getPix q band →
      (resampleBI s mapPt q.toDpt).m_mapTile.val mapPt.u mapPt.v band =
        some (s.m_imageTile.getPix q band)) := by
  have hBI : (resampleBI s mapPt q.toDpt).m_mapTile.val mapPt.u mapPt.v band =
      some (max (if s.m_imageTile.getPix q band = s.m_nullPix then 0
        else s.m_imageTile.getPix q band) 0) := by
    rw [resampleBI_val s mapPt q.toDpt band hb]
    simp only [Ipt.toDpt, truncToInt_intCast, blendBI, sub_self, sub_zero, one_mul, zero_mul,
      mul_zero, add_zero]
    split_ifs with h1 h2 h3
    · simp
    · simp
    · rw [max_eq_right (le_of_lt h3)]
    · rw [max_eq_left (not_lt.mp h3)]
  refine ⟨?_, hBI, ?_⟩
  · rw [resampleNN_val toIpt s mapPt q.toDpt band hb, hto]
  · intro hne hpos
    rw [hBI, if_neg hne, max_eq_left hpos]

/-- Witness of C6 (amended): pixel `(2, 3)` of the ramp tile, truncating conversion. -/
theorem C6_integer_coordinate_witness :
    (resampleNN truncIpt (engine ResamplerType.NN (1 / 2) 2 1 1000 rampTile) ⟨0, 0⟩
      (Ipt.toDpt ⟨2, 3⟩)).m_mapTile.val 0 0 0 = some (rampTile.getPix ⟨2, 3⟩ 0) ∧
    (resampleBI (engine ResamplerType.NN (1 / 2) 2 1 1000 rampTile) ⟨0, 0⟩
      (Ipt.toDpt ⟨2, 3⟩)).m_mapTile.val 0 0 0 =
      some (max (if rampTile.getPix ⟨2, 3⟩ 0 = 1000 then 0 else rampTile.getPix ⟨2, 3⟩ 0) 0) ∧
    (rampTile.getPix ⟨2, 3⟩ 0 ≠ 1000 → 0 ≤ rampTile.getPix ⟨2, 3⟩ 0 →
      (resampleBI (engine ResamplerType.NN (1 / 2) 2 1 1000 rampTile) ⟨0, 0⟩
        (Ipt.toDpt ⟨2, 3⟩)).m_mapTile.val 0 0 0 = some (rampTile.getPix ⟨2, 3⟩ 0)) :=
  C6_integer_coordinate truncIpt (engine ResamplerType.NN (1 / 2) 2 1 1000 rampTile) ⟨0, 0⟩
    ⟨2, 3⟩ 0 (by simp only [truncIpt, Ipt.toDpt, truncToInt_intCast]) (by decide)

/-! ## Scanline cache -/

/-- C3 (code defect). Identity transform, LWM, radius of influence 1/2, one band, input
pixel `(0, 0)` equal to 10 and every other input pixel 0 (null sentinel 1000), output
rectangle `(0,0)-(0,1)` (one column, two rows). At the output pixel `(0, 1)` the tile
produced by `getTile` holds 2, whereas resampling that pixel with center
`mapToImage(0,1)`, east `mapToImage(1,1)` and south `mapToImage(0,2)` recomputed
independently gives 0. The value 0 is also what `resample` gives when called in the
argument order of `getTile` (center, south, east) with the east point recomputed, so the
difference comes from the buffer entry `m_centerPts[1]`, which after the first row still
holds `mapToImage(1,0)`. -/
theorem C3_cache_differs_from_independent_resampling :
    (getTile truncIpt sqrtQ (engine ResamplerType.LWM (1 / 2) 2 1 1000 (spotTile ⟨0, 0⟩ 10 0))
      ⟨⟨0, 0⟩, ⟨0, 1⟩⟩).m_mapTile.val 0 1 0 = some 2 ∧
    independentValue truncIpt sqrtQ
      (loadFootprint truncIpt (engine ResamplerType.LWM (1 / 2) 2 1 1000 (spotTile ⟨0, 0⟩ 10 0))
        ⟨⟨0, 0⟩, ⟨0, 1⟩⟩) ⟨0, 1⟩ 0 = some 0 ∧
    (resample truncIpt sqrtQ
      (loadFootprint truncIpt (engine ResamplerType.LWM (1 / 2) 2 1 1000 (spotTile ⟨0, 0⟩ 10 0))
        ⟨⟨0, 0⟩, ⟨0, 1⟩⟩) ⟨0, 1⟩ (Ipt.toDpt ⟨0, 1⟩) (Ipt.toDpt ⟨0, 2⟩)
      (Ipt.toDpt ⟨1, 1⟩)).m_mapTile.val 0 1 0 = some 0 := by
  refine ⟨?_, ?_, ?_⟩
  · refine (getTile_val truncIpt sqrtQ
      (engine ResamplerType.LWM (1 / 2) 2 1 1000 (spotTile ⟨0, 0⟩ 10 0)) ⟨⟨0, 0⟩, ⟨0, 1⟩⟩
      (by decide) 0 1 0 (by decide) (by decide) (by decide)).trans ?_
    show (resample truncIpt sqrtQ _ ⟨0, 0⟩ _ _ _).m_mapTile.val (⟨0, 0⟩ : Ipt).u (⟨0, 0⟩ : Ipt).v 0
      = some 2
    rw [resample_val _ _ _ _ _ _ _ _ (by decide)]
    simp only [forUpTo, resampleBand, resampleKernel, engine, loadFootprint, loadImageTile,
      bufferedEast, mapToImage, Ipt.toDpt, truncIpt, truncToInt_intCast, computeLWM, halfWeight,
      maskNull_eq, fetchTaps, spotTile, Kernel.sum, weightedMean, Kernel.dot]
    norm_num [abs_of_nonneg, abs_of_nonpos]
  · show (resample truncIpt sqrtQ _ ⟨0, 1⟩ _ _ _).m_mapTile.val (⟨0, 1⟩ : Ipt).u (⟨0, 1⟩ : Ipt).v 0
      = some 0
    rw [resample_val _ _ _ _ _ _ _ _ (by decide)]
    simp only [forUpTo, resampleBand, resampleKernel, engine, loadFootprint, loadImageTile,
      mapToImage, Ipt.toDpt, truncIpt, truncToInt_intCast, computeLWM, halfWeight,
      maskNull_eq, fetchTaps, spotTile, Kernel.sum, weightedMean, Kernel.dot]
    norm_num [abs_of_nonneg, abs_of_nonpos]
  · show (resample truncIpt sqrtQ _ ⟨0, 1⟩ _ _ _).m_mapTile.val (⟨0, 1⟩ : Ipt).u (⟨0, 1⟩ : Ipt).v 0
      = some 0
    rw [resample_val _ _ _ _ _ _ _ _ (by decide)]
    simp only [forUpTo, resampleBand, resampleKernel, engine, loadFootprint, loadImageTile,
      mapToImage, Ipt.toDpt, truncIpt, truncToInt_intCast, computeLWM, halfWeight,
      maskNull_eq, fetchTaps, spotTile, Kernel.sum, weightedMean, Kernel.dot]
    norm_num [abs_of_nonneg, abs_of_nonpos]

/-! ## Footprint coverage -/

/-- C7 (counterexample). Identity transform, LWM, safety margin 2, output rectangle
`(0,0)-(0,0)`: `loadImageTile` requests the rectangle `(0,0)-(2,2)` (the upper-left corner
is clamped at 0), and while resampling the single output pixel `getTile` reads the input
position `(-1,-1)`, which lies outside that rectangle. -/
theorem C7_tap_outside_requested_rectangle :
    Event.getTile ⟨⟨0, 0⟩, ⟨2, 2⟩⟩ ∈
      (getTile truncIpt sqrtQ (engine ResamplerType.LWM (1 / 2) 2 1 1000 (uniformTile 7))
        ⟨⟨0, 0⟩, ⟨0, 0⟩⟩).trace ∧
    Event.getPix ⟨-1, -1⟩ 0 ∈
      (getTile truncIpt sqrtQ (engine ResamplerType.LWM (1 / 2) 2 1 1000 (uniformTile 7))
        ⟨⟨0, 0⟩, ⟨0, 0⟩⟩).trace ∧
    ¬ (⟨⟨0, 0⟩, ⟨2, 2⟩⟩ : Irect).contains ⟨-1, -1⟩ := by
  have hrect : imgTileRect 2 ⟨0, 0⟩ ⟨0, 0⟩ ⟨0, 0⟩ ⟨0, 0⟩ = ⟨⟨0, 0⟩, ⟨2, 2⟩⟩ := by decide
  refine ⟨?_, ?_, by decide⟩
  · simp only [getTile, loadFootprint, loadImageTile, engine, uniformTile, mapToImage,
      Ipt.toDpt, truncIpt, truncToInt_intCast, Irect.ur, Irect.ll, MapTile.makeBlank,
      MapTile.setImageRectangle, hrect]
    simp only [forUpTo, primeBody, rowBody, colBody, dispatch, resample, resampleBand,
      resampleKernel, computeLWM, mapToImage, Ipt.toDpt, truncIpt, truncToInt_intCast,
      tapPositions, Function.update_same]
    simp [Ipt.u, Ipt.v, truncToInt_zero, truncToInt_one]
  · simp only [getTile, loadFootprint, loadImageTile, engine, uniformTile, mapToImage,
      Ipt.toDpt, truncIpt, truncToInt_intCast, Irect.ur, Irect.ll, MapTile.makeBlank,
      MapTile.setImageRectangle, hrect]
    simp only [forUpTo, primeBody, rowBody, colBody, dispatch, resample, resampleBand,
      resampleKernel, computeLWM, mapToImage, Ipt.toDpt, truncIpt, truncToInt_intCast,
      tapPositions, Function.update_same]
    simp [Ipt.u, Ipt.v, truncToInt_zero, truncToInt_one]

/-- Footprint of a tile as wide as the margin plus one. Identity transform, BI, safety
margin 2, output rectangle `(5,5)-(7,5)`: `loadImageTile` requests the rectangle
`(3,3)-(7,7)` (the lower-right bound is the one set from the first corner, `5 + 2`; the
corner `7` is not greater, so its margin is not added), and while resampling the output
pixel `(7,5)` `getTile` reads the input position `(8,5)`, which lies outside that
rectangle. -/
theorem footprint_of_small_tile_misses_tap :
    Event.getTile ⟨⟨3, 3⟩, ⟨7, 7⟩⟩ ∈
      (getTile truncIpt sqrtQ (engine ResamplerType.BI (1 / 2) 2 1 1000 (uniformTile 7))
        ⟨⟨5, 5⟩, ⟨7, 5⟩⟩).trace ∧
    Event.getPix ⟨8, 5⟩ 0 ∈
      (getTile truncIpt sqrtQ (engine ResamplerType.BI (1 / 2) 2 1 1000 (uniformTile 7))
        ⟨⟨5, 5⟩, ⟨7, 5⟩⟩).trace ∧
    ¬ (⟨⟨3, 3⟩, ⟨7, 7⟩⟩ : Irect).contains ⟨8, 5⟩ := by
  have hrect : imgTileRect 2 ⟨5, 5⟩ ⟨7, 5⟩ ⟨7, 5⟩ ⟨5, 5⟩ = ⟨⟨3, 3⟩, ⟨7, 7⟩⟩ := by decide
  have t5 : truncToInt 5 = 5 := by simpa using truncToInt_intCast 5
  have t6 : truncToInt 6 = 6 := by simpa using truncToInt_intCast 6
  have t7 : truncToInt 7 = 7 := by simpa using truncToInt_intCast 7
  refine ⟨?_, ?_, by decide⟩
  · simp only [getTile, loadFootprint, loadImageTile, engine, uniformTile, mapToImage,
      Ipt.toDpt, truncIpt, truncToInt_intCast, Irect.ur, Irect.ll, MapTile.makeBlank,
      MapTile.setImageRectangle, hrect]
    simp only [forUpTo, primeBody, rowBody, colBody, dispatch, resampleBI, resampleBIBand,
      mapToImage, Ipt.toDpt, truncIpt, truncToInt_intCast, Function.update_same]
    simp [Ipt.u, Ipt.v, t5, t6, t7]
  · simp only [getTile, loadFootprint, loadImageTile, engine, uniformTile, mapToImage,
      Ipt.toDpt, truncIpt, truncToInt_intCast, Irect.ur, Irect.ll, MapTile.makeBlank,
      MapTile.setImageRectangle, hrect]
    simp only [forUpTo, primeBody, rowBody, colBody, dispatch, resampleBI, resampleBIBand,
      mapToImage, Ipt.toDpt, truncIpt, truncToInt_intCast, Function.update_same]
    simp [Ipt.u, Ipt.v, t5, t6, t7]

/-- C7 (amended). For every output rectangle, transform and resampler kind: after the four
corner mappings and the request of the footprint rectangle, every input position `getTile`
reads through `getPix` while it resamples the tile is, for some output pixel `(u, v)` of
the rectangle, the integer pixel of `mapToImage(u, v)` (NN), that pixel or its right,
lower or lower-right neighbour (BI), or one of the 3x3 pixels around it (LWM, DWM). It
lies inside the rectangle that `loadImageTile` computed from the four mapped corners and
the safety margin whenever the footprint is axis-aligned with every mapped output pixel
between the mapped upper-left and lower-right corners, the margin is at least the reach
of the resampler (0 for NN, 1 otherwise), the taps have non-negative coordinates, the
footprint is larger than the margin in both directions (not needed for NN), and the
lower-right corner plus the margin fits an `ossim_int32`. -/
theorem C7_footprint_covers_taps (toIpt : Dpt → Ipt) (sqrt : ℚ → ℚ) (s : OrthoTileSource)
    (mapRect : Irect) :
    ∃ l, (getTile toIpt sqrt s mapRect).trace =
        s.trace ++ ([Event.mapToImage mapRect.ul, Event.mapToImage mapRect.ur,
          Event.mapToImage mapRect.lr, Event.mapToImage mapRect.ll,
          Event.getTile (imgTileRect s.m_safetyMargin (toIpt (mapToImage s mapRect.ul))
            (toIpt (mapToImage s mapRect.ur)) (toIpt (mapToImage s mapRect.lr))
            (toIpt (mapToImage s mapRect.ll)))] ++ l) ∧
      ∀ p b, Event.getPix p b ∈ l →
        (∃ k j, k < (mapRect.lr.u + 1 - mapRect.ul.u).toNat ∧
          j < (mapRect.lr.v + 1 - mapRect.ul.v).toNat ∧
          NearTap toIpt s.m_resamplerType
            (mapToImage s ⟨mapRect.ul.u + k, mapRect.ul.v + j⟩) p) ∧
        (CoveredFootprint toIpt s mapRect →
          (imgTileRect s.m_safetyMargin (toIpt (mapToImage s mapRect.ul))
            (toIpt (mapToImage s mapRect.ur)) (toIpt (mapToImage s mapRect.lr))
            (toIpt (mapToImage s mapRect.ll))).contains p) := by
  obtain ⟨l, hl, hq⟩ := getTile_reads toIpt sqrt s mapRect
  refine ⟨l, hl, fun p b hp => ⟨hq p b hp, ?_⟩⟩
  intro hcov
  obtain ⟨k, j, hk, hj, hnear⟩ := hq p b hp
  obtain ⟨hUr, hLl, hbox, hm, hpx, hpy, hbig, hmx, hmy⟩ := hcov
  obtain ⟨b1, b2, b3, b4⟩ := hbox k j hk hj
  obtain ⟨r1, r2, r3, r4⟩ := nearTap_reach toIpt _ _ p hnear
  obtain ⟨o1, o2⟩ := tapReach_order s.m_resamplerType
  obtain ⟨c1, c2, c3, c4⟩ := imgTileRect_covers s.m_safetyMargin
    (toIpt (mapToImage s mapRect.ul)) (toIpt (mapToImage s mapRect.lr))
    (tapReachBefore s.m_resamplerType) (tapReachAfter s.m_resamplerType)
    o1 o2 hm hpx hpy (le_trans b1 b2) (le_trans b3 b4) hbig hmx hmy
  rw [hUr, hLl]
  unfold Irect.contains
  omega

/-- C7 (witness). Identity transform, LWM, safety margin 2, output rectangle
`(1,1)-(4,4)`: the conditions of the amended claim hold, `loadImageTile` requests the
rectangle `(0,0)-(6,6)`, and every input position read while the tile is resampled lies
inside it. -/
theorem C7_footprint_covers_taps_witness :
    CoveredFootprint truncIpt (engine ResamplerType.LWM (1 / 2) 2 1 1000 (uniformTile 7))
      ⟨⟨1, 1⟩, ⟨4, 4⟩⟩ ∧
    ∃ l, (getTile truncIpt sqrtQ (engine ResamplerType.LWM (1 / 2) 2 1 1000 (uniformTile 7))
        ⟨⟨1, 1⟩, ⟨4, 4⟩⟩).trace =
        [Event.mapToImage ⟨1, 1⟩, Event.mapToImage ⟨4, 1⟩, Event.mapToImage ⟨4, 4⟩,
          Event.mapToImage ⟨1, 4⟩, Event.getTile ⟨⟨0, 0⟩, ⟨6, 6⟩⟩] ++ l ∧
      ∀ p b, Event.getPix p b ∈ l → (⟨⟨0, 0⟩, ⟨6, 6⟩⟩ : Irect).contains p := by
  have hrect : imgTileRect 2 ⟨1, 1⟩ ⟨4, 1⟩ ⟨4, 4⟩ ⟨1, 4⟩ = ⟨⟨0, 0⟩, ⟨6, 6⟩⟩ := by decide
  have hcov : CoveredFootprint truncIpt
      (engine ResamplerType.LWM (1 / 2) 2 1 1000 (uniformTile 7)) ⟨⟨1, 1⟩, ⟨4, 4⟩⟩ := by
    simp only [CoveredFootprint, engine, mapToImage, Ipt.toDpt, truncIpt, truncToInt_intCast,
      Irect.ur, Irect.ll, basePixel, tapReachAfter, tapReachBefore, INT32_MAX]
    refine ⟨trivial, trivial, ?_, by decide, by decide, by decide, by decide, by decide,
      by decide⟩
    intro k j hk hj
    have hk4 : k < 4 := hk
    have hj4 : j < 4 := hj
    refine ⟨?_, ?_, ?_, ?_⟩ <;> (dsimp only [Ipt.u, Ipt.v]; omega)
  obtain ⟨l, hl, hq⟩ := C7_footprint_covers_taps truncIpt sqrtQ
    (engine ResamplerType.LWM (1 / 2) 2 1 1000 (uniformTile 7)) ⟨⟨1, 1⟩, ⟨4, 4⟩⟩
  refine ⟨hcov, l, ?_, fun p b hp => ?_⟩
  · rw [hl]
    simp only [engine, mapToImage, Ipt.toDpt, truncIpt, truncToInt_intCast, Irect.ur,
      Irect.ll, hrect, List.nil_append]
  · have h := (hq p b hp).2 hcov
    simp only [engine, mapToImage, Ipt.toDpt, truncIpt, truncToInt_intCast, Irect.ur,
      Irect.ll, hrect] at h
    exact h

/-! ## Footprint invariant and empty input -/

/-- C15. Footprint invariant: for every four corners and every safety margin the
upper-left corner of the rectangle `loadImageTile` requests has `x ≥ 0` and `y ≥ 0`. -/
theorem C15_upper_left_nonneg (m : Nat) (corner1 corner2 corner3 corner4 : Ipt) :
    0 ≤ (imgTileRect m corner1 corner2 corner3 corner4).ul.x ∧
    0 ≤ (imgTileRect m corner1 corner2 corner3 corner4).ul.y := by
  have key : ∀ z : Int, 0 ≤ (if z < 0 then 0 else z) := by
    intro z
    split_ifs <;> omega
  exact ⟨key _, key _⟩

/-- C13. Empty-input short-circuit: if the input tile fetched for the footprint of the map
rectangle has the status "empty", `getTile` returns the output tile blank (no value
stored) with that rectangle, and its only calls are the four corner mappings and the
request of the footprint rectangle: no further `mapToImage`, no `getPix`. -/
theorem C13_empty_input_short_circuit (toIpt : Dpt → Ipt) (sqrt : ℚ → ℚ) (s : OrthoTileSource)
    (mapRect : Irect)
    (hempty : (s.m_inputSource (footprintRect toIpt s mapRect)).status =
      DataObjectStatus.OSSIM_EMPTY) :
    (∀ x y b, (getTile toIpt sqrt s mapRect).m_mapTile.val x y b = none) ∧
    (getTile toIpt sqrt s mapRect).m_mapTile.rect = some mapRect ∧
    (getTile toIpt sqrt s mapRect).trace =
      s.trace ++ [Event.mapToImage mapRect.ul, Event.mapToImage mapRect.ur,
        Event.mapToImage mapRect.lr, Event.mapToImage mapRect.ll,
        Event.getTile (footprintRect toIpt s mapRect)] := by
  have hL : (loadFootprint toIpt s mapRect).m_imageTile.status =
      DataObjectStatus.OSSIM_EMPTY := hempty
  have hg : getTile toIpt sqrt s mapRect = loadFootprint toIpt s mapRect := by
    unfold getTile
    dsimp only
    rw [if_pos hL]
  rw [hg]
  refine ⟨fun _ _ _ => rfl, rfl, ?_⟩
  simp [loadFootprint, loadImageTile, footprintRect, mapToImage]

/-- Witness of C13: engine whose pixel source returns the empty tile. -/
theorem C13_empty_input_short_circuit_witness :
    (∀ x y b, (getTile truncIpt sqrtQ (engine ResamplerType.BI (1 / 2) 2 1 1000 emptyTile)
      ⟨⟨0, 0⟩, ⟨1, 1⟩⟩).m_mapTile.val x y b = none) ∧
    (getTile truncIpt sqrtQ (engine ResamplerType.BI (1 / 2) 2 1 1000 emptyTile)
      ⟨⟨0, 0⟩, ⟨1, 1⟩⟩).m_mapTile.rect = some ⟨⟨0, 0⟩, ⟨1, 1⟩⟩ ∧
    (getTile truncIpt sqrtQ (engine ResamplerType.BI (1 / 2) 2 1 1000 emptyTile)
      ⟨⟨0, 0⟩, ⟨1, 1⟩⟩).trace =
      (engine ResamplerType.BI (1 / 2) 2 1 1000 emptyTile).trace ++
        [Event.mapToImage (⟨⟨0, 0⟩, ⟨1, 1⟩⟩ : Irect).ul, Event.mapToImage (⟨⟨0, 0⟩, ⟨1, 1⟩⟩ : Irect).ur,
          Event.mapToImage (⟨⟨0, 0⟩, ⟨1, 1⟩⟩ : Irect).lr, Event.mapToImage (⟨⟨0, 0⟩, ⟨1, 1⟩⟩ : Irect).ll,
          Event.getTile (footprintRect truncIpt
            (engine ResamplerType.BI (1 / 2) 2 1 1000 emptyTile) ⟨⟨0, 0⟩, ⟨1, 1⟩⟩)] :=
  C13_empty_input_short_circuit truncIpt sqrtQ (engine ResamplerType.BI (1 / 2) 2 1 1000 emptyTile)
    ⟨⟨0, 0⟩, ⟨1, 1⟩⟩ rfl

/-! ## Nearest neighbour and bilinear interpolation -/

/-- C18. Bilinear formula: for every mapped point `P` and every band of the engine,
`resampleBI` writes `max(0, (1-dx)(1-dy)*UL + dx(1-dy)*UR + dx*dy*LR + (1-dx)*dy*LL)`, where
`UL` is the tap at the integer part of `P`, `UR`, `LL`, `LR` its right, lower and
lower-right neighbours, `dx`, `dy` the offsets of `P` from `UL`, and a tap equal to the
null sentinel counts as 0; the written value is never negative. -/
theorem C18_bilinear_formula (s : OrthoTileSource) (mapPt : Ipt) (P : Dpt) (band : Nat)
    (hb : band < s.m_numBands) :
    (resampleBI s mapPt P).m_mapTile.val mapPt.u mapPt.v band =
      some (max 0
        ((1 - (P.x - truncToInt P.x)) * (1 - (P.y - truncToInt P.y)) *
            nullToZero s.m_nullPix (s.m_imageTile.getPix ⟨truncToInt P.x, truncToInt P.y⟩ band) +
          (P.x - truncToInt P.x) * (1 - (P.y - truncToInt P.y)) *
            nullToZero s.m_nullPix
              (s.m_imageTile.getPix ⟨truncToInt P.x + 1, truncToInt P.y⟩ band) +
          (P.x - truncToInt P.x) * (P.y - truncToInt P.y) *
            nullToZero s.m_nullPix
              (s.m_imageTile.getPix ⟨truncToInt P.x + 1, truncToInt P.y + 1⟩ band) +
          (1 - (P.x - truncToInt P.x)) * (P.y - truncToInt P.y) *
            nullToZero s.m_nullPix
              (s.m_imageTile.getPix ⟨truncToInt P.x, truncToInt P.y + 1⟩ band))) ∧
    (∀ B, (resampleBI s mapPt P).m_mapTile.val mapPt.u mapPt.v band = some B → 0 ≤ B) := by
  have h := resampleBI_val s mapPt P band hb
  rw [blendBI_eq_max] at h
  refine ⟨h, ?_⟩
  intro B hB
  rw [h] at hB
  rw [← Option.some.inj hB]
  exact le_max_left _ _

/-- Witness of C18: one-band engine over the ramp tile, mapped point `(1/2, 1/2)`. -/
theorem C18_bilinear_formula_witness :
    ∃ B, (resampleBI (engine ResamplerType.BI (1 / 2) 2 1 1000 rampTile) ⟨0, 0⟩
      ⟨1 / 2, 1 / 2⟩).m_mapTile.val 0 0 0 = some B ∧ 0 ≤ B :=
  ⟨_, (C18_bilinear_formula (engine ResamplerType.BI (1 / 2) 2 1 1000 rampTile) ⟨0, 0⟩
      ⟨1 / 2, 1 / 2⟩ 0 (by decide)).1,
    (C18_bilinear_formula (engine ResamplerType.BI (1 / 2) 2 1 1000 rampTile) ⟨0, 0⟩
      ⟨1 / 2, 1 / 2⟩ 0 (by decide)).2 _
      (C18_bilinear_formula (engine ResamplerType.BI (1 / 2) 2 1 1000 rampTile) ⟨0, 0⟩
        ⟨1 / 2, 1 / 2⟩ 0 (by decide)).1⟩

/-- C19 (counterexample). For the mapped point `(-1/2, 0)` the C cast gives the upper-left
tap `(0, 0)`, so `dx = -1/2`, which is negative; the weights of the upper-left and
upper-right taps are `3/2` and `-1/2`, and over the tile with 10 at `(0, 0)` and 0 elsewhere
`resampleBI` writes 15. -/
theorem C19_negative_coordinate_offset :
    offsetBI (-1 / 2) = -1 / 2 ∧ ¬ (0 ≤ offsetBI (-1 / 2)) ∧
    (offsetBI (-1 / 2)) * (1 - offsetBI 0) = -1 / 2 ∧
    (resampleBI (engine ResamplerType.BI (1 / 2) 2 1 1000 (spotTile ⟨0, 0⟩ 10 0)) ⟨0, 0⟩
      ⟨-1 / 2, 0⟩).m_mapTile.val 0 0 0 = some 15 := by
  have h0 : offsetBI (-1 / 2) = -1 / 2 := by
    unfold offsetBI
    rw [truncToInt_neg_half]
    norm_num
  have h1 : offsetBI 0 = 0 := by
    unfold offsetBI
    rw [truncToInt_zero]
    norm_num
  refine ⟨h0, ?_, ?_, ?_⟩
  · rw [h0]
    norm_num
  · rw [h0, h1]
    norm_num
  · rw [show ((0 : Int)) = (⟨0, 0⟩ : Ipt).u from rfl, resampleBI_val _ _ _ _ (by decide)]
    simp only [engine, spotTile, truncToInt_neg_half, truncToInt_zero, blendBI]
    norm_num

/-- C19 (amended). For every mapped point `P` whose coordinates are not negative, the
offsets `dx = P.x - UL.x` and `dy = P.y - UL.y` that `resampleBI` blends with (the value
written is the blend for these offsets) satisfy `0 ≤ dx < 1` and `0 ≤ dy < 1`, so the four
blend weights are non-negative; for every mapped point, negative coordinates included, the
four weights sum to 1. -/
theorem C19_offsets_in_unit_interval (s : OrthoTileSource) (mapPt : Ipt) (P : Dpt) (band : Nat)
    (hb : band < s.m_numBands) (hx : 0 ≤ P.x) (hy : 0 ≤ P.y) :
    (resampleBI s mapPt P).m_mapTile.val mapPt.u mapPt.v band =
      some (blendBI s.m_nullPix (offsetBI P.x) (offsetBI P.y)
        (s.m_imageTile.getPix ⟨truncToInt P.x, truncToInt P.y⟩ band)
        (s.m_imageTile.getPix ⟨truncToInt P.x + 1, truncToInt P.y⟩ band)
        (s.m_imageTile.getPix ⟨truncToInt P.x, truncToInt P.y + 1⟩ band)
        (s.m_imageTile.getPix ⟨truncToInt P.x + 1, truncToInt P.y + 1⟩ band)) ∧
    (0 ≤ offsetBI P.x ∧ offsetBI P.x < 1) ∧ (0 ≤ offsetBI P.y ∧ offsetBI P.y < 1) ∧
    0 ≤ (1 - offsetBI P.x) * (1 - offsetBI P.y) ∧ 0 ≤ offsetBI P.x * (1 - offsetBI P.y) ∧
    0 ≤ offsetBI P.x * offsetBI P.y ∧ 0 ≤ (1 - offsetBI P.x) * offsetBI P.y ∧
    (∀ Q : Dpt, (1 - offsetBI Q.x) * (1 - offsetBI Q.y) + offsetBI Q.x * (1 - offsetBI Q.y) +
      offsetBI Q.x * offsetBI Q.y + (1 - offsetBI Q.x) * offsetBI Q.y = 1) := by
  obtain ⟨x0, x1⟩ := offsetBI_of_nonneg P.x hx
  obtain ⟨y0, y1⟩ := offsetBI_of_nonneg P.y hy
  refine ⟨resampleBI_val s mapPt P band hb, ⟨x0, x1⟩, ⟨y0, y1⟩, ?_, ?_, ?_, ?_, ?_⟩
  · exact mul_nonneg (by linarith) (by linarith)
  · exact mul_nonneg x0 (by linarith)
  · exact mul_nonneg x0 y0
  · exact mul_nonneg (by linarith) y0
  · intro Q
    ring

/-- Witness of C19 (amended): mapped point `(1/2, 1/2)` over the ramp tile. -/
theorem C19_offsets_in_unit_interval_witness :
    (0 ≤ offsetBI (1 / 2) ∧ offsetBI (1 / 2) < 1) ∧
    0 ≤ (1 - offsetBI (1 / 2)) * (1 - offsetBI (1 / 2)) :=
  ⟨(C19_offsets_in_unit_interval (engine ResamplerType.BI (1 / 2) 2 1 1000 rampTile) ⟨0, 0⟩
      ⟨1 / 2, 1 / 2⟩ 0 (by decide) (by norm_num) (by norm_num)).2.1,
    (C19_offsets_in_unit_interval (engine ResamplerType.BI (1 / 2) 2 1 1000 rampTile) ⟨0, 0⟩
      ⟨1 / 2, 1 / 2⟩ 0 (by decide) (by norm_num) (by norm_num)).2.2.2.1⟩

/-- C20. Nearest-neighbour copy: for every mapped point `P` and every band of the engine,
`resampleNN` writes exactly the input value stored at the pixel to which `P` converts,
without any filtering; with the conversion of the spec (both coordinates truncated to
integers) this is the pixel `(trunc P.x, trunc P.y)`, and an input pixel equal to the null
sentinel yields the null sentinel. -/
theorem C20_nearest_neighbour_copy (toIpt : Dpt → Ipt) (s : OrthoTileSource) (mapPt : Ipt)
    (P : Dpt) (band : Nat) (hb : band < s.m_numBands) :
    (resampleNN toIpt s mapPt P).m_mapTile.val mapPt.u mapPt.v band =
      some (s.m_imageTile.getPix (toIpt P) band) ∧
    (resampleNN truncIpt s mapPt P).m_mapTile.val mapPt.u mapPt.v band =
      some (s.m_imageTile.getPix ⟨truncToInt P.x, truncToInt P.y⟩ band) ∧
    (s.m_imageTile.getPix ⟨truncToInt P.x, truncToInt P.y⟩ band = s.m_nullPix →
      (resampleNN truncIpt s mapPt P).m_mapTile.val mapPt.u mapPt.v band = some s.m_nullPix) := by
  have h := resampleNN_val truncIpt s mapPt P band hb
  refine ⟨resampleNN_val toIpt s mapPt P band hb, h, ?_⟩
  intro hnull
  rw [h]
  exact congrArg some hnull

/-- Witness of C20: one-band engine over the tile that holds the null sentinel 1000 at
`(2, 3)`, mapped point `(5/2, 7/2)`. -/
theorem C20_nearest_neighbour_copy_witness :
    (resampleNN truncIpt (engine ResamplerType.NN (1 / 2) 2 1 1000 (spotTile ⟨2, 3⟩ 1000 7))
      ⟨0, 0⟩ ⟨5 / 2, 7 / 2⟩).m_mapTile.val 0 0 0 =
      some ((spotTile ⟨2, 3⟩ 1000 7).getPix ⟨truncToInt (5 / 2), truncToInt (7 / 2)⟩ 0) :=
  (C20_nearest_neighbour_copy truncIpt
    (engine ResamplerType.NN (1 / 2) 2 1 1000 (spotTile ⟨2, 3⟩ 1000 7)) ⟨0, 0⟩ ⟨5 / 2, 7 / 2⟩ 0
    (by decide)).2.1

/-! ## Number of mapper calls -/

/-- C11. Mapper call count: for every output rectangle of width `w ≥ 1` and height `h`
(`h ≥ 1`, and also the degenerate `h = 0`) whose input block is not empty, and for every
resampler kind, the log of `getTile` after the four corner mappings and the request of the
footprint rectangle, that is the priming loop and the row loop, records exactly
`(w + 1) * (h + 1)` calls of `mapToImage`. -/
theorem C11_mapper_call_count (toIpt : Dpt → Ipt) (sqrt : ℚ → ℚ) (s : OrthoTileSource)
    (mapRect : Irect) (hw : mapRect.ul.u ≤ mapRect.lr.u)
    (hfull : (s.m_inputSource (footprintRect toIpt s mapRect)).status ≠
      DataObjectStatus.OSSIM_EMPTY) :
    ∃ l, (getTile toIpt sqrt s mapRect).trace =
        s.trace ++ ([Event.mapToImage mapRect.ul, Event.mapToImage mapRect.ur,
          Event.mapToImage mapRect.lr, Event.mapToImage mapRect.ll,
          Event.getTile (footprintRect toIpt s mapRect)] ++ l) ∧
      mapCalls l =
        ((mapRect.lr.u + 1 - mapRect.ul.u).toNat + 1) *
          ((mapRect.lr.v + 1 - mapRect.ul.v).toNat + 1) := by
  have hL : (loadFootprint toIpt s mapRect).trace =
      s.trace ++ [Event.mapToImage mapRect.ul, Event.mapToImage mapRect.ur,
        Event.mapToImage mapRect.lr, Event.mapToImage mapRect.ll,
        Event.getTile (footprintRect toIpt s mapRect)] := by
    simp [loadFootprint, loadImageTile, footprintRect, mapToImage]
  have hE : ¬ (loadFootprint toIpt s mapRect).m_imageTile.status =
      DataObjectStatus.OSSIM_EMPTY := hfull
  have hp : (mapRect.lr.u + 1 + 1 - mapRect.ul.u).toNat =
      (mapRect.lr.u + 1 - mapRect.ul.u).toNat + 1 := by omega
  obtain ⟨l, hl, hc⟩ := mapCallsBetween_trans _ _
    (primeLoop_mapCalls mapRect.ul (loadFootprint toIpt s mapRect)
      ((mapRect.lr.u + 1 - mapRect.ul.u).toNat + 1))
    (rowLoop_mapCalls toIpt sqrt mapRect.ul (mapRect.lr.u + 1 - mapRect.ul.u).toNat
      (forUpTo (primeBody mapRect.ul) ((mapRect.lr.u + 1 - mapRect.ul.u).toNat + 1)
        (loadFootprint toIpt s mapRect))
      (mapRect.lr.v + 1 - mapRect.ul.v).toNat)
  refine ⟨l, ?_, ?_⟩
  · unfold getTile
    dsimp only
    rw [if_neg hE, hp, hl, hL, List.append_assoc]
  · rw [hc]
    ring

/-- Witness of C11: BI engine over a uniform tile, output rectangle `(0,0)-(1,1)`. -/
theorem C11_mapper_call_count_witness :
    ∃ l, (getTile truncIpt sqrtQ (engine ResamplerType.BI (1 / 2) 2 1 1000 (uniformTile 7))
        ⟨⟨0, 0⟩, ⟨1, 1⟩⟩).trace =
        (engine ResamplerType.BI (1 / 2) 2 1 1000 (uniformTile 7)).trace ++
          ([Event.mapToImage (⟨⟨0, 0⟩, ⟨1, 1⟩⟩ : Irect).ul,
            Event.mapToImage (⟨⟨0, 0⟩, ⟨1, 1⟩⟩ : Irect).ur,
            Event.mapToImage (⟨⟨0, 0⟩, ⟨1, 1⟩⟩ : Irect).lr,
            Event.mapToImage (⟨⟨0, 0⟩, ⟨1, 1⟩⟩ : Irect).ll,
            Event.getTile (footprintRect truncIpt
              (engine ResamplerType.BI (1 / 2) 2 1 1000 (uniformTile 7)) ⟨⟨0, 0⟩, ⟨1, 1⟩⟩)] ++ l) ∧
      mapCalls l = 9 :=
  C11_mapper_call_count truncIpt sqrtQ (engine ResamplerType.BI (1 / 2) 2 1 1000 (uniformTile 7))
    ⟨⟨0, 0⟩, ⟨1, 1⟩⟩ (by decide) (by decide)

/-! ## Kernel weights across bands -/

/-- C12 (code defect). LWM, radius of influence 1/2, two bands, null sentinel 1000; band 0
holds the null sentinel at the input pixel `(0, 0)` and 7 elsewhere, band 1 holds 7
everywhere; mapped point `(1/2, 1/2)` with east and south points one pixel away. None of
the nine taps of band 1 is null, and the nine weights computed from the half-weights sum
to 1, yet the normalising sum `W` that `resample` uses for band 1 is `3/4`: the weight of
tap `(0, 0)` was set to 0 while band 0 was processed and is not restored. -/
theorem C12_weight_sum_after_earlier_band :
    (∀ p, (twoBandTile (fun p => if p = ⟨0, 0⟩ then 1000 else 7) (fun _ => 7)).getPix p 1 ≠ 1000) ∧
    (resampleKernel truncIpt sqrtQ
      (engine ResamplerType.LWM (1 / 2) 2 2 1000
        (twoBandTile (fun p => if p = ⟨0, 0⟩ then 1000 else 7) (fun _ => 7)))
      ⟨1 / 2, 1 / 2⟩ ⟨3 / 2, 1 / 2⟩ ⟨1 / 2, 3 / 2⟩).m_kernel.sum = 1 ∧
    bandWeightSum truncIpt sqrtQ
      (engine ResamplerType.LWM (1 / 2) 2 2 1000
        (twoBandTile (fun p => if p = ⟨0, 0⟩ then 1000 else 7) (fun _ => 7)))
      ⟨0, 0⟩ ⟨1 / 2, 1 / 2⟩ ⟨3 / 2, 1 / 2⟩ ⟨1 / 2, 3 / 2⟩ 1 = 3 / 4 := by
  refine ⟨?_, ?_, ?_⟩
  · intro p
    norm_num [twoBandTile]
  · simp only [resampleKernel, engine, truncIpt, truncToInt_half, computeLWM, halfWeight,
      Kernel.sum]
    norm_num [abs_of_nonneg, abs_of_nonpos]
  · simp only [bandWeightSum, forUpTo, resampleBand, resampleKernel, engine, truncIpt,
      truncToInt_half, computeLWM, halfWeight, maskNull_eq, fetchTaps, twoBandTile, Kernel.sum]
    norm_num [abs_of_nonneg, abs_of_nonpos]

/-- C16 (code defect). LWM, radius of influence 1/2, two bands, null sentinel 1000, mapped
point `(1/2, 1/2)` with east and south points one pixel away. Two input tiles that agree
in band 1 (value `x + 2 y` at `(x, y)`, no null) and differ in band 0 only (null sentinel
at `(0, 0)` in the first, 7 everywhere in the second): for band 1 `resample` writes 2 over
the first tile and `3/2` over the second, whereas the weighted mean over the taps that are
non-null in band 1 is `3/2` for both. -/
theorem C16_band_value_depends_on_earlier_band :
    (resample truncIpt sqrtQ
      (engine ResamplerType.LWM (1 / 2) 2 2 1000
        (twoBandTile (fun p => if p = ⟨0, 0⟩ then 1000 else 7) (fun p => (p.x : ℚ) + 2 * p.y)))
      ⟨0, 0⟩ ⟨1 / 2, 1 / 2⟩ ⟨3 / 2, 1 / 2⟩ ⟨1 / 2, 3 / 2⟩).m_mapTile.val 0 0 1 = some 2 ∧
    (resample truncIpt sqrtQ
      (engine ResamplerType.LWM (1 / 2) 2 2 1000
        (twoBandTile (fun _ => 7) (fun p => (p.x : ℚ) + 2 * p.y)))
      ⟨0, 0⟩ ⟨1 / 2, 1 / 2⟩ ⟨3 / 2, 1 / 2⟩ ⟨1 / 2, 3 / 2⟩).m_mapTile.val 0 0 1 = some (3 / 2) ∧
    perBandValue truncIpt sqrtQ
      (engine ResamplerType.LWM (1 / 2) 2 2 1000
        (twoBandTile (fun p => if p = ⟨0, 0⟩ then 1000 else 7) (fun p => (p.x : ℚ) + 2 * p.y)))
      ⟨1 / 2, 1 / 2⟩ ⟨3 / 2, 1 / 2⟩ ⟨1 / 2, 3 / 2⟩ 1 = 3 / 2 := by
  refine ⟨?_, ?_, ?_⟩
  · rw [show ((0 : Int)) = (⟨0, 0⟩ : Ipt).u from rfl, resample_val _ _ _ _ _ _ _ _ (by decide)]
    simp only [forUpTo, resampleBand, resampleKernel, engine, truncIpt, truncToInt_half,
      computeLWM, halfWeight, maskNull_eq, fetchTaps, twoBandTile, Kernel.sum, weightedMean,
      Kernel.dot]
    norm_num [abs_of_nonneg, abs_of_nonpos]
  · rw [show ((0 : Int)) = (⟨0, 0⟩ : Ipt).u from rfl, resample_val _ _ _ _ _ _ _ _ (by decide)]
    simp only [forUpTo, resampleBand, resampleKernel, engine, truncIpt, truncToInt_half,
      computeLWM, halfWeight, maskNull_eq, fetchTaps, twoBandTile, Kernel.sum, weightedMean,
      Kernel.dot]
    norm_num [abs_of_nonneg, abs_of_nonpos]
  · simp only [perBandValue, resampleKernel, engine, truncIpt, truncToInt_half,
      computeLWM, halfWeight, maskNull_eq, fetchTaps, twoBandTile, Kernel.sum, weightedMean,
      Kernel.dot]
    norm_num [abs_of_nonneg, abs_of_nonpos]

/-! ## Binding of the east and south points -/

/-- C17 (code defect). Transform `(u, v) ↦ (2u, v)`, LWM, radius of influence 1/2, one
band, input pixel `(11, 5)` equal to 10 and every other input pixel 0 (null sentinel 1000),
output rectangle `(5,5)-(5,5)`. The images of the map pixels `(5,5)`, `(6,5)`, `(5,6)` are
`(10,5)`, `(12,5)`, `(10,6)`. `getTile` writes 0 at the output pixel, which is what
`resample` gives when its parameter `E` receives the image of `(5,6)` and `S` the image of
`(6,5)`; with `E` the image of `(6,5)` and `S` the image of `(5,6)`, as the parameters are
declared, `resample` gives 2. -/
theorem C17_east_and_south_swapped :
    (mapToImage (stretchEngine (spotTile ⟨11, 5⟩ 10 0)) ⟨5, 5⟩ = Ipt.toDpt ⟨10, 5⟩ ∧
      mapToImage (stretchEngine (spotTile ⟨11, 5⟩ 10 0)) ⟨6, 5⟩ = Ipt.toDpt ⟨12, 5⟩ ∧
      mapToImage (stretchEngine (spotTile ⟨11, 5⟩ 10 0)) ⟨5, 6⟩ = Ipt.toDpt ⟨10, 6⟩) ∧
    (getTile truncIpt sqrtQ (stretchEngine (spotTile ⟨11, 5⟩ 10 0))
      ⟨⟨5, 5⟩, ⟨5, 5⟩⟩).m_mapTile.val 5 5 0 = some 0 ∧
    (resample truncIpt sqrtQ
      (loadFootprint truncIpt (stretchEngine (spotTile ⟨11, 5⟩ 10 0)) ⟨⟨5, 5⟩, ⟨5, 5⟩⟩) ⟨5, 5⟩
      (Ipt.toDpt ⟨10, 5⟩) (Ipt.toDpt ⟨10, 6⟩) (Ipt.toDpt ⟨12, 5⟩)).m_mapTile.val 5 5 0 = some 0 ∧
    (resample truncIpt sqrtQ
      (loadFootprint truncIpt (stretchEngine (spotTile ⟨11, 5⟩ 10 0)) ⟨⟨5, 5⟩, ⟨5, 5⟩⟩) ⟨5, 5⟩
      (Ipt.toDpt ⟨10, 5⟩) (Ipt.toDpt ⟨12, 5⟩) (Ipt.toDpt ⟨10, 6⟩)).m_mapTile.val 5 5 0 = some 2 := by
  have h1 : mapToImage (stretchEngine (spotTile ⟨11, 5⟩ 10 0)) ⟨5, 5⟩ = Ipt.toDpt ⟨10, 5⟩ := by
    simp only [mapToImage, stretchEngine, engine, Ipt.toDpt]
    norm_num
  have h2 : mapToImage (stretchEngine (spotTile ⟨11, 5⟩ 10 0)) ⟨6, 5⟩ = Ipt.toDpt ⟨12, 5⟩ := by
    simp only [mapToImage, stretchEngine, engine, Ipt.toDpt]
    norm_num
  have h3 : mapToImage (stretchEngine (spotTile ⟨11, 5⟩ 10 0)) ⟨5, 6⟩ = Ipt.toDpt ⟨10, 6⟩ := by
    simp only [mapToImage, stretchEngine, engine, Ipt.toDpt]
    norm_num
  have hswapped : (resample truncIpt sqrtQ
      (loadFootprint truncIpt (stretchEngine (spotTile ⟨11, 5⟩ 10 0)) ⟨⟨5, 5⟩, ⟨5, 5⟩⟩) ⟨5, 5⟩
      (Ipt.toDpt ⟨10, 5⟩) (Ipt.toDpt ⟨10, 6⟩) (Ipt.toDpt ⟨12, 5⟩)).m_mapTile.val
      (⟨5, 5⟩ : Ipt).u (⟨5, 5⟩ : Ipt).v 0 = some 0 := by
    rw [resample_val _ _ _ _ _ _ _ _ (by decide)]
    simp only [forUpTo, resampleBand, resampleKernel, stretchEngine, engine, loadFootprint,
      loadImageTile, Ipt.toDpt, truncIpt, truncToInt_intCast, computeLWM, halfWeight,
      maskNull_eq, fetchTaps, spotTile, Kernel.sum, weightedMean, Kernel.dot]
    norm_num [abs_of_nonneg, abs_of_nonpos]
  refine ⟨⟨h1, h2, h3⟩, ?_, hswapped, ?_⟩
  · refine (getTile_val truncIpt sqrtQ (stretchEngine (spotTile ⟨11, 5⟩ 10 0)) ⟨⟨5, 5⟩, ⟨5, 5⟩⟩
      (by decide) 0 0 0 (by decide) (by decide) (by decide)).trans ?_
    rw [writtenValue_of_LWM _ _ _ _ _ _ _ rfl]
    have e1 : mapToImage (stretchEngine (spotTile ⟨11, 5⟩ 10 0))
        ⟨(⟨⟨5, 5⟩, ⟨5, 5⟩⟩ : Irect).ul.u + ((0 : Nat) : Int),
          (⟨⟨5, 5⟩, ⟨5, 5⟩⟩ : Irect).ul.v + ((0 : Nat) : Int)⟩ = Ipt.toDpt ⟨10, 5⟩ := h1
    have e2 : mapToImage (stretchEngine (spotTile ⟨11, 5⟩ 10 0))
        ⟨(⟨⟨5, 5⟩, ⟨5, 5⟩⟩ : Irect).ul.u + ((0 : Nat) : Int),
          (⟨⟨5, 5⟩, ⟨5, 5⟩⟩ : Irect).ul.v + ((0 : Nat) : Int) + 1⟩ = Ipt.toDpt ⟨10, 6⟩ := h3
    have e3 : bufferedEast (stretchEngine (spotTile ⟨11, 5⟩ 10 0)) (⟨⟨5, 5⟩, ⟨5, 5⟩⟩ : Irect).ul
        ((⟨⟨5, 5⟩, ⟨5, 5⟩⟩ : Irect).lr.u + 1 - (⟨⟨5, 5⟩, ⟨5, 5⟩⟩ : Irect).ul.u).toNat 0 0 =
        Ipt.toDpt ⟨12, 5⟩ := by
      unfold bufferedEast
      rw [if_pos (Or.inr rfl)]
      exact h2
    rw [e1, e2, e3]
    exact (resample_val_congr truncIpt sqrtQ _ _ (sameConfig_refl _) ⟨5, 5⟩ ⟨0, 0⟩ _ _ _ 0
      (by decide)).trans hswapped
  · rw [show ((5 : Int)) = (⟨5, 5⟩ : Ipt).u from rfl, resample_val _ _ _ _ _ _ _ _ (by decide)]
    simp only [forUpTo, resampleBand, resampleKernel, stretchEngine, engine, loadFootprint,
      loadImageTile, Ipt.toDpt, truncIpt, truncToInt_intCast, computeLWM, halfWeight,
      maskNull_eq, fetchTaps, spotTile, Kernel.sum, weightedMean, Kernel.dot]
    norm_num [abs_of_nonneg, abs_of_nonpos]

/-! ## End-to-end scenario -/

/-- C14. End-to-end scenario: single-band 4x4 input whose 16 pixels are all 100 (null
sentinel `-1`), identity transform, bilinear resampler, output rectangle `(0,0)-(1,1)`:
the four output values `getTile` produces are all exactly 100. -/
theorem C14_end_to_end_bilinear :
    (getTile truncIpt sqrtQ scenarioEngine ⟨⟨0, 0⟩, ⟨1, 1⟩⟩).m_mapTile.val 0 0 0 = some 100 ∧
    (getTile truncIpt sqrtQ scenarioEngine ⟨⟨0, 0⟩, ⟨1, 1⟩⟩).m_mapTile.val 1 0 0 = some 100 ∧
    (getTile truncIpt sqrtQ scenarioEngine ⟨⟨0, 0⟩, ⟨1, 1⟩⟩).m_mapTile.val 0 1 0 = some 100 ∧
    (getTile truncIpt sqrtQ scenarioEngine ⟨⟨0, 0⟩, ⟨1, 1⟩⟩).m_mapTile.val 1 1 0 = some 100 := by
  have hrect : imgTileRect 2 ⟨0, 0⟩ ⟨1, 0⟩ ⟨1, 1⟩ ⟨0, 1⟩ = ⟨⟨0, 0⟩, ⟨2, 2⟩⟩ := by decide
  have key : ∀ k j : Nat, k < 2 → j < 2 →
      (getTile truncIpt sqrtQ scenarioEngine ⟨⟨0, 0⟩, ⟨1, 1⟩⟩).m_mapTile.val
        ((⟨⟨0, 0⟩, ⟨1, 1⟩⟩ : Irect).ul.u + k) ((⟨⟨0, 0⟩, ⟨1, 1⟩⟩ : Irect).ul.v + j) 0 = some 100 := by
    intro k j hk hj
    rw [getTile_val truncIpt sqrtQ scenarioEngine ⟨⟨0, 0⟩, ⟨1, 1⟩⟩ (by decide) k j 0 hk hj
      (by decide), writtenValue_of_BI _ _ _ _ _ _ _ rfl]
    rw [show ((0 : Int)) = (⟨0, 0⟩ : Ipt).u from rfl, resampleBI_val _ _ _ _ (by decide)]
    simp only [mapToImage, scenarioEngine, engine, loadFootprint, loadImageTile, clippedSource,
      Ipt.toDpt, truncIpt, truncToInt_intCast, Irect.ur, Irect.ll, SAFETY_MARGIN_DEFAULT, hrect,
      blendBI, Irect.contains]
    have hk2 : k = 0 ∨ k = 1 := by omega
    have hj2 : j = 0 ∨ j = 1 := by omega
    rcases hk2 with rfl | rfl <;> rcases hj2 with rfl | rfl <;> norm_num
  exact ⟨key 0 0 (by decide) (by decide), key 1 0 (by decide) (by decide),
    key 0 1 (by decide) (by decide), key 1 1 (by decide) (by decide)⟩

/-! ## Kernel buffer -/

/-- C22. The scratch buffer carries no state across calls: for every two contents `k1`,
`k2` of `m_kernel` before the call, `resample` (LWM or DWM) called with the same mapped
points on an engine with the same radius, input tile and band count ends in the same state,
in particular with the same output values. -/
theorem C22_kernel_buffer_is_scratch (toIpt : Dpt → Ipt) (sqrt : ℚ → ℚ) (s : OrthoTileSource)
    (mapPt : Ipt) (P E S : Dpt) (k1 k2 : Kernel) :
    resample toIpt sqrt { s with m_kernel := k1 } mapPt P E S =
      resample toIpt sqrt { s with m_kernel := k2 } mapPt P E S := by
  have h : resampleKernel toIpt sqrt { s with m_kernel := k1 } P E S =
      resampleKernel toIpt sqrt { s with m_kernel := k2 } P E S := by
    simp only [resampleKernel, computeLWM, computeDWM]
  unfold resample
  dsimp only
  rw [h]

/-- C25. Zero-weight taps: for all half-weights, the weight `computeLWM` assigns to the tap
`(i, j)` is 0 if and only if `dx_i = 0` or `dy_j = 0`, whereas the weight `computeDWM`
assigns (the square root being non-negative and zero only at zero) is 0 if and only if
`dx_i = 0` and `dy_j = 0`; so under DWM a tap with `dx_i = 0` and `dy_j ≠ 0`, or the other
way round, receives a positive weight. -/
theorem C25_zero_weight_taps (sqrt : ℚ → ℚ) (s : OrthoTileSource) (dx dy : Fin 3 → ℚ)
    (i j : Fin 3) (hsqrt : ∀ x, 0 ≤ sqrt x) (hzero : ∀ x, 0 ≤ x → (sqrt x = 0 ↔ x = 0)) :
    ((computeLWM s (dx 0) (dx 1) (dx 2) (dy 0) (dy 1) (dy 2)).m_kernel.entry i j = 0 ↔
      dx i = 0 ∨ dy j = 0) ∧
    ((computeDWM sqrt s (dx 0) (dx 1) (dx 2) (dy 0) (dy 1) (dy 2)).m_kernel.entry i j = 0 ↔
      dx i = 0 ∧ dy j = 0) ∧
    (dx i ≠ 0 ∨ dy j ≠ 0 →
      0 < (computeDWM sqrt s (dx 0) (dx 1) (dx 2) (dy 0) (dy 1) (dy 2)).m_kernel.entry i j) := by
  have hL : (computeLWM s (dx 0) (dx 1) (dx 2) (dy 0) (dy 1) (dy 2)).m_kernel.entry i j =
      dx i * dy j := by
    fin_cases i <;> fin_cases j <;> rfl
  have hD : (computeDWM sqrt s (dx 0) (dx 1) (dx 2) (dy 0) (dy 1) (dy 2)).m_kernel.entry i j =
      sqrt (dx i * dx i + dy j * dy j) := by
    fin_cases i <;> fin_cases j <;> rfl
  have hsq : dx i * dx i + dy j * dy j = 0 ↔ dx i = 0 ∧ dy j = 0 := by
    constructor
    · intro h
      have h1 := mul_self_nonneg (dx i)
      have h2 := mul_self_nonneg (dy j)
      exact ⟨mul_self_eq_zero.mp (by linarith), mul_self_eq_zero.mp (by linarith)⟩
    · rintro ⟨h1, h2⟩
      rw [h1, h2]
      ring
  have hnn : 0 ≤ dx i * dx i + dy j * dy j :=
    add_nonneg (mul_self_nonneg _) (mul_self_nonneg _)
  have hDz : sqrt (dx i * dx i + dy j * dy j) = 0 ↔ dx i = 0 ∧ dy j = 0 :=
    (hzero _ hnn).trans hsq
  refine ⟨?_, ?_, ?_⟩
  · rw [hL]
    exact mul_eq_zero
  · rw [hD]
    exact hDz
  · intro hne
    rw [hD]
    refine lt_of_le_of_ne (hsqrt _) (fun h => ?_)
    obtain ⟨h1, h2⟩ := hDz.mp h.symm
    rcases hne with h3 | h3
    · exact h3 h1
    · exact h3 h2

/-- Witness of C25: half-weights `dx = (0, 1/2, 1/2)`, `dy = (0, 1/2, 1/2)`, tap `(0, 1)`,
which is out of influence along `x` only. -/
theorem C25_zero_weight_taps_witness :
    ((computeLWM (engine ResamplerType.LWM (1 / 2) 2 1 1000 (uniformTile 7))
        0 (1 / 2) (1 / 2) 0 (1 / 2) (1 / 2)).m_kernel.entry 0 1 = 0 ↔
      (0 : ℚ) = 0 ∨ (1 / 2 : ℚ) = 0) ∧
    ((computeDWM sqrtQ (engine ResamplerType.LWM (1 / 2) 2 1 1000 (uniformTile 7))
        0 (1 / 2) (1 / 2) 0 (1 / 2) (1 / 2)).m_kernel.entry 0 1 = 0 ↔
      (0 : ℚ) = 0 ∧ (1 / 2 : ℚ) = 0) ∧
    ((0 : ℚ) ≠ 0 ∨ (1 / 2 : ℚ) ≠ 0 →
      0 < (computeDWM sqrtQ (engine ResamplerType.LWM (1 / 2) 2 1 1000 (uniformTile 7))
        0 (1 / 2) (1 / 2) 0 (1 / 2) (1 / 2)).m_kernel.entry 0 1) :=
  C25_zero_weight_taps sqrtQ (engine ResamplerType.LWM (1 / 2) 2 1 1000 (uniformTile 7))
    ![0, 1 / 2, 1 / 2] ![0, 1 / 2, 1 / 2] 0 1 sqrtQ_nonneg sqrtQ_eq_zero_iff

/-! ## Scanline buffers: indices and centre points -/

/-- C24. Buffer index safety: for every output rectangle whose width is at most the tile
size `T` used to allocate the buffers (`m_centerPts` of length `T + 1`, `m_southPts` of
length `T`), every index `getTile` uses into `m_centerPts` is `≤ T` and every index it uses
into `m_southPts` is `< T`, in the priming loop and in the row loop. -/
theorem C24_buffer_index_safety (toIpt : Dpt → Ipt) (sqrt : ℚ → ℚ) (s : OrthoTileSource)
    (mapRect : Irect) (T : Nat) (hT : (mapRect.lr.u + 1 - mapRect.ul.u).toNat ≤ T) :
    ∃ l, (getTile toIpt sqrt s mapRect).trace =
        s.trace ++ ([Event.mapToImage mapRect.ul, Event.mapToImage mapRect.ur,
          Event.mapToImage mapRect.lr, Event.mapToImage mapRect.ll,
          Event.getTile (footprintRect toIpt s mapRect)] ++ l) ∧
      (∀ i, Event.centerPts i ∈ l → i ≤ T) ∧ (∀ i, Event.southPts i ∈ l → i < T) := by
  obtain ⟨l, hl, hq⟩ := getTile_index toIpt sqrt s mapRect
  refine ⟨l, hl, ?_, ?_⟩
  · intro i hi
    exact le_trans (hq _ hi) hT
  · intro i hi
    exact lt_of_lt_of_le (hq _ hi) hT

/-- Witness of C24: LWM engine, output rectangle `(0,0)-(1,1)`, buffers allocated for the
tile size 32. -/
theorem C24_buffer_index_safety_witness :
    ∃ l, (getTile truncIpt sqrtQ (engine ResamplerType.LWM (1 / 2) 2 1 1000 (uniformTile 7))
        ⟨⟨0, 0⟩, ⟨1, 1⟩⟩).trace =
        (engine ResamplerType.LWM (1 / 2) 2 1 1000 (uniformTile 7)).trace ++
          ([Event.mapToImage (⟨⟨0, 0⟩, ⟨1, 1⟩⟩ : Irect).ul,
            Event.mapToImage (⟨⟨0, 0⟩, ⟨1, 1⟩⟩ : Irect).ur,
            Event.mapToImage (⟨⟨0, 0⟩, ⟨1, 1⟩⟩ : Irect).lr,
            Event.mapToImage (⟨⟨0, 0⟩, ⟨1, 1⟩⟩ : Irect).ll,
            Event.getTile (footprintRect truncIpt
              (engine ResamplerType.LWM (1 / 2) 2 1 1000 (uniformTile 7)) ⟨⟨0, 0⟩, ⟨1, 1⟩⟩)] ++ l) ∧
      (∀ i, Event.centerPts i ∈ l → i ≤ 32) ∧ (∀ i, Event.southPts i ∈ l → i < 32) :=
  C24_buffer_index_safety truncIpt sqrtQ
    (engine ResamplerType.LWM (1 / 2) 2 1 1000 (uniformTile 7)) ⟨⟨0, 0⟩, ⟨1, 1⟩⟩ 32 (by decide)

/-- C23. For every transform, input tile and output rectangle with a non-empty input block,
and for every output pixel in column `k` and row `j` of the rectangle: the entry
`m_centerPts[k]` that `getTile` reads when it reaches that pixel (after `j` rows and `k`
columns of the row) is the image `mapToImage(u, v)` of the pixel, and under NN and under BI
the value written at `(u, v)` is the value `resampleNN`, respectively `resampleBI`, writes
when applied directly to `mapToImage(u, v)`. -/
theorem C23_center_point_from_cache (toIpt : Dpt → Ipt) (sqrt : ℚ → ℚ) (s : OrthoTileSource)
    (mapRect : Irect)
    (hfull : (loadFootprint toIpt s mapRect).m_imageTile.status ≠ DataObjectStatus.OSSIM_EMPTY)
    (k j band : Nat) (hk : k < (mapRect.lr.u + 1 - mapRect.ul.u).toNat)
    (hj : j < (mapRect.lr.v + 1 - mapRect.ul.v).toNat) (hb : band < s.m_numBands) :
    (forUpTo (colBody toIpt sqrt mapRect.ul (mapRect.ul.v + j)) k
      (forUpTo (rowBody toIpt sqrt mapRect.ul (mapRect.lr.u + 1 - mapRect.ul.u).toNat) j
        (forUpTo (primeBody mapRect.ul) (mapRect.lr.u + 1 + 1 - mapRect.ul.u).toNat
          (loadFootprint toIpt s mapRect)))).m_centerPts k =
      mapToImage s ⟨mapRect.ul.u + k, mapRect.ul.v + j⟩ ∧
    (s.m_resamplerType = ResamplerType.NN →
      (getTile toIpt sqrt s mapRect).m_mapTile.val (mapRect.ul.u + k) (mapRect.ul.v + j) band =
        (resampleNN toIpt (loadFootprint toIpt s mapRect) ⟨mapRect.ul.u + k, mapRect.ul.v + j⟩
          (mapToImage s ⟨mapRect.ul.u + k, mapRect.ul.v + j⟩)).m_mapTile.val
          (mapRect.ul.u + k) (mapRect.ul.v + j) band) ∧
    (s.m_resamplerType = ResamplerType.BI →
      (getTile toIpt sqrt s mapRect).m_mapTile.val (mapRect.ul.u + k) (mapRect.ul.v + j) band =
        (resampleBI (loadFootprint toIpt s mapRect) ⟨mapRect.ul.u + k, mapRect.ul.v + j⟩
          (mapToImage s ⟨mapRect.ul.u + k, mapRect.ul.v + j⟩)).m_mapTile.val
          (mapRect.ul.u + k) (mapRect.ul.v + j) band) := by
  have hw : (mapRect.lr.u + 1 + 1 - mapRect.ul.u).toNat =
      (mapRect.lr.u + 1 - mapRect.ul.u).toNat + 1 := by omega
  refine ⟨?_, ?_, ?_⟩
  · obtain ⟨pc, pcen, _⟩ := primeLoop_spec mapRect.ul (loadFootprint toIpt s mapRect)
      ((mapRect.lr.u + 1 - mapRect.ul.u).toNat + 1)
    obtain ⟨_, rcen, _⟩ := rowLoop_spec toIpt sqrt mapRect.ul
      (mapRect.lr.u + 1 - mapRect.ul.u).toNat
      (forUpTo (primeBody mapRect.ul) ((mapRect.lr.u + 1 - mapRect.ul.u).toNat + 1)
        (loadFootprint toIpt s mapRect)) j
    obtain ⟨_, ccen, _⟩ := colLoop_spec toIpt sqrt mapRect.ul (mapRect.ul.v + j)
      (forUpTo (rowBody toIpt sqrt mapRect.ul (mapRect.lr.u + 1 - mapRect.ul.u).toNat) j
        (forUpTo (primeBody mapRect.ul) ((mapRect.lr.u + 1 - mapRect.ul.u).toNat + 1)
          (loadFootprint toIpt s mapRect))) k
    have hsp : ∀ p, mapToImage (forUpTo (primeBody mapRect.ul)
        ((mapRect.lr.u + 1 - mapRect.ul.u).toNat + 1) (loadFootprint toIpt s mapRect)) p =
        mapToImage s p := fun p => sameConfig_mapToImage pc p
    rw [hw, ccen]
    simp only [lt_irrefl, if_false]
    rw [rcen, pcen]
    exact rowCenters_primed_center s _ hsp mapRect.ul _ k j _ hk
  · intro hkind
    rw [getTile_val toIpt sqrt s mapRect hfull k j band hk hj hb,
      writtenValue_of_NN toIpt sqrt (loadFootprint toIpt s mapRect) _ _ _ _ hkind]
    exact resampleNN_val_congr toIpt _ _ (sameConfig_refl _) _ ⟨0, 0⟩ _ band hb
  · intro hkind
    rw [getTile_val toIpt sqrt s mapRect hfull k j band hk hj hb,
      writtenValue_of_BI toIpt sqrt (loadFootprint toIpt s mapRect) _ _ _ _ hkind]
    exact resampleBI_val_congr _ _ (sameConfig_refl _) _ ⟨0, 0⟩ _ band hb

/-- Witness of C23: NN engine over the ramp tile, output rectangle `(0,0)-(1,1)`, pixel in
column 1 and row 1. -/
theorem C23_center_point_from_cache_witness :
    (forUpTo (colBody truncIpt sqrtQ (⟨⟨0, 0⟩, ⟨1, 1⟩⟩ : Irect).ul
        ((⟨⟨0, 0⟩, ⟨1, 1⟩⟩ : Irect).ul.v + ((1 : Nat) : Int))) 1
      (forUpTo (rowBody truncIpt sqrtQ (⟨⟨0, 0⟩, ⟨1, 1⟩⟩ : Irect).ul
          ((⟨⟨0, 0⟩, ⟨1, 1⟩⟩ : Irect).lr.u + 1 - (⟨⟨0, 0⟩, ⟨1, 1⟩⟩ : Irect).ul.u).toNat) 1
        (forUpTo (primeBody (⟨⟨0, 0⟩, ⟨1, 1⟩⟩ : Irect).ul)
          ((⟨⟨0, 0⟩, ⟨1, 1⟩⟩ : Irect).lr.u + 1 + 1 - (⟨⟨0, 0⟩, ⟨1, 1⟩⟩ : Irect).ul.u).toNat
          (loadFootprint truncIpt (engine ResamplerType.NN (1 / 2) 2 1 1000 rampTile)
            ⟨⟨0, 0⟩, ⟨1, 1⟩⟩)))).m_centerPts 1 =
      mapToImage (engine ResamplerType.NN (1 / 2) 2 1 1000 rampTile)
        ⟨(⟨⟨0, 0⟩, ⟨1, 1⟩⟩ : Irect).ul.u + ((1 : Nat) : Int),
          (⟨⟨0, 0⟩, ⟨1, 1⟩⟩ : Irect).ul.v + ((1 : Nat) : Int)⟩ :=
  (C23_center_point_from_cache truncIpt sqrtQ (engine ResamplerType.NN (1 / 2) 2 1 1000 rampTile)
    ⟨⟨0, 0⟩, ⟨1, 1⟩⟩ (by decide) 1 1 0 (by decide) (by decide) (by decide)).1

/-! ## Null output of the weighted-mean resamplers -/

/-- C21 (counterexample). LWM, radius of influence `1/8` (which is at least 0.1), one band,
uniform input tile of value 7 with null sentinel 1000, mapped point `(1/2, 1/2)` with east
and south points `1/8` pixel away: `resample` writes the null sentinel although none of the
nine taps is null; every tap is out of influence. -/
theorem C21_null_written_without_null_tap :
    (resample truncIpt sqrtQ (engine ResamplerType.LWM (1 / 8) 2 1 1000 (uniformTile 7)) ⟨4, 4⟩
      ⟨1 / 2, 1 / 2⟩ ⟨5 / 8, 1 / 2⟩ ⟨1 / 2, 5 / 8⟩).m_mapTile.val 4 4 0 =
      some (engine ResamplerType.LWM (1 / 8) 2 1 1000 (uniformTile 7)).m_nullPix ∧
    (∀ p, p ∈ tapPositions (truncIpt ⟨1 / 2, 1 / 2⟩) →
      (uniformTile 7).getPix p 0 ≠
        (engine ResamplerType.LWM (1 / 8) 2 1 1000 (uniformTile 7)).m_nullPix) ∧
    (1 : ℚ) / 10 ≤ (engine ResamplerType.LWM (1 / 8) 2 1 1000 (uniformTile 7)).m_radius := by
  refine ⟨resample_out_of_influence, ?_, ?_⟩
  · intro p _
    norm_num [uniformTile, engine]
  · norm_num [engine]

/-- C21 (amended). For LWM and for DWM (the square root being non-negative), for every
mapped point and radius of influence: if the value `resample` writes for the first band
equals the null sentinel, then either the weight sum `W` of that band is positive and the
weighted mean of the taps happens to equal the value of the sentinel, or every one of the
nine taps of that band equals the null sentinel or has kernel weight 0. -/
theorem C21_null_output_first_band (toIpt : Dpt → Ipt) (sqrt : ℚ → ℚ) (s : OrthoTileSource)
    (mapPt : Ipt) (P E S : Dpt) (hsqrt : ∀ x, 0 ≤ sqrt x) (hb : 0 < s.m_numBands)
    (hnull : (resample toIpt sqrt s mapPt P E S).m_mapTile.val mapPt.u mapPt.v 0 =
      some s.m_nullPix) :
    (0 < bandWeightSum toIpt sqrt s mapPt P E S 0 ∧
      (forUpTo (resampleBand mapPt (toIpt P)) 1
          (resampleKernel toIpt sqrt s P E S)).m_kernel.dot
          (fetchTaps s.m_imageTile (toIpt P) 0) /
        bandWeightSum toIpt sqrt s mapPt P E S 0 = s.m_nullPix) ∨
    NullOrWeightless s.m_nullPix (fetchTaps s.m_imageTile (toIpt P) 0)
      (resampleKernel toIpt sqrt s P E S).m_kernel := by
  obtain ⟨h1, h2, _⟩ := resampleKernel_frame toIpt sqrt s P E S
  have hv := resample_val toIpt sqrt s mapPt P E S 0 hb
  rw [hv] at hnull
  have hm : weightedMean s.m_nullPix
      (forUpTo (resampleBand mapPt (toIpt P)) 1 (resampleKernel toIpt sqrt s P E S)).m_kernel
      (fetchTaps s.m_imageTile (toIpt P) 0) = s.m_nullPix := Option.some.inj hnull
  by_cases hW : 0 < (forUpTo (resampleBand mapPt (toIpt P)) 1
      (resampleKernel toIpt sqrt s P E S)).m_kernel.sum
  · left
    refine ⟨hW, ?_⟩
    unfold weightedMean at hm
    dsimp only at hm
    rw [if_pos hW] at hm
    exact hm
  · right
    have hk : (forUpTo (resampleBand mapPt (toIpt P)) 1
        (resampleKernel toIpt sqrt s P E S)).m_kernel =
        maskNull s.m_nullPix (fetchTaps s.m_imageTile (toIpt P) 0)
          (resampleKernel toIpt sqrt s P E S).m_kernel := by
      rw [forUpTo_resampleBand_kernel, h1, h2]
      rfl
    have hnn := maskNull_nonneg s.m_nullPix (fetchTaps s.m_imageTile (toIpt P) 0) _
      (resampleKernel_nonneg toIpt sqrt hsqrt s P E S)
    rw [hk] at hW
    obtain ⟨z0, z1, z2, z3, z4, z5, z6, z7, z8⟩ := kernel_zero_of_sum_le _ hnn hW
    obtain ⟨p0, p1, p2, p3, p4, p5, p6, p7, p8⟩ := maskNull_proj s.m_nullPix
      (fetchTaps s.m_imageTile (toIpt P) 0) (resampleKernel toIpt sqrt s P E S).m_kernel
    rw [p0] at z0
    rw [p1] at z1
    rw [p2] at z2
    rw [p3] at z3
    rw [p4] at z4
    rw [p5] at z5
    rw [p6] at z6
    rw [p7] at z7
    rw [p8] at z8
    exact ⟨null_or_zero_of_masked _ _ _ z0, null_or_zero_of_masked _ _ _ z1,
      null_or_zero_of_masked _ _ _ z2, null_or_zero_of_masked _ _ _ z3,
      null_or_zero_of_masked _ _ _ z4, null_or_zero_of_masked _ _ _ z5,
      null_or_zero_of_masked _ _ _ z6, null_or_zero_of_masked _ _ _ z7,
      null_or_zero_of_masked _ _ _ z8⟩

/-- Witness of C21 (amended): the out-of-influence call `resample_out_of_influence`. -/
theorem C21_null_output_first_band_witness :
    (0 < bandWeightSum truncIpt sqrtQ (engine ResamplerType.LWM (1 / 8) 2 1 1000 (uniformTile 7))
        ⟨4, 4⟩ ⟨1 / 2, 1 / 2⟩ ⟨5 / 8, 1 / 2⟩ ⟨1 / 2, 5 / 8⟩ 0 ∧
      (forUpTo (resampleBand ⟨4, 4⟩ (truncIpt ⟨1 / 2, 1 / 2⟩)) 1
          (resampleKernel truncIpt sqrtQ (engine ResamplerType.LWM (1 / 8) 2 1 1000 (uniformTile 7))
            ⟨1 / 2, 1 / 2⟩ ⟨5 / 8, 1 / 2⟩ ⟨1 / 2, 5 / 8⟩)).m_kernel.dot
          (fetchTaps (engine ResamplerType.LWM (1 / 8) 2 1 1000 (uniformTile 7)).m_imageTile
            (truncIpt ⟨1 / 2, 1 / 2⟩) 0) /
        bandWeightSum truncIpt sqrtQ (engine ResamplerType.LWM (1 / 8) 2 1 1000 (uniformTile 7))
          ⟨4, 4⟩ ⟨1 / 2, 1 / 2⟩ ⟨5 / 8, 1 / 2⟩ ⟨1 / 2, 5 / 8⟩ 0 =
        (engine ResamplerType.LWM (1 / 8) 2 1 1000 (uniformTile 7)).m_nullPix) ∨
    NullOrWeightless (engine ResamplerType.LWM (1 / 8) 2 1 1000 (uniformTile 7)).m_nullPix
      (fetchTaps (engine ResamplerType.LWM (1 / 8) 2 1 1000 (uniformTile 7)).m_imageTile
        (truncIpt ⟨1 / 2, 1 / 2⟩) 0)
      (resampleKernel truncIpt sqrtQ (engine ResamplerType.LWM (1 / 8) 2 1 1000 (uniformTile 7))
        ⟨1 / 2, 1 / 2⟩ ⟨5 / 8, 1 / 2⟩ ⟨1 / 2, 5 / 8⟩).m_kernel :=
  C21_null_output_first_band truncIpt sqrtQ
    (engine ResamplerType.LWM (1 / 8) 2 1 1000 (uniformTile 7)) ⟨4, 4⟩ ⟨1 / 2, 1 / 2⟩
    ⟨5 / 8, 1 / 2⟩ ⟨1 / 2, 5 / 8⟩ sqrtQ_nonneg (by decide) resample_out_of_influence

end Orthoism
